import Mathlib

/-!
# rive-cpp: dirt flags and the cubic interpolator

A shallow embedding of two source files of the runtime:

* `rive/include/component_dirt.hpp`: the `ComponentDirt` flag enumeration and its bitwise
  operators;
* `src/animation/cubic_interpolator.cpp`: `calcBezier`, `getSlope`, `onAddedDirty`, `getT`
  and `import`.

The interpolator is embedded twice.  In `rive.CubicInterpolator` floating point numbers are
idealised as exact rationals (`ℚ`); in `rive.Binary32` every operation is rounded to the
nearest binary32 number, as the C++ type `float` does.  Every definition is computable and
every comparison decidable.  General statements are proved in exact arithmetic; where rounding
changes a branch or a result beyond the last places, the binary32 functions are evaluated at
the inputs concerned.  The table size `SplineTableSize` and the step `SampleStepSize` are
declared in a header that is not part of the sources at hand; the table size is a parameter
`N` of the model and the step is `1 / (N - 1)` (`11` and `0.1` upstream).
-/

namespace rive

/-! ## `component_dirt.hpp` -/

/-- The type `enum class ComponentDirt : unsigned short`: since the underlying type is fixed,
every 16-bit value is a value of the enumeration. -/
abbrev ComponentDirt := Fin 65536

namespace ComponentDirt

/-- The conversion `static_cast<ComponentDirt>(v)` of a non-negative `int` value: truncation to
the 16 bits of `unsigned short`. -/
def ofNat (v : Nat) : ComponentDirt := ⟨v % 65536, Nat.mod_lt _ (by decide)⟩

/-- The conversion `static_cast<ComponentDirt>(v)` of an arbitrary `int` value: reduction modulo
`2^16`. -/
def ofInt (v : Int) : ComponentDirt :=
  ⟨(v % 65536).toNat, by omega⟩

/-- The enumerator `None = 0`. -/
def None : ComponentDirt := ofNat 0
/-- The enumerator `Dependents = 1 << 0`. -/
def Dependents : ComponentDirt := ofNat (1 <<< 0)
/-- The enumerator `Components = 1 << 1`. -/
def Components : ComponentDirt := ofNat (1 <<< 1)
/-- The enumerator `DrawOrder = 1 << 2`. -/
def DrawOrder : ComponentDirt := ofNat (1 <<< 2)
/-- The enumerator `Path = 1 << 3`. -/
def Path : ComponentDirt := ofNat (1 <<< 3)
/-- The enumerator `Vertices = 1 << 4`. -/
def Vertices : ComponentDirt := ofNat (1 <<< 4)
/-- The enumerator `Transform = 1 << 5`. -/
def Transform : ComponentDirt := ofNat (1 <<< 5)
/-- The enumerator `WorldTransform = 1 << 6`. -/
def WorldTransform : ComponentDirt := ofNat (1 <<< 6)
/-- The enumerator `Paint = 1 << 7`. -/
def Paint : ComponentDirt := ofNat (1 <<< 7)
/-- The enumerator `Stops = 1 << 8`. -/
def Stops : ComponentDirt := ofNat (1 <<< 8)
/-- The enumerator `Filthy = 0xFF`. -/
def Filthy : ComponentDirt := ofNat 0xFF

/-- The named reasons of the enumeration, `None` and `Filthy` apart. -/
def namedReasons : List ComponentDirt :=
  [Dependents, Components, DrawOrder, Path, Vertices, Transform, WorldTransform, Paint, Stops]

/-- The function `operator&`: both operands are promoted to `int` (their bits are unchanged, the
values being non-negative), combined, and converted back. -/
def and (lhs rhs : ComponentDirt) : ComponentDirt := ofNat (lhs.val &&& rhs.val)

/-- The function `operator^`. -/
def xor (lhs rhs : ComponentDirt) : ComponentDirt := ofNat (lhs.val ^^^ rhs.val)

/-- The function `operator|`. -/
def or (lhs rhs : ComponentDirt) : ComponentDirt := ofNat (lhs.val ||| rhs.val)

/-- The function `operator~`: the operand is promoted to `int`, complemented there
(`~v = -v - 1`), and the result is converted back to the 16-bit type. -/
def not (rhs : ComponentDirt) : ComponentDirt := ofInt (-(rhs.val : Int) - 1)

/-- The function `operator|=`: the new value of `lhs`, which is also the value returned. -/
def orAssign (lhs rhs : ComponentDirt) : ComponentDirt := ofNat (lhs.val ||| rhs.val)

/-- The function `operator&=`: the new value of `lhs`, which is also the value returned. -/
def andAssign (lhs rhs : ComponentDirt) : ComponentDirt := ofNat (lhs.val &&& rhs.val)

/-- The function `operator^=`: the new value of `lhs`, which is also the value returned. -/
def xorAssign (lhs rhs : ComponentDirt) : ComponentDirt := ofNat (lhs.val ^^^ rhs.val)

/-- Modelled from the spec: the accessor `has(mask, reason)` is not in the header; the spec
defines it as `intersect(mask, reason) != None`. -/
def has (mask reason : ComponentDirt) : Bool := decide (and mask reason ≠ None)

/-- The bit `i` of a mask. -/
def bit (mask : ComponentDirt) (i : Nat) : Bool := mask.val.testBit i

end ComponentDirt

/-! ## `cubic_interpolator.cpp` -/

/-- Modelled from the spec: the enumeration `StatusCode` is declared outside the sources at
hand; the hooks of a component return success (`Ok`) or the code of a structural failure, of
which `MissingObject` is the one `CubicInterpolator::import` uses. -/
inductive StatusCode where
  | Ok
  | MissingObject
  | InvalidObject
  deriving DecidableEq, Repr

/-- The constant `NewtonIterations`. -/
def NewtonIterations : Nat := 4
/-- The constant `NewtonMinSlope = 0.001f`, as an exact rational. -/
def NewtonMinSlope : ℚ := 1 / 1000
/-- The constant `SubdivisionPrecision = 0.0000001f`, as an exact rational. -/
def SubdivisionPrecision : ℚ := 1 / 10000000
/-- The constant `SubdivisionMaxIterations`. -/
def SubdivisionMaxIterations : Nat := 10

/-- Modelled from the spec: `SampleStepSize` is declared in a header that is not in the sources;
for a table of `N` uniformly spaced samples of `[0, 1]` the step is `1 / (N - 1)`. -/
def SampleStepSize (N : Nat) : ℚ := 1 / ((N : ℚ) - 1)

/-- The state of a `CubicInterpolator`: the control coordinates `x1()`, `x2()` and the table
`m_Values`.  The table is a map from index to value; the code reads and writes it only at
indices below `SplineTableSize`. -/
structure CubicInterpolator where
  x1 : ℚ
  x2 : ℚ
  m_Values : Nat → ℚ

/-- Modelled from the spec: the `ArtboardImporter` found on the import stack (its class is not in
the sources); it records the components attached to the artboard under construction. -/
structure ArtboardImporter where
  components : List Nat
  deriving DecidableEq, Repr

/-- Modelled from the spec: `ArtboardImporter::addComponent` attaches one more object to the
artboard. -/
def ArtboardImporter.addComponent (a : ArtboardImporter) (object : Nat) : ArtboardImporter :=
  ⟨a.components ++ [object]⟩

/-- Modelled from the spec: the class `ImportStack` is not in the sources.  The stack is
represented as `CubicInterpolator::import` sees it: the result of
`latest<ArtboardImporter>(ArtboardBase::typeKey)` (`none` for `nullptr`) and the rest of the
stack, of an arbitrary type `σ`. -/
structure ImportStack (σ : Type) where
  latestArtboard : Option ArtboardImporter
  rest : σ

namespace CubicInterpolator

/-- The function `CubicInterpolator::calcBezier`. -/
def calcBezier (aT aA1 aA2 : ℚ) : ℚ :=
  (((1 - 3 * aA2 + 3 * aA1) * aT + (3 * aA2 - 6 * aA1)) * aT + (3 * aA1)) * aT

/-- The static function `getSlope`. -/
def getSlope (aT aA1 aA2 : ℚ) : ℚ :=
  3 * (1 - 3 * aA2 + 3 * aA1) * aT * aT + 2 * (3 * aA2 - 6 * aA1) * aT + (3 * aA1)

/-- The loop of `onAddedDirty`, `for (int i = 0; i < SplineTableSize; ++i)`, from the index `i`
on; `fuel` bounds the number of iterations. -/
def fillValues (N : Nat) (x1 x2 : ℚ) : Nat → Nat → (Nat → ℚ) → (Nat → ℚ)
  | 0, _, m => m
  | fuel + 1, i, m =>
    if i < N then
      fillValues N x1 x2 fuel (i + 1)
        (Function.update m i (calcBezier ((i : ℚ) * SampleStepSize N) x1 x2))
    else m

/-- The function `CubicInterpolator::onAddedDirty`: the status returned and the new state. -/
def onAddedDirty (N : Nat) (c : CubicInterpolator) : StatusCode × CubicInterpolator :=
  (StatusCode.Ok, { c with m_Values := fillValues N c.x1 c.x2 N 0 c.m_Values })

/-- The scan loop of `getT`,
`for (; currentSample != lastSample && m_Values[currentSample] <= x; ++currentSample)`,
from the state `(currentSample, intervalStart)`; `fuel` bounds the number of iterations. -/
def scanLoop (N : Nat) (m : Nat → ℚ) (x : ℚ) (lastSample : Nat) : Nat → Nat → ℚ → Nat × ℚ
  | 0, currentSample, intervalStart => (currentSample, intervalStart)
  | fuel + 1, currentSample, intervalStart =>
    if currentSample ≠ lastSample ∧ m currentSample ≤ x then
      scanLoop N m x lastSample fuel (currentSample + 1) (intervalStart + SampleStepSize N)
    else (currentSample, intervalStart)

/-- The Newton-Raphson loop of `getT` with `n` iterations left. -/
def newtonLoop (x x1 x2 : ℚ) : Nat → ℚ → ℚ
  | 0, guessForT => guessForT
  | n + 1, guessForT =>
    let currentSlope := getSlope guessForT x1 x2
    if currentSlope = 0 then guessForT
    else
      let currentX := calcBezier guessForT x1 x2 - x
      newtonLoop x x1 x2 n (guessForT - currentX / currentSlope)

/-- The bisection loop of `getT`, `do ... while (std::abs(currentX) > SubdivisionPrecision &&
++i < SubdivisionMaxIterations)`, from the state `(i, intervalStart, aB)`; `fuel` bounds the
number of iterations. -/
def subdivideLoop (x x1 x2 : ℚ) : Nat → Nat → ℚ → ℚ → ℚ
  | 0, _, intervalStart, aB => intervalStart + (aB - intervalStart) / 2
  | fuel + 1, i, intervalStart, aB =>
    let currentT := intervalStart + (aB - intervalStart) / 2
    let currentX := calcBezier currentT x1 x2 - x
    if |currentX| > SubdivisionPrecision ∧ i + 1 < SubdivisionMaxIterations then
      if currentX > 0 then subdivideLoop x x1 x2 fuel (i + 1) intervalStart currentT
      else subdivideLoop x x1 x2 fuel (i + 1) currentT aB
    else currentT

/-- The table index selected by the scan of `getT`: the value of `currentSample` after
`--currentSample`. -/
def scanIndex (N : Nat) (c : CubicInterpolator) (x : ℚ) : Nat :=
  (scanLoop N c.m_Values x (N - 1) N 1 0).1 - 1

/-- The value of `intervalStart` after the scan of `getT`. -/
def scanStart (N : Nat) (c : CubicInterpolator) (x : ℚ) : ℚ :=
  (scanLoop N c.m_Values x (N - 1) N 1 0).2

/-- The initial guess `guessForT` of `getT`, interpolated in the selected table interval. -/
def initialGuess (N : Nat) (c : CubicInterpolator) (x : ℚ) : ℚ :=
  let currentSample := scanIndex N c x
  let dist := (x - c.m_Values currentSample) /
    (c.m_Values (currentSample + 1) - c.m_Values currentSample)
  scanStart N c x + dist * SampleStepSize N

/-- The function `CubicInterpolator::getT`. -/
def getT (N : Nat) (c : CubicInterpolator) (x : ℚ) : ℚ :=
  let intervalStart := scanStart N c x
  let guessForT := initialGuess N c x
  let initialSlope := getSlope guessForT c.x1 c.x2
  if initialSlope ≥ NewtonMinSlope then
    newtonLoop x c.x1 c.x2 NewtonIterations guessForT
  else if initialSlope = 0 then guessForT
  else
    subdivideLoop x c.x1 c.x2 SubdivisionMaxIterations 0 intervalStart
      (intervalStart + SampleStepSize N)

/-- The function `CubicInterpolator::import` for the object `self`: the status returned and
the state of the import stack afterwards.  `superImport` is `Super::import`, which is not in the
sources. -/
def import_ {σ : Type} (superImport : ImportStack σ → StatusCode × ImportStack σ)
    (self : Nat) (importStack : ImportStack σ) : StatusCode × ImportStack σ :=
  match importStack.latestArtboard with
  | none => (StatusCode.MissingObject, importStack)
  | some artboardImporter =>
    superImport { importStack with latestArtboard := some (artboardImporter.addComponent self) }

/-- The interpolator with control coordinates `x1`, `x2` after `onAddedDirty`, from a table
holding `m` before. -/
def built (N : Nat) (x1 x2 : ℚ) (m : Nat → ℚ) : CubicInterpolator :=
  (onAddedDirty N ⟨x1, x2, m⟩).2

/-- The expression of `calcBezier` evaluated in an arbitrary field `K`: over `ℚ` it is
`calcBezier` itself, over `ℝ` it is the curve whose rational points the model computes. -/
def calcBezierIn {K : Type} [Field K] (aT aA1 aA2 : K) : K :=
  (((1 - 3 * aA2 + 3 * aA1) * aT + (3 * aA2 - 6 * aA1)) * aT + (3 * aA1)) * aT

/-- The expression of `getSlope` evaluated in an arbitrary field `K`. -/
def getSlopeIn {K : Type} [Field K] (aT aA1 aA2 : K) : K :=
  3 * (1 - 3 * aA2 + 3 * aA1) * aT * aT + 2 * (3 * aA2 - 6 * aA1) * aT + (3 * aA1)

/-- The Newton-Raphson loop of `getT` with a record of its updates: for each execution of
`guessForT -= currentX / currentSlope`, the divisor `currentSlope` and the new `guessForT`. -/
def newtonTrace (x x1 x2 : ℚ) : Nat → ℚ → List (ℚ × ℚ)
  | 0, _ => []
  | n + 1, guessForT =>
    let currentSlope := getSlope guessForT x1 x2
    if currentSlope = 0 then []
    else
      let currentX := calcBezier guessForT x1 x2 - x
      (currentSlope, guessForT - currentX / currentSlope) ::
        newtonTrace x x1 x2 n (guessForT - currentX / currentSlope)

/-- The variables of the bisection loop of `getT` at the end of one execution of its body. -/
structure SubdivisionStep where
  currentT : ℚ
  intervalStart : ℚ
  aB : ℚ
  deriving DecidableEq, Repr

/-- The body of the bisection loop of `getT`, from the bracket `(intervalStart, aB)`. -/
def subdivideStep (x x1 x2 intervalStart aB : ℚ) : SubdivisionStep :=
  let currentT := intervalStart + (aB - intervalStart) / 2
  let currentX := calcBezier currentT x1 x2 - x
  if currentX > 0 then ⟨currentT, intervalStart, currentT⟩ else ⟨currentT, currentT, aB⟩

/-- The bisection loop of `getT` with a record of its iterations: the variables after each
execution of the body, in order. -/
def subdivideTrace (x x1 x2 : ℚ) : Nat → Nat → ℚ → ℚ → List SubdivisionStep
  | 0, _, intervalStart, aB => [subdivideStep x x1 x2 intervalStart aB]
  | fuel + 1, i, intervalStart, aB =>
    let s := subdivideStep x x1 x2 intervalStart aB
    if |calcBezier s.currentT x1 x2 - x| > SubdivisionPrecision ∧
        i + 1 < SubdivisionMaxIterations then
      s :: subdivideTrace x x1 x2 fuel (i + 1) s.intervalStart s.aB
    else [s]

/-- Half the second derivative of the expression of `calcBezier` with respect to `aT`, at
`t`: the coefficient of `h ^ 2` in the expansion of `calcBezier (t + h)`. -/
def curvature (t x1 x2 : ℚ) : ℚ := 3 * (1 - 3 * x2 + 3 * x1) * t + (3 * x2 - 6 * x1)

/-- The largest absolute value of `curvature` on `[0, 1]`: `curvature` is affine in `t`, so this
is the larger of its absolute values at `0` and at `1`. -/
def maxCurvature (x1 x2 : ℚ) : ℚ := max |curvature 0 x1 x2| |curvature 1 x1 x2|

/-- The table index of the scan as the spec words it: the largest `k`, `1 ≤ k < N - 1`, with
`table[k] ≤ x` (`0` when there is none). -/
def specScanIndex (N : Nat) (m : Nat → ℚ) (x : ℚ) : Nat :=
  Nat.findGreatest (fun k => 1 ≤ k ∧ m k ≤ x) (N - 2)

/-- The interval start as the spec words it: `(k - 1) * step`. -/
def specIntervalStart (N k : Nat) : ℚ := ((k : ℚ) - 1) * SampleStepSize N

/-- The initial guess as the spec words it:
`intervalStart + step * (x - table[k]) / (table[k+1] - table[k])` with
`intervalStart = (k - 1) * step`. -/
def specGuess (N : Nat) (m : Nat → ℚ) (x : ℚ) (k : Nat) : ℚ :=
  specIntervalStart N k + SampleStepSize N * ((x - m k) / (m (k + 1) - m k))

end CubicInterpolator

/-! ## `cubic_interpolator.cpp` in binary32 arithmetic

The same functions with the arithmetic of the C++ type `float`: every operation is the exact
operation followed by rounding to the nearest binary32 number, ties to even.  Numbers are
represented by the rationals they denote; infinities and NaN are not represented (the
quantities of the interpolator stay far below `2 ^ 128`), and a division by zero gives `0`. -/

namespace Binary32

/-- The power `2 ^ e` for an integer exponent. -/
def pow2 (e : Int) : ℚ :=
  if 0 ≤ e then ((2 ^ e.toNat : Nat) : ℚ) else 1 / ((2 ^ (-e).toNat : Nat) : ℚ)

/-- The number of halvings that bring `n` below `2` (`⌊log₂ n⌋` for `n ≥ 1`, given enough
fuel). -/
def natLog2 : Nat → Nat → Nat
  | 0, _ => 0
  | fuel + 1, n => if n < 2 then 0 else natLog2 fuel (n / 2) + 1

/-- The exponent `⌊log₂ |q|⌋` of a rational `q ≠ 0`. -/
def floorLog2 (q : ℚ) : Int :=
  let d : Int := (natLog2 q.num.natAbs q.num.natAbs : Int) - (natLog2 q.den q.den : Int)
  if pow2 d ≤ |q| then d else d - 1

/-- The integer nearest to `q`, the even one when `q` is half-way between two integers. -/
def roundToEven (q : ℚ) : Int :=
  let f : Int := ⌊q⌋
  let r : ℚ := q - f
  if r < 1 / 2 then f else if 1 / 2 < r then f + 1 else if f % 2 = 0 then f else f + 1

/-- The binary32 number nearest to `q` (24 significant bits, least exponent `-126`, with
subnormal numbers), ties to even. -/
def roundNearest (q : ℚ) : ℚ :=
  if q = 0 then 0
  else
    let e := max (floorLog2 q) (-126)
    (roundToEven (q / pow2 (e - 23)) : ℚ) * pow2 (e - 23)

/-- The `float` operation `a + b`. -/
def add (a b : ℚ) : ℚ := roundNearest (a + b)
/-- The `float` operation `a - b`. -/
def sub (a b : ℚ) : ℚ := roundNearest (a - b)
/-- The `float` operation `a * b`. -/
def mul (a b : ℚ) : ℚ := roundNearest (a * b)
/-- The `float` operation `a / b`. -/
def div (a b : ℚ) : ℚ := roundNearest (a / b)

/-- The constant `NewtonMinSlope = 0.001f`. -/
def NewtonMinSlope : ℚ := roundNearest (1 / 1000)
/-- The constant `SubdivisionPrecision = 0.0000001f`. -/
def SubdivisionPrecision : ℚ := roundNearest (1 / 10000000)

/-- Modelled from the spec: `SampleStepSize` is declared in a header that is not in the sources;
upstream it is `1.0f / (SplineTableSize - 1.0f)`, the binary32 number nearest to `1 / (N - 1)`. -/
def SampleStepSize (N : Nat) : ℚ := div 1 (sub (N : ℚ) 1)

/-- The function `CubicInterpolator::calcBezier` in binary32 arithmetic. -/
def calcBezier (aT aA1 aA2 : ℚ) : ℚ :=
  mul (add (mul (add (mul (add (sub 1 (mul 3 aA2)) (mul 3 aA1)) aT)
    (sub (mul 3 aA2) (mul 6 aA1))) aT) (mul 3 aA1)) aT

/-- The static function `getSlope` in binary32 arithmetic. -/
def getSlope (aT aA1 aA2 : ℚ) : ℚ :=
  add (add (mul (mul (mul 3 (add (sub 1 (mul 3 aA2)) (mul 3 aA1))) aT) aT)
    (mul (mul 2 (sub (mul 3 aA2) (mul 6 aA1))) aT)) (mul 3 aA1)

/-- The loop of `onAddedDirty` in binary32 arithmetic: the index `i` is converted to `float`
and multiplied by `SampleStepSize`. -/
def fillValues (N : Nat) (x1 x2 : ℚ) : Nat → Nat → (Nat → ℚ) → (Nat → ℚ)
  | 0, _, m => m
  | fuel + 1, i, m =>
    if i < N then
      fillValues N x1 x2 fuel (i + 1)
        (Function.update m i (calcBezier (mul (i : ℚ) (SampleStepSize N)) x1 x2))
    else m

/-- The function `CubicInterpolator::onAddedDirty` in binary32 arithmetic. -/
def onAddedDirty (N : Nat) (c : CubicInterpolator) : StatusCode × CubicInterpolator :=
  (StatusCode.Ok, { c with m_Values := fillValues N c.x1 c.x2 N 0 c.m_Values })

/-- The scan loop of `getT` in binary32 arithmetic: `intervalStart` accumulates the rounded
sums. -/
def scanLoop (N : Nat) (m : Nat → ℚ) (x : ℚ) (lastSample : Nat) : Nat → Nat → ℚ → Nat × ℚ
  | 0, currentSample, intervalStart => (currentSample, intervalStart)
  | fuel + 1, currentSample, intervalStart =>
    if currentSample ≠ lastSample ∧ m currentSample ≤ x then
      scanLoop N m x lastSample fuel (currentSample + 1) (add intervalStart (SampleStepSize N))
    else (currentSample, intervalStart)

/-- The Newton-Raphson loop of `getT` in binary32 arithmetic. -/
def newtonLoop (x x1 x2 : ℚ) : Nat → ℚ → ℚ
  | 0, guessForT => guessForT
  | n + 1, guessForT =>
    let currentSlope := getSlope guessForT x1 x2
    if currentSlope = 0 then guessForT
    else
      let currentX := sub (calcBezier guessForT x1 x2) x
      newtonLoop x x1 x2 n (sub guessForT (div currentX currentSlope))

/-- The bisection loop of `getT` in binary32 arithmetic. -/
def subdivideLoop (x x1 x2 : ℚ) : Nat → Nat → ℚ → ℚ → ℚ
  | 0, _, intervalStart, aB => add intervalStart (div (sub aB intervalStart) 2)
  | fuel + 1, i, intervalStart, aB =>
    let currentT := add intervalStart (div (sub aB intervalStart) 2)
    let currentX := sub (calcBezier currentT x1 x2) x
    if |currentX| > SubdivisionPrecision ∧ i + 1 < SubdivisionMaxIterations then
      if currentX > 0 then subdivideLoop x x1 x2 fuel (i + 1) intervalStart currentT
      else subdivideLoop x x1 x2 fuel (i + 1) currentT aB
    else currentT

/-- The value of `intervalStart` after the scan of `getT`, in binary32 arithmetic. -/
def scanStart (N : Nat) (c : CubicInterpolator) (x : ℚ) : ℚ :=
  (scanLoop N c.m_Values x (N - 1) N 1 0).2

/-- The table index selected by the scan of `getT`, in binary32 arithmetic. -/
def scanIndex (N : Nat) (c : CubicInterpolator) (x : ℚ) : Nat :=
  (scanLoop N c.m_Values x (N - 1) N 1 0).1 - 1

/-- The function `CubicInterpolator::getT` in binary32 arithmetic. -/
def getT (N : Nat) (c : CubicInterpolator) (x : ℚ) : ℚ :=
  let currentSample := scanIndex N c x
  let intervalStart := scanStart N c x
  let dist := div (sub x (c.m_Values currentSample))
    (sub (c.m_Values (currentSample + 1)) (c.m_Values currentSample))
  let guessForT := add intervalStart (mul dist (SampleStepSize N))
  let initialSlope := getSlope guessForT c.x1 c.x2
  if initialSlope ≥ NewtonMinSlope then
    newtonLoop x c.x1 c.x2 NewtonIterations guessForT
  else if initialSlope = 0 then guessForT
  else
    subdivideLoop x c.x1 c.x2 SubdivisionMaxIterations 0 intervalStart
      (add intervalStart (SampleStepSize N))

/-- The interpolator with control coordinates `x1`, `x2` after `onAddedDirty` in binary32
arithmetic, from a table holding `m` before. -/
def built (N : Nat) (x1 x2 : ℚ) (m : Nat → ℚ) : CubicInterpolator :=
  (onAddedDirty N ⟨x1, x2, m⟩).2

end Binary32

end rive

/-! ## Dirt flags: the bitwise operators -/

namespace rive.ComponentDirt

theorem val_and (a b : ComponentDirt) : (and a b).val = a.val &&& b.val := by
  have h : a.val &&& b.val < 2 ^ 16 := Nat.and_lt_two_pow _ b.isLt
  show (a.val &&& b.val) % 65536 = _
  omega

theorem val_or (a b : ComponentDirt) : (or a b).val = a.val ||| b.val := by
  have h : a.val ||| b.val < 2 ^ 16 := Nat.or_lt_two_pow a.isLt b.isLt
  show (a.val ||| b.val) % 65536 = _
  omega

theorem val_orAssign (a b : ComponentDirt) : (orAssign a b).val = a.val ||| b.val :=
  val_or a b

theorem val_not (a : ComponentDirt) : (not a).val = 65535 - a.val := by
  have h := a.isLt
  show ((-(a.val : Int) - 1) % 65536).toNat = _
  omega

theorem bit_and (a b : ComponentDirt) (i : Nat) : bit (and a b) i = (bit a i && bit b i) := by
  simp [bit, val_and]

theorem bit_or (a b : ComponentDirt) (i : Nat) : bit (or a b) i = (bit a i || bit b i) := by
  simp [bit, val_or]

theorem bit_not (a : ComponentDirt) (i : Nat) :
    bit (not a) i = (decide (i < 16) && !bit a i) := by
  have h : a.val < 2 ^ 16 := a.isLt
  have e : 65535 - a.val = 2 ^ 16 - (a.val + 1) := by omega
  simp only [bit, val_not, e]
  exact Nat.testBit_two_pow_sub_succ h i

theorem bit_of_ge (a : ComponentDirt) (i : Nat) (hi : 16 ≤ i) : bit a i = false := by
  have h : a.val < 2 ^ 16 := a.isLt
  exact Nat.testBit_lt_two_pow (lt_of_lt_of_le h (Nat.pow_le_pow_right (by decide) hi))

theorem ext_bit {a b : ComponentDirt} (h : ∀ i, bit a i = bit b i) : a = b :=
  Fin.ext (Nat.eq_of_testBit_eq h)

theorem bit_None (i : Nat) : bit None i = false := by
  simp [bit, None, ofNat]

end rive.ComponentDirt

namespace rive.ComponentDirt

theorem has_iff_common_bit (mask reason : ComponentDirt) :
    has mask reason = true ↔ ∃ i, bit mask i = true ∧ bit reason i = true := by
  unfold has
  rw [decide_eq_true_iff]
  constructor
  · intro h
    have hv : (and mask reason).val ≠ 0 := fun e => h (Fin.ext e)
    obtain ⟨i, hi⟩ := Nat.ne_zero_implies_bit_true hv
    refine ⟨i, ?_⟩
    have hb : bit (and mask reason) i = true := hi
    rw [bit_and] at hb
    simpa using hb
  · rintro ⟨i, h1, h2⟩ e
    have hb : bit (and mask reason) i = true := by rw [bit_and, h1, h2]; rfl
    rw [e, bit_None] at hb
    exact Bool.false_ne_true hb

theorem bit_Components (i : Nat) : bit Components i = decide (i = 1) := by
  show Nat.testBit 2 i = _
  have h2 : Nat.testBit (2 ^ 1) i = decide (1 = i) := Nat.testBit_two_pow
  simp only [pow_one] at h2
  rw [h2]
  simp [eq_comm]

theorem bit_Dependents (i : Nat) : bit Dependents i = decide (i = 0) := by
  show Nat.testBit 1 i = _
  have h2 : Nat.testBit (2 ^ 0) i = decide (0 = i) := Nat.testBit_two_pow
  simp only [pow_zero] at h2
  rw [h2]
  simp [eq_comm]

theorem has_Components (mask : ComponentDirt) : has mask Components = bit mask 1 := by
  rw [Bool.eq_iff_iff, has_iff_common_bit]
  constructor
  · rintro ⟨i, h1, h2⟩
    rw [bit_Components, decide_eq_true_iff] at h2
    rw [← h2]; exact h1
  · intro h
    exact ⟨1, h, by rw [bit_Components]; rfl⟩

theorem has_Dependents (mask : ComponentDirt) : has mask Dependents = bit mask 0 := by
  rw [Bool.eq_iff_iff, has_iff_common_bit]
  constructor
  · rintro ⟨i, h1, h2⟩
    rw [bit_Dependents, decide_eq_true_iff] at h2
    rw [← h2]; exact h1
  · intro h
    exact ⟨0, h, by rw [bit_Dependents]; rfl⟩

/-- C4 (as stated, refuted): combining `None` with `Path` by `operator|` or `operator|=` gives a
mask that has `Path` but neither `Components` nor `Dependents`. -/
theorem or_None_Path_lacks_Components :
    has (or None Path) Path = true ∧ has (or None Path) Components = false ∧
      has (or None Path) Dependents = false ∧ has (orAssign None Path) Components = false := by
  decide

/-- C4 (amended): `operator|` and `operator|=` are the plain bitwise union.  A bit of the
result is set exactly when it is set in one of the operands, so the result has `Components`
(or `Dependents`) exactly when one of the operands has it; combining `None` with a reason gives
that reason back, and for `Path` the result has `Path` and does not have `Components`. -/
theorem or_is_plain_union (m r : ComponentDirt) :
    (∀ i, bit (or m r) i = (bit m i || bit r i)) ∧
      orAssign m r = or m r ∧
      has (or m r) Components = (has m Components || has r Components) ∧
      has (or m r) Dependents = (has m Dependents || has r Dependents) ∧
      has (or m Components) Components = true ∧
      or None r = r ∧
      has (or None Path) Path = true ∧ has (or None Path) Components = false := by
  refine ⟨fun i => bit_or m r i, rfl, ?_, ?_, ?_, ?_, by decide, by decide⟩
  · simp only [has_Components, bit_or]
  · simp only [has_Dependents, bit_or]
  · rw [has_Components, bit_or, bit_Components]; simp
  · apply ext_bit; intro i; rw [bit_or, bit_None]; simp

/-- C5 (evaluation at the failing input): among the named reasons, `Stops` is the one that
`Filthy` does not contain: `Filthy & Stops` is `None`, and `Filthy | Stops` is not `Filthy`. -/
theorem Filthy_lacks_Stops :
    namedReasons.filter (fun r => decide (and Filthy r ≠ r)) = [Stops] ∧
      and Filthy Stops = None ∧ has Filthy Stops = false ∧ or Filthy Stops ≠ Filthy := by
  decide

/-- C8: for all masks `a`, `b` (any 16-bit value), `a | b = b | a`, `a & a = a` and
`a & ~a = None`, the complement being truncated to the 16 bits of the underlying type. -/
theorem bit_algebra_laws (a b : ComponentDirt) :
    or a b = or b a ∧ and a a = a ∧ and a (not a) = None := by
  refine ⟨?_, ?_, ?_⟩
  · apply ext_bit; intro i; rw [bit_or, bit_or, Bool.or_comm]
  · apply ext_bit; intro i; rw [bit_and, Bool.and_self]
  · apply ext_bit; intro i; rw [bit_and, bit_not, bit_None]
    cases bit a i <;> simp

/-- C9: with `c = m & ~r`, the mask `c` has no bit of `r` (`c & r = None`, so `has(c, r)` is
false), every bit of `m` that is not in `r` is set in `c`, every bit of `c` is a bit of `m`,
and `c | (m & r) = m`. -/
theorem clear_removes_exactly (m r : ComponentDirt) :
    and (and m (not r)) r = None ∧
      has (and m (not r)) r = false ∧
      (∀ i, bit m i = true → bit r i = false → bit (and m (not r)) i = true) ∧
      (∀ i, bit (and m (not r)) i = true → bit m i = true) ∧
      or (and m (not r)) (and m r) = m := by
  have h1 : and (and m (not r)) r = None := by
    apply ext_bit; intro i; rw [bit_and, bit_and, bit_not, bit_None]
    cases bit r i <;> simp
  refine ⟨h1, ?_, ?_, ?_, ?_⟩
  · unfold has; rw [h1]; simp
  · intro i hm hr
    have hi : i < 16 := by
      by_contra hge
      rw [bit_of_ge m i (by omega)] at hm
      exact Bool.false_ne_true hm
    rw [bit_and, bit_not, hm, hr]; simp [hi]
  · intro i h
    rw [bit_and] at h
    simp only [Bool.and_eq_true] at h
    exact h.1
  · apply ext_bit; intro i
    rw [bit_or, bit_and, bit_and, bit_not]
    by_cases hi : i < 16
    · cases bit m i <;> cases bit r i <;> simp [hi]
    · rw [bit_of_ge m i (by omega)]; simp

/-- C9 (witness): clearing `Path` from `Filthy`. -/
theorem clear_removes_exactly_witness :
    and (and Filthy (not Path)) Path = None ∧ bit (and Filthy (not Path)) 2 = true ∧
      bit Filthy 2 = true := by
  have h := clear_removes_exactly Filthy Path
  have h2 : bit (and Filthy (not Path)) 2 = true := h.2.2.1 2 (by decide) (by decide)
  exact ⟨h.1, h2, h.2.2.2.1 2 h2⟩

end rive.ComponentDirt

/-! ## The interpolator: import and table construction -/

namespace rive.CubicInterpolator

/-- C6: without an `ArtboardImporter` on the stack, `import` returns `MissingObject` and leaves
the import stack as it was, whatever `Super::import` would do; with one, the object is added to
it once and the result is the result of `Super::import` on the stack so changed. -/
theorem import_missing_or_attached {σ : Type}
    (superImport : ImportStack σ → StatusCode × ImportStack σ) (self : Nat) (rest : σ) :
    (import_ superImport self ⟨none, rest⟩ = (StatusCode.MissingObject, ⟨none, rest⟩)) ∧
      ∀ a : ArtboardImporter,
        (import_ superImport self ⟨some a, rest⟩ =
            superImport ⟨some (a.addComponent self), rest⟩) ∧
          (import_ superImport self ⟨some a, rest⟩).1 =
            (superImport ⟨some (a.addComponent self), rest⟩).1 ∧
          (a.addComponent self).components = a.components ++ [self] ∧
          (a.addComponent self).components.count self = a.components.count self + 1 := by
  refine ⟨rfl, fun a => ⟨rfl, rfl, rfl, ?_⟩⟩
  simp [ArtboardImporter.addComponent]

theorem fillValues_apply (N : Nat) (x1 x2 : ℚ) (fuel i : Nat) (m : Nat → ℚ) (j : Nat) :
    fillValues N x1 x2 fuel i m j =
      if i ≤ j ∧ j < i + fuel ∧ j < N then calcBezier ((j : ℚ) * SampleStepSize N) x1 x2
      else m j := by
  induction fuel generalizing i m with
  | zero =>
    have h : ¬ (i ≤ j ∧ j < i + 0 ∧ j < N) := by omega
    rw [if_neg h]; rfl
  | succ fuel ih =>
    unfold fillValues
    by_cases hi : i < N
    · rw [if_pos hi, ih]
      by_cases hj : i + 1 ≤ j ∧ j < i + 1 + fuel ∧ j < N
      · rw [if_pos hj, if_pos (by omega)]
      · rw [if_neg hj]
        by_cases hij : j = i
        · subst hij
          rw [Function.update_same, if_pos (by omega)]
        · rw [Function.update_noteq hij, if_neg (by omega)]
    · rw [if_neg hi, if_neg (by omega)]

theorem onAddedDirty_values (N : Nat) (c : CubicInterpolator) (j : Nat) :
    (onAddedDirty N c).2.m_Values j =
      if j < N then calcBezier ((j : ℚ) * SampleStepSize N) c.x1 c.x2 else c.m_Values j := by
  show fillValues N c.x1 c.x2 N 0 c.m_Values j = _
  rw [fillValues_apply]
  by_cases hj : j < N
  · rw [if_pos (by omega), if_pos hj]
  · rw [if_neg (by omega), if_neg hj]

theorem built_values (N : Nat) (x1 x2 : ℚ) (m : Nat → ℚ) (j : Nat) (hj : j < N) :
    (built N x1 x2 m).m_Values j = calcBezier ((j : ℚ) * SampleStepSize N) x1 x2 := by
  unfold built
  rw [onAddedDirty_values, if_pos hj]

theorem built_x1 (N : Nat) (x1 x2 : ℚ) (m : Nat → ℚ) : (built N x1 x2 m).x1 = x1 := rfl

theorem built_x2 (N : Nat) (x1 x2 : ℚ) (m : Nat → ℚ) : (built N x1 x2 m).x2 = x2 := rfl

/-- C7: from any state, `onAddedDirty` returns `Ok`, keeps the control coordinates and leaves
`m_Values[i] = calcBezier(i * step, x1, x2)` for every `i` below the table size; running it a
second time gives the same state as running it once. -/
theorem onAddedDirty_table (N : Nat) (c : CubicInterpolator) :
    (onAddedDirty N c).1 = StatusCode.Ok ∧
      (onAddedDirty N c).2.x1 = c.x1 ∧ (onAddedDirty N c).2.x2 = c.x2 ∧
      (∀ i : Fin N, (onAddedDirty N c).2.m_Values i =
        calcBezier ((i : ℚ) * SampleStepSize N) c.x1 c.x2) ∧
      onAddedDirty N (onAddedDirty N c).2 = onAddedDirty N c := by
  refine ⟨rfl, rfl, rfl, ?_, ?_⟩
  · intro i
    rw [onAddedDirty_values, if_pos i.isLt]
  · have hm : (onAddedDirty N (onAddedDirty N c).2).2.m_Values = (onAddedDirty N c).2.m_Values := by
      funext j
      rw [onAddedDirty_values, onAddedDirty_values]
      by_cases hj : j < N
      · rw [if_pos hj, if_pos hj]; rfl
      · rw [if_neg hj, if_neg hj]
    exact congrArg (fun mv => (StatusCode.Ok, CubicInterpolator.mk c.x1 c.x2 mv)) hm

theorem step_mul_last (N : Nat) (hN : 2 ≤ N) : ((N - 1 : Nat) : ℚ) * SampleStepSize N = 1 := by
  unfold SampleStepSize
  have h1 : ((N - 1 : Nat) : ℚ) = (N : ℚ) - 1 := by
    rw [Nat.cast_sub (by omega)]; simp
  have h2 : (2 : ℚ) ≤ (N : ℚ) := by exact_mod_cast hN
  have h3 : (N : ℚ) - 1 ≠ 0 := by intro h; linarith
  rw [h1, mul_one_div, div_self h3]

theorem step_pos (N : Nat) (hN : 2 ≤ N) : 0 < SampleStepSize N := by
  unfold SampleStepSize
  have h2 : (2 : ℚ) ≤ (N : ℚ) := by exact_mod_cast hN
  apply div_pos one_pos
  linarith

theorem calcBezier_zero (a1 a2 : ℚ) : calcBezier 0 a1 a2 = 0 := by
  unfold calcBezier; ring

theorem calcBezier_one (a1 a2 : ℚ) : calcBezier 1 a1 a2 = 1 := by
  unfold calcBezier; ring

theorem calcBezier_sub_x1 (t x1 y1 x2 : ℚ) :
    calcBezier t x1 x2 - calcBezier t y1 x2 = 3 * (1 - t) ^ 2 * t * (x1 - y1) := by
  unfold calcBezier; ring

/-- C10: for `N ≥ 3` and `x1 ≠ y1`, the tables built from `(x1, x2)` and from `(y1, x2)` are
equal at the entries `0` and `N - 1` and differ at an interior entry `i`, `0 < i < N - 1`,
whose parameter `i * step` lies strictly between `0` and `1`. -/
theorem rebuild_changes_interior (N : Nat) (hN : 3 ≤ N) (x1 y1 x2 : ℚ) (hx : x1 ≠ y1)
    (m n : Nat → ℚ) :
    (built N x1 x2 m).m_Values 0 = (built N y1 x2 n).m_Values 0 ∧
      (built N x1 x2 m).m_Values (N - 1) = (built N y1 x2 n).m_Values (N - 1) ∧
      ∃ i : Nat, 0 < i ∧ i < N - 1 ∧ 0 < (i : ℚ) * SampleStepSize N ∧ (i : ℚ) * SampleStepSize N < 1 ∧
        (built N x1 x2 m).m_Values i ≠ (built N y1 x2 n).m_Values i := by
  have hs := step_pos N (by omega)
  have hl := step_mul_last N (by omega)
  have h3 : (2 : ℚ) ≤ ((N - 1 : Nat) : ℚ) := by exact_mod_cast (by omega : 2 ≤ N - 1)
  have hstep : SampleStepSize N < 1 := by nlinarith
  refine ⟨?_, ?_, 1, by omega, by omega, ?_, ?_, ?_⟩
  · rw [built_values N x1 x2 m 0 (by omega), built_values N y1 x2 n 0 (by omega)]
    simp [calcBezier_zero]
  · rw [built_values N x1 x2 m (N - 1) (by omega), built_values N y1 x2 n (N - 1) (by omega), hl,
      calcBezier_one, calcBezier_one]
  · simpa using hs
  · simpa using hstep
  · rw [built_values N x1 x2 m 1 (by omega), built_values N y1 x2 n 1 (by omega)]
    intro h
    have hd := calcBezier_sub_x1 ((1 : Nat) * SampleStepSize N) x1 y1 x2
    rw [h, sub_self] at hd
    have hlt : ((1 : Nat) : ℚ) * SampleStepSize N < 1 := by simpa using hstep
    have hpos : 0 < ((1 : Nat) : ℚ) * SampleStepSize N := by simpa using hs
    have hne : x1 - y1 ≠ 0 := sub_ne_zero.mpr hx
    have h1 : (1 - ((1 : Nat) : ℚ) * SampleStepSize N) ≠ 0 := by linarith
    have : 3 * (1 - ((1 : Nat) : ℚ) * SampleStepSize N) ^ 2 * (((1 : Nat) : ℚ) * SampleStepSize N)
        * (x1 - y1) ≠ 0 := by positivity
    exact this hd.symm

/-- C10 (witness): the tables of `(1/4, 3/4)` and `(1/2, 3/4)` with 11 entries. -/
theorem rebuild_changes_interior_witness :
    (built 11 (1 / 4) (3 / 4) (fun _ => 0)).m_Values 0 =
        (built 11 (1 / 2) (3 / 4) (fun _ => 0)).m_Values 0 ∧
      (built 11 (1 / 4) (3 / 4) (fun _ => 0)).m_Values (11 - 1) =
        (built 11 (1 / 2) (3 / 4) (fun _ => 0)).m_Values (11 - 1) ∧
      ∃ i : Nat, 0 < i ∧ i < 11 - 1 ∧ 0 < (i : ℚ) * SampleStepSize 11 ∧
        (i : ℚ) * SampleStepSize 11 < 1 ∧
        (built 11 (1 / 4) (3 / 4) (fun _ => 0)).m_Values i ≠
          (built 11 (1 / 2) (3 / 4) (fun _ => 0)).m_Values i :=
  rebuild_changes_interior 11 (by decide) (1 / 4) (1 / 2) (3 / 4) (by norm_num) _ _

end rive.CubicInterpolator

/-! ## The interpolator: the curve on `[0, 1]` -/

namespace rive.CubicInterpolator

theorem convex_pos (w a b : ℚ) (hw0 : 0 ≤ w) (hw1 : w ≤ 1) (ha : 0 < a) (hb : 0 < b) :
    0 < (1 - w) * a + w * b := by
  rcases le_or_lt w (1 / 2) with h | h
  · have h1 : 0 < (1 - w) * a := mul_pos (by linarith) ha
    have h2 : 0 ≤ w * b := mul_nonneg hw0 hb.le
    linarith
  · have h1 : 0 ≤ (1 - w) * a := mul_nonneg (by linarith) ha.le
    have h2 : 0 < w * b := mul_pos (by linarith) hb
    linarith

/-- The difference of two values of the curve, with the difference quotient written as a
combination of its values at the four corners of the square of control coordinates. -/
theorem calcBezier_sub (s t x1 x2 : ℚ) :
    calcBezier t x1 x2 - calcBezier s x1 x2 =
      (t - s) * ((1 - x1) * ((1 - x2) * (t ^ 2 + t * s + s ^ 2) +
          x2 * (t * (1 - t) + t * (2 - t - s) + s * (1 - s) + s * (2 - s - t))) +
        x1 * ((1 - x2) * (3 * (t + s - 1) ^ 2 + (t - s) ^ 2) +
          x2 * ((1 - t) ^ 2 + (1 - s) ^ 2 + (1 - t) * (1 - s)))) := by
  unfold calcBezier; ring

/-- For control coordinates in `[0, 1]` the curve is strictly increasing on `[0, 1]`. -/
theorem calcBezier_lt (x1 x2 s t : ℚ) (h1 : 0 ≤ x1) (h1' : x1 ≤ 1) (h2 : 0 ≤ x2) (h2' : x2 ≤ 1)
    (hs : 0 ≤ s) (hst : s < t) (ht : t ≤ 1) : calcBezier s x1 x2 < calcBezier t x1 x2 := by
  have hd : 0 < t - s := by linarith
  have ht0 : 0 < t := by linarith
  have hs1 : s < 1 := by linarith
  have q00 : 0 < t ^ 2 + t * s + s ^ 2 := by
    have := mul_nonneg ht0.le hs
    positivity
  have q01 : 0 < t * (1 - t) + t * (2 - t - s) + s * (1 - s) + s * (2 - s - t) := by
    have a1 : 0 ≤ t * (1 - t) := mul_nonneg ht0.le (by linarith)
    have a2 : 0 < t * (2 - t - s) := mul_pos ht0 (by linarith)
    have a3 : 0 ≤ s * (1 - s) := mul_nonneg hs (by linarith)
    have a4 : 0 ≤ s * (2 - s - t) := mul_nonneg hs (by linarith)
    linarith
  have q10 : 0 < 3 * (t + s - 1) ^ 2 + (t - s) ^ 2 := by positivity
  have q11 : 0 < (1 - t) ^ 2 + (1 - s) ^ 2 + (1 - t) * (1 - s) := by
    have a1 : 0 < 1 - s := by linarith
    have a2 : 0 ≤ 1 - t := by linarith
    positivity
  have hq := convex_pos x1 _ _ h1 h1' (convex_pos x2 _ _ h2 h2' q00 q01)
    (convex_pos x2 _ _ h2 h2' q10 q11)
  have := mul_pos hd hq
  rw [← calcBezier_sub] at this
  linarith

/-- The expansion of the curve around `t`; the linear coefficient is `getSlope`. -/
theorem calcBezier_add (t h x1 x2 : ℚ) :
    calcBezier (t + h) x1 x2 = calcBezier t x1 x2 + getSlope t x1 x2 * h +
      (3 * (1 - 3 * x2 + 3 * x1) * t + (3 * x2 - 6 * x1)) * h ^ 2 +
      (1 - 3 * x2 + 3 * x1) * h ^ 3 := by
  unfold calcBezier getSlope; ring

/-! ## The interpolator: the table scan -/

theorem scanLoop_spec (N : Nat) (m : Nat → ℚ) (x : ℚ) (last fuel cs : Nat) (start : ℚ)
    (h1 : cs ≤ last) (h2 : last - cs ≤ fuel) :
    cs ≤ (scanLoop N m x last fuel cs start).1 ∧
      (scanLoop N m x last fuel cs start).1 ≤ last ∧
      (scanLoop N m x last fuel cs start).2 =
        start + (((scanLoop N m x last fuel cs start).1 - cs : Nat) : ℚ) * SampleStepSize N ∧
      (∀ j, cs ≤ j → j < (scanLoop N m x last fuel cs start).1 → m j ≤ x) ∧
      ((scanLoop N m x last fuel cs start).1 ≠ last →
        x < m (scanLoop N m x last fuel cs start).1) := by
  induction fuel generalizing cs start with
  | zero =>
    have e : cs = last := by omega
    refine ⟨le_refl _, h1, ?_, ?_, ?_⟩
    · show start = start + ((cs - cs : Nat) : ℚ) * SampleStepSize N
      simp
    · intro j hj hj'
      have hlt : j < cs := hj'
      omega
    · intro hne
      exact absurd e hne
  | succ fuel ih =>
    unfold scanLoop
    by_cases hc : cs ≠ last ∧ m cs ≤ x
    · rw [if_pos hc]
      obtain ⟨a1, a2, a3, a4, a5⟩ := ih (cs + 1) (start + SampleStepSize N)
        (by have := hc.1; omega) (by omega)
      refine ⟨by omega, a2, ?_, ?_, a5⟩
      · rw [a3]
        have e : ((scanLoop N m x last fuel (cs + 1) (start + SampleStepSize N)).1 - cs : Nat) =
            ((scanLoop N m x last fuel (cs + 1) (start + SampleStepSize N)).1 - (cs + 1)) + 1 := by
          omega
        rw [e]
        push_cast
        ring
      · intro j hj hj'
        by_cases hjc : j = cs
        · rw [hjc]; exact hc.2
        · exact a4 j (by omega) hj'
    · rw [if_neg hc]
      refine ⟨le_refl _, h1, ?_, ?_, ?_⟩
      · show start = start + ((cs - cs : Nat) : ℚ) * SampleStepSize N
        simp
      · intro j hj hj'
        have hlt : j < cs := hj'
        omega
      · intro hne
        have hne2 : cs ≠ last := hne
        by_contra hx
        exact hc ⟨hne2, not_lt.mp hx⟩

/-- The state after the scan of `getT`, for a table of at least two entries: the index `k` is
at most `N - 2`, `intervalStart` is `k * step`, the entries `1, ..., k` are at most `x`, and
entry `k + 1` is above `x` unless `k = N - 2`. -/
theorem scan_spec (N : Nat) (hN : 2 ≤ N) (c : CubicInterpolator) (x : ℚ) :
    scanIndex N c x ≤ N - 2 ∧
      scanStart N c x = (scanIndex N c x : ℚ) * SampleStepSize N ∧
      (∀ j, 1 ≤ j → j ≤ scanIndex N c x → c.m_Values j ≤ x) ∧
      (scanIndex N c x ≠ N - 2 → x < c.m_Values (scanIndex N c x + 1)) := by
  obtain ⟨a1, a2, a3, a4, a5⟩ := scanLoop_spec N c.m_Values x (N - 1) N 1 0 (by omega) (by omega)
  unfold scanIndex scanStart
  refine ⟨by omega, ?_, ?_, ?_⟩
  · rw [a3]; simp
  · intro j hj hj'
    exact a4 j hj (by omega)
  · intro hne
    have e : (scanLoop N c.m_Values x (N - 1) N 1 0).1 - 1 + 1 =
        (scanLoop N c.m_Values x (N - 1) N 1 0).1 := by omega
    rw [e]
    exact a5 (by omega)

theorem node_mem (N : Nat) (hN : 2 ≤ N) (j : Nat) (hj : j ≤ N - 1) :
    0 ≤ (j : ℚ) * SampleStepSize N ∧ (j : ℚ) * SampleStepSize N ≤ 1 := by
  have hs := step_pos N hN
  have hl := step_mul_last N hN
  have hj' : (j : ℚ) ≤ ((N - 1 : Nat) : ℚ) := by exact_mod_cast hj
  constructor
  · positivity
  · rw [← hl]
    exact mul_le_mul_of_nonneg_right hj' hs.le

theorem built_lt (N : Nat) (hN : 2 ≤ N) (x1 x2 : ℚ) (h1 : 0 ≤ x1) (h1' : x1 ≤ 1) (h2 : 0 ≤ x2)
    (h2' : x2 ≤ 1) (m : Nat → ℚ) (i j : Nat) (hij : i < j) (hj : j ≤ N - 1) :
    (built N x1 x2 m).m_Values i < (built N x1 x2 m).m_Values j := by
  rw [built_values N x1 x2 m i (by omega), built_values N x1 x2 m j (by omega)]
  have hs := step_pos N hN
  have hij' : (i : ℚ) < (j : ℚ) := by exact_mod_cast hij
  exact calcBezier_lt x1 x2 _ _ h1 h1' h2 h2' (node_mem N hN i (by omega)).1
    (mul_lt_mul_of_pos_right hij' hs) (node_mem N hN j hj).2

theorem built_first (N : Nat) (hN : 2 ≤ N) (x1 x2 : ℚ) (m : Nat → ℚ) :
    (built N x1 x2 m).m_Values 0 = 0 := by
  rw [built_values N x1 x2 m 0 (by omega)]
  simp [calcBezier_zero]

theorem built_last (N : Nat) (hN : 2 ≤ N) (x1 x2 : ℚ) (m : Nat → ℚ) :
    (built N x1 x2 m).m_Values (N - 1) = 1 := by
  rw [built_values N x1 x2 m (N - 1) (by omega), step_mul_last N hN, calcBezier_one]

/-- For control coordinates in `[0, 1]` and `x` in `[0, 1]`, the scan selects an interval of the
built table that brackets `x`, and its two entries are different. -/
theorem built_bracket (N : Nat) (hN : 2 ≤ N) (x1 x2 : ℚ) (h1 : 0 ≤ x1) (h1' : x1 ≤ 1)
    (h2 : 0 ≤ x2) (h2' : x2 ≤ 1) (m : Nat → ℚ) (x : ℚ) (hx0 : 0 ≤ x) (hx1 : x ≤ 1) :
    (built N x1 x2 m).m_Values (scanIndex N (built N x1 x2 m) x) ≤ x ∧
      x ≤ (built N x1 x2 m).m_Values (scanIndex N (built N x1 x2 m) x + 1) ∧
      (built N x1 x2 m).m_Values (scanIndex N (built N x1 x2 m) x) <
        (built N x1 x2 m).m_Values (scanIndex N (built N x1 x2 m) x + 1) := by
  obtain ⟨a1, a2, a3, a4⟩ := scan_spec N hN (built N x1 x2 m) x
  refine ⟨?_, ?_, built_lt N hN x1 x2 h1 h1' h2 h2' m _ _ (Nat.lt_succ_self _) (by omega)⟩
  · by_cases hk : scanIndex N (built N x1 x2 m) x = 0
    · rw [hk, built_first N hN]; exact hx0
    · exact a3 _ (by omega) (le_refl _)
  · by_cases hk : scanIndex N (built N x1 x2 m) x = N - 2
    · have e : scanIndex N (built N x1 x2 m) x + 1 = N - 1 := by omega
      rw [e, built_last N hN]; exact hx1
    · exact (a4 hk).le

/-- The initial guess lies in the selected interval `[k * step, (k + 1) * step]`. -/
theorem initialGuess_mem (N : Nat) (hN : 2 ≤ N) (x1 x2 : ℚ) (h1 : 0 ≤ x1) (h1' : x1 ≤ 1)
    (h2 : 0 ≤ x2) (h2' : x2 ≤ 1) (m : Nat → ℚ) (x : ℚ) (hx0 : 0 ≤ x) (hx1 : x ≤ 1) :
    (scanIndex N (built N x1 x2 m) x : ℚ) * SampleStepSize N ≤
        initialGuess N (built N x1 x2 m) x ∧
      initialGuess N (built N x1 x2 m) x ≤
        ((scanIndex N (built N x1 x2 m) x : ℚ) + 1) * SampleStepSize N := by
  obtain ⟨b1, b2, b3⟩ := built_bracket N hN x1 x2 h1 h1' h2 h2' m x hx0 hx1
  obtain ⟨a1, a2, a3, a4⟩ := scan_spec N hN (built N x1 x2 m) x
  have hs := step_pos N hN
  unfold initialGuess
  simp only []
  rw [a2]
  have hd : 0 < (built N x1 x2 m).m_Values (scanIndex N (built N x1 x2 m) x + 1) -
      (built N x1 x2 m).m_Values (scanIndex N (built N x1 x2 m) x) := by linarith
  have d0 : 0 ≤ (x - (built N x1 x2 m).m_Values (scanIndex N (built N x1 x2 m) x)) /
      ((built N x1 x2 m).m_Values (scanIndex N (built N x1 x2 m) x + 1) -
        (built N x1 x2 m).m_Values (scanIndex N (built N x1 x2 m) x)) :=
    div_nonneg (by linarith) hd.le
  have d1 : (x - (built N x1 x2 m).m_Values (scanIndex N (built N x1 x2 m) x)) /
      ((built N x1 x2 m).m_Values (scanIndex N (built N x1 x2 m) x + 1) -
        (built N x1 x2 m).m_Values (scanIndex N (built N x1 x2 m) x)) ≤ 1 := by
    rw [div_le_one hd]; linarith
  constructor
  · nlinarith [mul_nonneg d0 hs.le]
  · nlinarith [mul_le_mul_of_nonneg_right d1 hs.le]

end rive.CubicInterpolator

/-! ## The interpolator: the refinement loops -/

namespace rive.CubicInterpolator

/-- The bisection loop returns a point of the interval it starts from. -/
theorem subdivideLoop_mem (x x1 x2 : ℚ) (fuel i : Nat) (lo hi : ℚ) (h : lo ≤ hi) :
    lo ≤ subdivideLoop x x1 x2 fuel i lo hi ∧ subdivideLoop x x1 x2 fuel i lo hi ≤ hi := by
  induction fuel generalizing i lo hi with
  | zero =>
    unfold subdivideLoop
    constructor <;> linarith
  | succ fuel ih =>
    unfold subdivideLoop
    simp only []
    split_ifs with hc hp
    · obtain ⟨a, b⟩ := ih (i + 1) lo (lo + (hi - lo) / 2) (by linarith)
      exact ⟨a, by linarith⟩
    · obtain ⟨a, b⟩ := ih (i + 1) (lo + (hi - lo) / 2) hi (by linarith)
      exact ⟨by linarith, b⟩
    · constructor <;> linarith

/-- When the guess already solves the equation, the Newton loop returns it unchanged. -/
theorem newtonLoop_fixed (x x1 x2 : ℚ) (n : Nat) (g : ℚ) (hg : calcBezier g x1 x2 = x) :
    newtonLoop x x1 x2 n g = g := by
  induction n with
  | zero => rfl
  | succ n ih =>
    unfold newtonLoop
    simp only []
    split_ifs with h0
    · rfl
    · rw [hg, sub_self, zero_div, sub_zero]
      exact ih

/-- The bisection loop when the curve is above `x` on the whole interval except its left end:
the result is `lo + (hi - lo) / 2 ^ n`, where `n` is the number of iterations made, and the loop
stopped because of the precision test or because the iterations were used up. -/
theorem subdivideLoop_root_lo (x x1 x2 : ℚ) (fuel i : Nat) (lo hi : ℚ) (hf : 1 ≤ fuel)
    (hfi : fuel + i = SubdivisionMaxIterations) (hlt : lo < hi)
    (hpos : ∀ t, lo < t → t ≤ hi → 0 < calcBezier t x1 x2 - x) :
    ∃ n, 1 ≤ n ∧ n ≤ fuel ∧ subdivideLoop x x1 x2 fuel i lo hi = lo + (hi - lo) / 2 ^ n ∧
      (|calcBezier (subdivideLoop x x1 x2 fuel i lo hi) x1 x2 - x| ≤ SubdivisionPrecision ∨
        n = fuel) := by
  induction fuel generalizing i hi with
  | zero => omega
  | succ f ih =>
    unfold subdivideLoop
    simp only []
    have hm : 0 < calcBezier (lo + (hi - lo) / 2) x1 x2 - x :=
      hpos _ (by linarith) (by linarith)
    by_cases hc : |calcBezier (lo + (hi - lo) / 2) x1 x2 - x| > SubdivisionPrecision ∧
        i + 1 < SubdivisionMaxIterations
    · rw [if_pos hc, if_pos hm]
      obtain ⟨n, n1, n2, n3, n4⟩ := ih (i + 1) (lo + (hi - lo) / 2) (by have := hc.2; omega)
        (by omega) (by linarith) (fun t ht ht' => hpos t ht (by linarith))
      refine ⟨n + 1, by omega, by omega, ?_, ?_⟩
      · rw [n3, pow_succ]
        field_simp
        ring
      · rcases n4 with n4 | n4
        · exact Or.inl n4
        · exact Or.inr (by omega)
    · rw [if_neg hc]
      refine ⟨1, le_refl _, by omega, by rw [pow_one], ?_⟩
      by_cases hp : |calcBezier (lo + (hi - lo) / 2) x1 x2 - x| > SubdivisionPrecision
      · right
        have : ¬ (i + 1 < SubdivisionMaxIterations) := fun h => hc ⟨hp, h⟩
        omega
      · left
        exact not_lt.mp hp

/-- The bisection loop when the curve is at most `x` on the whole interval except its right
end: the result is `hi - (hi - lo) / 2 ^ n`, where `n` is the number of iterations made. -/
theorem subdivideLoop_root_hi (x x1 x2 : ℚ) (fuel i : Nat) (lo hi : ℚ) (hf : 1 ≤ fuel)
    (hfi : fuel + i = SubdivisionMaxIterations) (hlt : lo < hi)
    (hneg : ∀ t, lo ≤ t → t < hi → calcBezier t x1 x2 - x ≤ 0) :
    ∃ n, 1 ≤ n ∧ n ≤ fuel ∧ subdivideLoop x x1 x2 fuel i lo hi = hi - (hi - lo) / 2 ^ n ∧
      (|calcBezier (subdivideLoop x x1 x2 fuel i lo hi) x1 x2 - x| ≤ SubdivisionPrecision ∨
        n = fuel) := by
  induction fuel generalizing i lo with
  | zero => omega
  | succ f ih =>
    unfold subdivideLoop
    simp only []
    have hm : ¬ (calcBezier (lo + (hi - lo) / 2) x1 x2 - x > 0) :=
      not_lt.mpr (hneg _ (by linarith) (by linarith))
    by_cases hc : |calcBezier (lo + (hi - lo) / 2) x1 x2 - x| > SubdivisionPrecision ∧
        i + 1 < SubdivisionMaxIterations
    · rw [if_pos hc, if_neg hm]
      obtain ⟨n, n1, n2, n3, n4⟩ := ih (i + 1) (lo + (hi - lo) / 2) (by have := hc.2; omega)
        (by omega) (by linarith) (fun t ht ht' => hneg t (by linarith) ht')
      refine ⟨n + 1, by omega, by omega, ?_, ?_⟩
      · rw [n3, pow_succ]
        field_simp
        ring
      · rcases n4 with n4 | n4
        · exact Or.inl n4
        · exact Or.inr (by omega)
    · rw [if_neg hc]
      refine ⟨1, le_refl _, by omega, by rw [pow_one]; ring, ?_⟩
      by_cases hp : |calcBezier (lo + (hi - lo) / 2) x1 x2 - x| > SubdivisionPrecision
      · right
        have : ¬ (i + 1 < SubdivisionMaxIterations) := fun h => hc ⟨hp, h⟩
        omega
      · left
        exact not_lt.mp hp

end rive.CubicInterpolator

/-! ## The interpolator: `getT` -/

namespace rive.CubicInterpolator

/-- For control coordinates in `[0, 1]`, the built table and `x` in `[0, 1]`, the scan selects
`k` with `table[k] ≤ x ≤ table[k + 1]`, and when the Newton branch is not taken (the slope at
the initial guess is below `NewtonMinSlope`: zero-slope and bisection branches) the value
returned by `getT` lies in `[k * step, (k + 1) * step]`. -/
theorem getT_in_bracket_without_newton (N : Nat) (hN : 2 ≤ N) (x1 x2 : ℚ) (h1 : 0 ≤ x1)
    (h1' : x1 ≤ 1) (h2 : 0 ≤ x2) (h2' : x2 ≤ 1) (m : Nat → ℚ) (x : ℚ) (hx0 : 0 ≤ x)
    (hx1 : x ≤ 1) :
    (built N x1 x2 m).m_Values (scanIndex N (built N x1 x2 m) x) ≤ x ∧
      x ≤ (built N x1 x2 m).m_Values (scanIndex N (built N x1 x2 m) x + 1) ∧
      (getSlope (initialGuess N (built N x1 x2 m) x) x1 x2 < NewtonMinSlope →
        (scanIndex N (built N x1 x2 m) x : ℚ) * SampleStepSize N ≤ getT N (built N x1 x2 m) x ∧
          getT N (built N x1 x2 m) x ≤
            ((scanIndex N (built N x1 x2 m) x : ℚ) + 1) * SampleStepSize N) := by
  obtain ⟨b1, b2, _⟩ := built_bracket N hN x1 x2 h1 h1' h2 h2' m x hx0 hx1
  refine ⟨b1, b2, ?_⟩
  intro hslope
  unfold getT
  simp only [built_x1, built_x2]
  rw [if_neg (not_le.mpr hslope)]
  split_ifs with h0
  · exact initialGuess_mem N hN x1 x2 h1 h1' h2 h2' m x hx0 hx1
  · have hs := step_pos N hN
    have e := (scan_spec N hN (built N x1 x2 m) x).2.1
    rw [e]
    have hmem := subdivideLoop_mem x x1 x2 SubdivisionMaxIterations 0
      ((scanIndex N (built N x1 x2 m) x : ℚ) * SampleStepSize N)
      ((scanIndex N (built N x1 x2 m) x : ℚ) * SampleStepSize N + SampleStepSize N)
      (by linarith)
    constructor
    · exact hmem.1
    · have := hmem.2
      linarith

end rive.CubicInterpolator

namespace rive.CubicInterpolator

theorem calcBezier_mem (x1 x2 t : ℚ) (h1 : 0 ≤ x1) (h1' : x1 ≤ 1) (h2 : 0 ≤ x2) (h2' : x2 ≤ 1)
    (ht0 : 0 ≤ t) (ht1 : t ≤ 1) : 0 ≤ calcBezier t x1 x2 ∧ calcBezier t x1 x2 ≤ 1 := by
  constructor
  · rcases eq_or_lt_of_le ht0 with e | l
    · rw [← e, calcBezier_zero]
    · have := calcBezier_lt x1 x2 0 t h1 h1' h2 h2' (le_refl _) l ht1
      rw [calcBezier_zero] at this
      exact this.le
  · rcases eq_or_lt_of_le ht1 with e | l
    · rw [e, calcBezier_one]
    · have := calcBezier_lt x1 x2 t 1 h1 h1' h2 h2' ht0 l (le_refl _)
      rw [calcBezier_one] at this
      exact this.le

/-- At a table value `x = table[j]` the scan selects interval `j`, or interval `N - 2` when `j`
is the last index, and the initial guess is the sample point `j * step`. -/
theorem knot_guess (N : Nat) (hN : 2 ≤ N) (x1 x2 : ℚ) (h1 : 0 ≤ x1) (h1' : x1 ≤ 1)
    (h2 : 0 ≤ x2) (h2' : x2 ≤ 1) (m : Nat → ℚ) (j : Nat) (hj : j < N) :
    scanIndex N (built N x1 x2 m) ((built N x1 x2 m).m_Values j) = min j (N - 2) ∧
      initialGuess N (built N x1 x2 m) ((built N x1 x2 m).m_Values j) =
        (j : ℚ) * SampleStepSize N := by
  have hlt := built_lt N hN x1 x2 h1 h1' h2 h2' m
  obtain ⟨a1, a2, a3, a4⟩ := scan_spec N hN (built N x1 x2 m) ((built N x1 x2 m).m_Values j)
  unfold initialGuess
  simp only []
  rw [a2]
  generalize hx : (built N x1 x2 m).m_Values j = x at *
  generalize hk : scanIndex N (built N x1 x2 m) x = k at *
  have hkj : k ≤ j := by
    by_contra hcon
    have h3 := a3 k (by omega) (le_refl _)
    have h4 := hlt j k (by omega) (by omega)
    rw [hx] at h4
    linarith
  have hjk : j ≤ k + 1 := by
    by_cases hk2 : k = N - 2
    · omega
    · have h3 := a4 hk2
      by_contra hcon
      have h4 := hlt (k + 1) j (by omega) (by omega)
      rw [hx] at h4
      linarith
  have hcase : k = j ∨ k + 1 = j := by omega
  have hmin : k = min j (N - 2) := by
    rcases hcase with e | e
    · omega
    · by_cases hk2 : k = N - 2
      · omega
      · have h3 := a4 hk2
        have h4 : (built N x1 x2 m).m_Values (k + 1) = x := by rw [e, hx]
        linarith
  refine ⟨hmin, ?_⟩
  rcases hcase with e | e
  · rw [e, hx, sub_self, zero_div, zero_mul, add_zero]
  · have hne := hlt k (k + 1) (Nat.lt_succ_self _) (by omega)
    rw [e, hx] at hne
    have hd : x - (built N x1 x2 m).m_Values k ≠ 0 := by
      intro h
      linarith
    have hj' : (j : ℚ) = (k : ℚ) + 1 := by
      rw [← e]; push_cast; ring
    rw [e, hx, div_self hd, hj']
    ring

end rive.CubicInterpolator

namespace rive.CubicInterpolator

theorem step_le_one (N : Nat) (hN : 2 ≤ N) : SampleStepSize N ≤ 1 := by
  have := (node_mem N hN 1 (by omega)).2
  simpa using this

/-- At a table value, when the slope at the sample point is at least `NewtonMinSlope` or is zero,
`getT` returns the sample point. -/
theorem getT_knot_fixed (N : Nat) (hN : 2 ≤ N) (x1 x2 : ℚ) (h1 : 0 ≤ x1) (h1' : x1 ≤ 1)
    (h2 : 0 ≤ x2) (h2' : x2 ≤ 1) (m : Nat → ℚ) (j : Nat) (hj : j < N)
    (hs : NewtonMinSlope ≤ getSlope ((j : ℚ) * SampleStepSize N) x1 x2 ∨
      getSlope ((j : ℚ) * SampleStepSize N) x1 x2 = 0) :
    getT N (built N x1 x2 m) ((built N x1 x2 m).m_Values j) = (j : ℚ) * SampleStepSize N := by
  obtain ⟨_, g⟩ := knot_guess N hN x1 x2 h1 h1' h2 h2' m j hj
  unfold getT
  simp only [built_x1, built_x2]
  rw [g]
  have hv := built_values N x1 x2 m j hj
  split_ifs with ha hb
  · exact newtonLoop_fixed _ x1 x2 _ _ hv.symm
  · rfl
  · rcases hs with hs | hs
    · exact absurd hs ha
    · exact absurd hs hb

/-- At a table value other than the last, in the bisection branch, `getT` returns
`j * step + step / 2 ^ n` after `n` iterations, stopped by the precision test or at `n = 10`. -/
theorem getT_knot_lo (N : Nat) (hN : 2 ≤ N) (x1 x2 : ℚ) (h1 : 0 ≤ x1) (h1' : x1 ≤ 1)
    (h2 : 0 ≤ x2) (h2' : x2 ≤ 1) (m : Nat → ℚ) (j : Nat) (hj : j ≤ N - 2)
    (hs : getSlope ((j : ℚ) * SampleStepSize N) x1 x2 < NewtonMinSlope)
    (hs0 : getSlope ((j : ℚ) * SampleStepSize N) x1 x2 ≠ 0) :
    ∃ n, 1 ≤ n ∧ n ≤ 10 ∧
      getT N (built N x1 x2 m) ((built N x1 x2 m).m_Values j) =
        (j : ℚ) * SampleStepSize N + SampleStepSize N / 2 ^ n ∧
      (|calcBezier (getT N (built N x1 x2 m) ((built N x1 x2 m).m_Values j)) x1 x2 -
          (built N x1 x2 m).m_Values j| ≤ SubdivisionPrecision ∨ n = 10) := by
  obtain ⟨k, g⟩ := knot_guess N hN x1 x2 h1 h1' h2 h2' m j (by omega)
  have a2 := (scan_spec N hN (built N x1 x2 m) ((built N x1 x2 m).m_Values j)).2.1
  rw [k, min_eq_left hj] at a2
  have hv := built_values N x1 x2 m j (by omega)
  have hstep := step_pos N hN
  unfold getT
  simp only [built_x1, built_x2]
  rw [g, if_neg (not_le.mpr hs), if_neg hs0, a2]
  obtain ⟨n, n1, n2, n3, n4⟩ := subdivideLoop_root_lo ((built N x1 x2 m).m_Values j) x1 x2
    SubdivisionMaxIterations 0 ((j : ℚ) * SampleStepSize N)
    ((j : ℚ) * SampleStepSize N + SampleStepSize N) (by decide) rfl (by linarith)
    (by
      intro t ht ht'
      rw [hv]
      have hn := (node_mem N hN (j + 1) (by omega)).2
      push_cast at hn
      have := calcBezier_lt x1 x2 _ t h1 h1' h2 h2' (node_mem N hN j (by omega)).1 ht
        (by linarith)
      linarith)
  refine ⟨n, n1, n2, ?_, n4⟩
  rw [n3]
  ring

/-- At the last table value, in the bisection branch, `getT` returns `1 - step / 2 ^ n` after
`n` iterations, stopped by the precision test or at `n = 10`. -/
theorem getT_knot_hi (N : Nat) (hN : 2 ≤ N) (x1 x2 : ℚ) (h1 : 0 ≤ x1) (h1' : x1 ≤ 1)
    (h2 : 0 ≤ x2) (h2' : x2 ≤ 1) (m : Nat → ℚ)
    (hs : getSlope 1 x1 x2 < NewtonMinSlope) (hs0 : getSlope 1 x1 x2 ≠ 0) :
    ∃ n, 1 ≤ n ∧ n ≤ 10 ∧
      getT N (built N x1 x2 m) ((built N x1 x2 m).m_Values (N - 1)) =
        1 - SampleStepSize N / 2 ^ n ∧
      (|calcBezier (getT N (built N x1 x2 m) ((built N x1 x2 m).m_Values (N - 1))) x1 x2 -
          (built N x1 x2 m).m_Values (N - 1)| ≤ SubdivisionPrecision ∨ n = 10) := by
  obtain ⟨k, g⟩ := knot_guess N hN x1 x2 h1 h1' h2 h2' m (N - 1) (by omega)
  have a2 := (scan_spec N hN (built N x1 x2 m) ((built N x1 x2 m).m_Values (N - 1))).2.1
  rw [k, min_eq_right (by omega)] at a2
  have hl := step_mul_last N hN
  have hl2 : ((N - 2 : Nat) : ℚ) * SampleStepSize N + SampleStepSize N = 1 := by
    have e : ((N - 1 : Nat) : ℚ) = ((N - 2 : Nat) : ℚ) + 1 := by
      have : N - 1 = (N - 2) + 1 := by omega
      rw [this]; push_cast; ring
    rw [e] at hl
    linarith
  have hv := built_last N hN x1 x2 m
  have hstep := step_pos N hN
  rw [hl] at g
  unfold getT
  simp only [built_x1, built_x2]
  rw [g, if_neg (not_le.mpr hs), if_neg hs0, a2, hl2]
  obtain ⟨n, n1, n2, n3, n4⟩ := subdivideLoop_root_hi ((built N x1 x2 m).m_Values (N - 1)) x1 x2
    SubdivisionMaxIterations 0 (((N - 2 : Nat) : ℚ) * SampleStepSize N) 1
    (by decide) rfl (by linarith)
    (by
      intro t ht ht'
      rw [hv]
      have := calcBezier_lt x1 x2 t 1 h1 h1' h2 h2'
        (le_trans (node_mem N hN (N - 2) (by omega)).1 ht) ht' (le_refl _)
      rw [calcBezier_one] at this
      linarith)
  refine ⟨n, n1, n2, ?_, n4⟩
  rw [n3]
  have : (1 : ℚ) - ((N - 2 : Nat) : ℚ) * SampleStepSize N = SampleStepSize N := by linarith
  rw [this]

end rive.CubicInterpolator

namespace rive.CubicInterpolator

theorem getSlope_zero (x1 x2 : ℚ) : getSlope 0 x1 x2 = 3 * x1 := by
  unfold getSlope; ring

theorem getSlope_one (x1 x2 : ℚ) : getSlope 1 x1 x2 = 3 * (1 - x2) := by
  unfold getSlope; ring

theorem calcBezier_ge_cube (x1 x2 t : ℚ) (h1 : 0 ≤ x1) (h2 : 0 ≤ x2) (ht0 : 0 ≤ t)
    (ht1 : t ≤ 1) : t ^ 3 ≤ calcBezier t x1 x2 := by
  have e : calcBezier t x1 x2 = t ^ 3 + 3 * (1 - t) ^ 2 * t * x1 + 3 * (1 - t) * t ^ 2 * x2 := by
    unfold calcBezier; ring
  have a : 0 ≤ 3 * (1 - t) ^ 2 * t * x1 := by positivity
  have b : 0 ≤ 3 * (1 - t) * t ^ 2 * x2 := by
    have : 0 ≤ 1 - t := by linarith
    positivity
  linarith

theorem calcBezier_le_cube (x1 x2 t : ℚ) (h1 : x1 ≤ 1) (h2 : x2 ≤ 1) (ht0 : 0 ≤ t)
    (ht1 : t ≤ 1) : calcBezier t x1 x2 ≤ 1 - (1 - t) ^ 3 := by
  have e : calcBezier t x1 x2 = 1 - (1 - t) ^ 3 - 3 * (1 - t) ^ 2 * t * (1 - x1) -
      3 * (1 - t) * t ^ 2 * (1 - x2) := by
    unfold calcBezier; ring
  have u1 : 0 ≤ 1 - x1 := by linarith
  have u2 : 0 ≤ 1 - x2 := by linarith
  have a : 0 ≤ 3 * (1 - t) ^ 2 * t * (1 - x1) := by positivity
  have b : 0 ≤ 3 * (1 - t) * t ^ 2 * (1 - x2) := by
    have : 0 ≤ 1 - t := by linarith
    positivity
  linarith

theorem step_eleven : SampleStepSize 11 = 1 / 10 := by
  unfold SampleStepSize; norm_num

/-- With 11 entries, a bisection that halves towards an end of the interval and stops by the
precision test has made at least five iterations. -/
theorem five_halvings (n : Nat) (n1 : 1 ≤ n) (n2 : n ≤ 10)
    (h : ((1 : ℚ) / 10 / 2 ^ n) ^ 3 ≤ SubdivisionPrecision ∨ n = 10) :
    (1 : ℚ) / 10 / 2 ^ n ≤ 1 / 320 := by
  have h5 : 5 ≤ n := by
    by_contra hcon
    rcases h with h | h
    · unfold SubdivisionPrecision at h
      interval_cases n <;> norm_num at h
    · omega
  have hp : (2 : ℚ) ^ 5 ≤ 2 ^ n := pow_le_pow_right₀ (by norm_num) h5
  rw [div_le_iff₀ (by positivity)]
  norm_num at hp
  linarith

/-- C3 (as stated, refuted): with 11 entries, in exact arithmetic, for `x1 = 1e-6`, `x2 = 0` the
value `getT(0)` is `1/320`, and for `x1 = 1`, `x2 = 1 - 1e-6` the value `getT(1)` is `319/320`;
both are further than `1e-4` from the boundary value; so is `getT(0) = 1/5120` for `x1 = 1e-6`,
`x2 = 1/2`.  In binary32 arithmetic `getT(0)` is `step / 32` for `x1 = 1e-6`, `x2 = 0` as well.
At `x = 1` binary32 arithmetic departs from exact arithmetic: for `x1 = 1 - 2^-18`,
`x2 = 1 - 2^-21` the bisection ends at `0.99531257`, further than `step / 32` from `1`; and for
`x1 = 7063171 / 2^27`, `x2 = 16771551 / 2^24`, where the slope at `1` is `0.001013` and the
Newton branch runs, `getT(1)` is `1.0209199`, whereas exact arithmetic gives `1`. -/
theorem boundary_values_off :
    getT 11 (built 11 (1 / 1000000) 0 (fun _ => 0)) 0 = 1 / 320 ∧
      ¬ |getT 11 (built 11 (1 / 1000000) 0 (fun _ => 0)) 0 - 0| ≤ 1 / 10000 ∧
      getT 11 (built 11 1 (999999 / 1000000) (fun _ => 0)) 1 = 319 / 320 ∧
      ¬ |getT 11 (built 11 1 (999999 / 1000000) (fun _ => 0)) 1 - 1| ≤ 1 / 10000 ∧
      getT 11 (built 11 (1 / 1000000) (1 / 2) (fun _ => 0)) 0 = 1 / 5120 ∧
      ¬ |getT 11 (built 11 (1 / 1000000) (1 / 2) (fun _ => 0)) 0 - 0| ≤ 1 / 10000 ∧
      Binary32.getT 11 (Binary32.built 11 (Binary32.roundNearest (1 / 1000000)) 0 (fun _ => 0)) 0 =
        Binary32.SampleStepSize 11 / 32 ∧
      ¬ |Binary32.getT 11
          (Binary32.built 11 (Binary32.roundNearest (1 / 1000000)) 0 (fun _ => 0)) 0 - 0|
        ≤ 1 / 10000 ∧
      Binary32.getT 11 (Binary32.built 11 (262143 / 262144) (2097151 / 2097152) (fun _ => 0)) 1 =
        8349287 / 8388608 ∧
      SampleStepSize 11 / 32 <
        |Binary32.getT 11
          (Binary32.built 11 (262143 / 262144) (2097151 / 2097152) (fun _ => 0)) 1 - 1| ∧
      NewtonMinSlope ≤ getSlope 1 (7063171 / 134217728) (16771551 / 16777216) ∧
      getT 11 (built 11 (7063171 / 134217728) (16771551 / 16777216) (fun _ => 0)) 1 = 1 ∧
      Binary32.getT 11
          (Binary32.built 11 (7063171 / 134217728) (16771551 / 16777216) (fun _ => 0)) 1 =
        8564097 / 8388608 ∧
      1 / 50 < |Binary32.getT 11
          (Binary32.built 11 (7063171 / 134217728) (16771551 / 16777216) (fun _ => 0)) 1 - 1| := by
  decide!

/-- C3 (amended): with 11 entries and control coordinates in `[0, 1]`, in exact arithmetic,
`getT(0)` lies in `[0, step / 32]`, where `step / 32 = 1/320`, and it is exactly `0` when
`x1 = 0` or the slope `3 * x1` at `0` reaches `NewtonMinSlope`; `getT(1)` is within
`step / 16 = 1/160` of `1` when the slope `3 * (1 - x2)` at `1` is at most `9/10` of
`NewtonMinSlope`, and within `1e-4` of `1` when that slope is at least `1/100`.  In binary32
arithmetic `getT(1)` is `1.00000012` for `x1 = x2 = 1` and `0.9999025` for `x1 = 0`, `x2 = 1`,
both within `step / 16` of `1`. -/
theorem boundary_values (x1 x2 : ℚ) (h1 : 0 ≤ x1) (h1' : x1 ≤ 1) (h2 : 0 ≤ x2) (h2' : x2 ≤ 1)
    (m : Nat → ℚ) :
    (0 ≤ getT 11 (built 11 x1 x2 m) 0 ∧
        getT 11 (built 11 x1 x2 m) 0 ≤ SampleStepSize 11 / 32) ∧
      (x1 = 0 ∨ NewtonMinSlope ≤ 3 * x1 → getT 11 (built 11 x1 x2 m) 0 = 0) ∧
      (3 * (1 - x2) ≤ 9 / 10 * NewtonMinSlope →
        |getT 11 (built 11 x1 x2 m) 1 - 1| ≤ SampleStepSize 11 / 16) ∧
      (1 / 100 ≤ 3 * (1 - x2) → |getT 11 (built 11 x1 x2 m) 1 - 1| ≤ 1 / 10000) ∧
      SampleStepSize 11 / 32 = 1 / 320 ∧ SampleStepSize 11 / 16 = 1 / 160 ∧
      Binary32.getT 11 (Binary32.built 11 1 1 (fun _ => 0)) 1 = 8388609 / 8388608 ∧
      Binary32.getT 11 (Binary32.built 11 0 1 (fun _ => 0)) 1 = 4193895 / 4194304 ∧
      |Binary32.getT 11 (Binary32.built 11 1 1 (fun _ => 0)) 1 - 1| ≤
        Binary32.SampleStepSize 11 / 16 ∧
      |Binary32.getT 11 (Binary32.built 11 0 1 (fun _ => 0)) 1 - 1| ≤
        Binary32.SampleStepSize 11 / 16 := by
  have hN : 2 ≤ 11 := by decide
  have e0 := built_first 11 hN x1 x2 m
  have e1 := built_last 11 hN x1 x2 m
  have z : ((0 : Nat) : ℚ) * SampleStepSize 11 = 0 := by simp
  have l := step_mul_last 11 hN
  have hstep : SampleStepSize 11 / 32 = 1 / 320 := by rw [step_eleven]; norm_num
  have hstep' : SampleStepSize 11 / 16 = 1 / 160 := by rw [step_eleven]; norm_num
  have hmin : NewtonMinSlope = 1 / 1000 := rfl
  have f0 : x1 = 0 ∨ NewtonMinSlope ≤ 3 * x1 → getT 11 (built 11 x1 x2 m) 0 = 0 := by
    intro h
    have := getT_knot_fixed 11 hN x1 x2 h1 h1' h2 h2' m 0 (by decide)
      (by
        rw [z, getSlope_zero]
        rcases h with h | h
        · right; rw [h]; ring
        · left; exact h)
    rw [e0, z] at this
    exact this
  have f1 : x2 = 1 ∨ NewtonMinSlope ≤ 3 * (1 - x2) → getT 11 (built 11 x1 x2 m) 1 = 1 := by
    intro h
    have := getT_knot_fixed 11 hN x1 x2 h1 h1' h2 h2' m (11 - 1) (by decide)
      (by
        rw [l, getSlope_one]
        rcases h with h | h
        · right; rw [h]; ring
        · left; exact h)
    rw [e1, l] at this
    exact this
  have g1 : |getT 11 (built 11 x1 x2 m) 1 - 1| ≤ 1 / 320 := by
    by_cases hfix : x2 = 1 ∨ NewtonMinSlope ≤ 3 * (1 - x2)
    · rw [f1 hfix]; norm_num
    · rw [not_or, not_le] at hfix
      obtain ⟨n, n1, n2, n3, n4⟩ := getT_knot_hi 11 hN x1 x2 h1 h1' h2 h2' m
        (by rw [getSlope_one]; exact hfix.2)
        (by rw [getSlope_one]; intro h; exact hfix.1 (by linarith))
      rw [e1, step_eleven] at n3
      rw [e1] at n4
      rw [n3] at n4 ⊢
      have hpos : (0 : ℚ) < 1 / 10 / 2 ^ n := by positivity
      have hle : (1 : ℚ) / 10 / 2 ^ n ≤ 1 := by
        have : (1 : ℚ) / 10 / 2 ^ n ≤ 1 / 10 := div_le_self (by norm_num) (one_le_pow₀ (by norm_num))
        linarith
      have h5 := five_halvings n n1 n2 (by
        rcases n4 with n4 | n4
        · left
          have hc := calcBezier_le_cube x1 x2 (1 - 1 / 10 / 2 ^ n) h1' h2' (by linarith)
            (by linarith)
          have e : (1 : ℚ) - (1 - 1 / 10 / 2 ^ n) = 1 / 10 / 2 ^ n := by ring
          rw [e] at hc
          have := neg_abs_le (calcBezier (1 - 1 / 10 / 2 ^ n) x1 x2 - 1)
          linarith
        · right; exact n4)
      rw [abs_le]
      constructor <;> linarith
  rw [hstep, hstep']
  refine ⟨?_, f0, ?_, ?_, rfl, rfl, ?_, ?_, ?_, ?_⟩
  · by_cases hfix : x1 = 0 ∨ NewtonMinSlope ≤ 3 * x1
    · rw [f0 hfix]; norm_num
    · rw [not_or, not_le] at hfix
      obtain ⟨n, n1, n2, n3, n4⟩ := getT_knot_lo 11 hN x1 x2 h1 h1' h2 h2' m 0 (by decide)
        (by rw [z, getSlope_zero]; exact hfix.2)
        (by rw [z, getSlope_zero]; intro h; exact hfix.1 (by linarith))
      rw [e0, z, zero_add, step_eleven] at n3
      rw [e0] at n4
      rw [n3] at n4 ⊢
      have hpos : (0 : ℚ) < 1 / 10 / 2 ^ n := by positivity
      have hle : (1 : ℚ) / 10 / 2 ^ n ≤ 1 := by
        have : (1 : ℚ) / 10 / 2 ^ n ≤ 1 / 10 := div_le_self (by norm_num) (one_le_pow₀ (by norm_num))
        linarith
      refine ⟨hpos.le, five_halvings n n1 n2 ?_⟩
      rcases n4 with n4 | n4
      · left
        have hc := calcBezier_ge_cube x1 x2 _ h1 h2 hpos.le hle
        rw [sub_zero] at n4
        exact le_trans hc (le_trans (le_abs_self _) n4)
      · right; exact n4
  · intro _
    exact le_trans g1 (by norm_num)
  · intro h
    rw [f1 (Or.inr (by rw [hmin]; linarith))]
    norm_num
  all_goals decide!

/-- C3 (witness): `x1 = 1/4`, `x2 = 3/4`, where the slope at `0` reaches `NewtonMinSlope` and
the slope at `1` is at least `1/100`. -/
theorem boundary_values_witness :
    getT 11 (built 11 (1 / 4) (3 / 4) (fun _ => 0)) 0 = 0 ∧
      |getT 11 (built 11 (1 / 4) (3 / 4) (fun _ => 0)) 1 - 1| ≤ 1 / 10000 :=
  ⟨(boundary_values (1 / 4) (3 / 4) (by norm_num) (by norm_num) (by norm_num) (by norm_num)
      (fun _ => 0)).2.1 (Or.inr (by unfold NewtonMinSlope; norm_num)),
    (boundary_values (1 / 4) (3 / 4) (by norm_num) (by norm_num) (by norm_num) (by norm_num)
      (fun _ => 0)).2.2.2.1 (by norm_num)⟩

end rive.CubicInterpolator

/-! ## The interpolator: convergence of the Newton loop and residual of the bisection -/

namespace rive.CubicInterpolator

/-- The expansion of the curve around `t` with the coefficients `getSlope` and `curvature`. -/
theorem calcBezier_expansion (t h x1 x2 : ℚ) :
    calcBezier (t + h) x1 x2 = calcBezier t x1 x2 + getSlope t x1 x2 * h +
      curvature t x1 x2 * h ^ 2 + (1 - 3 * x2 + 3 * x1) * h ^ 3 := by
  unfold calcBezier getSlope curvature; ring

/-- The slope changes at twice the rate `curvature`. -/
theorem getSlope_expansion (t h x1 x2 : ℚ) :
    getSlope (t + h) x1 x2 = getSlope t x1 x2 + 2 * curvature t x1 x2 * h +
      3 * (1 - 3 * x2 + 3 * x1) * h ^ 2 := by
  unfold getSlope curvature; ring

theorem curvature_zero (x1 x2 : ℚ) : curvature 0 x1 x2 = 3 * x2 - 6 * x1 := by
  unfold curvature; ring

theorem curvature_one (x1 x2 : ℚ) : curvature 1 x1 x2 = 3 - 6 * x2 + 3 * x1 := by
  unfold curvature; ring

theorem le_maxCurvature (x1 x2 : ℚ) :
    |3 * x2 - 6 * x1| ≤ maxCurvature x1 x2 ∧ |3 - 6 * x2 + 3 * x1| ≤ maxCurvature x1 x2 := by
  rw [← curvature_zero x1 x2, ← curvature_one x1 x2]
  exact ⟨le_max_left _ _, le_max_right _ _⟩

theorem maxCurvature_le_six (x1 x2 : ℚ) (h1 : 0 ≤ x1) (h1' : x1 ≤ 1) (h2 : 0 ≤ x2)
    (h2' : x2 ≤ 1) : maxCurvature x1 x2 ≤ 6 := by
  unfold maxCurvature
  rw [curvature_zero, curvature_one]
  apply max_le <;> rw [abs_le] <;> constructor <;> linarith

theorem maxCurvature_nonneg (x1 x2 : ℚ) : 0 ≤ maxCurvature x1 x2 :=
  le_trans (abs_nonneg _) (le_max_left _ _)

theorem curvature_bound (t x1 x2 : ℚ) (ht0 : -(1 / 20) ≤ t) (ht1 : t ≤ 21 / 20) :
    |curvature t x1 x2| ≤ 11 / 10 * maxCurvature x1 x2 := by
  have hc0 : |3 * x2 - 6 * x1| ≤ maxCurvature x1 x2 := (le_maxCurvature x1 x2).1
  have hc1 : |3 - 6 * x2 + 3 * x1| ≤ maxCurvature x1 x2 := (le_maxCurvature x1 x2).2
  have hc := maxCurvature_nonneg x1 x2
  rw [abs_le] at hc0 hc1
  have e : curvature t x1 x2 = (3 * x2 - 6 * x1) * (1 - t) + (3 - 6 * x2 + 3 * x1) * t := by
    unfold curvature; ring
  rw [e, abs_le]
  rcases le_total t 0 with h | h
  · constructor <;> nlinarith
  · rcases le_total t 1 with h' | h'
    · constructor <;> nlinarith
    · constructor <;> nlinarith

theorem third_bound (x1 x2 : ℚ) :
    |1 - 3 * x2 + 3 * x1| ≤ 2 / 3 * maxCurvature x1 x2 := by
  have hc0 : |3 * x2 - 6 * x1| ≤ maxCurvature x1 x2 := (le_maxCurvature x1 x2).1
  have hc1 : |3 - 6 * x2 + 3 * x1| ≤ maxCurvature x1 x2 := (le_maxCurvature x1 x2).2
  rw [abs_le] at hc0 hc1 ⊢
  constructor <;> linarith

/-- The residual and the slope after one Newton update by `d`. -/
theorem newton_update (t d x x1 x2 : ℚ) (hd : getSlope t x1 x2 * d = calcBezier t x1 x2 - x) :
    calcBezier (t - d) x1 x2 - x = d ^ 2 * (curvature t x1 x2 - (1 - 3 * x2 + 3 * x1) * d) ∧
      getSlope (t - d) x1 x2 =
        getSlope t x1 x2 - d * (2 * curvature t x1 x2 - 3 * (1 - 3 * x2 + 3 * x1) * d) := by
  constructor
  · have : calcBezier (t - d) x1 x2 - x =
        (calcBezier t x1 x2 - x) - getSlope t x1 x2 * d +
          d ^ 2 * (curvature t x1 x2 - (1 - 3 * x2 + 3 * x1) * d) := by
      unfold calcBezier getSlope curvature; ring
    rw [this, hd]; ring
  · unfold getSlope curvature; ring

/-- One Newton update from a point near `[0, 1]` where the quotient of residual and slope is at
most `U`. -/
theorem newton_step_bounds (x x1 x2 t U : ℚ) (ht0 : -(1 / 20) ≤ t) (ht1 : t ≤ 21 / 20)
    (hs : 0 < getSlope t x1 x2) (hU0 : 0 ≤ U) (hU : U ≤ 1 / 50)
    (hr : |calcBezier t x1 x2 - x| ≤ getSlope t x1 x2 * U) :
    |(calcBezier t x1 x2 - x) / getSlope t x1 x2| ≤ U ∧
      |calcBezier (t - (calcBezier t x1 x2 - x) / getSlope t x1 x2) x1 x2 - x| ≤
        6 / 5 * maxCurvature x1 x2 * U ^ 2 ∧
      getSlope t x1 x2 - 9 / 4 * maxCurvature x1 x2 * U ≤
        getSlope (t - (calcBezier t x1 x2 - x) / getSlope t x1 x2) x1 x2 := by
  have hc := maxCurvature_nonneg x1 x2
  have hk := curvature_bound t x1 x2 ht0 ht1
  have ha := third_bound x1 x2
  have hd : |(calcBezier t x1 x2 - x) / getSlope t x1 x2| ≤ U := by
    rw [abs_div, abs_of_pos hs, div_le_iff₀ hs]
    linarith
  have hmul : getSlope t x1 x2 * ((calcBezier t x1 x2 - x) / getSlope t x1 x2) =
      calcBezier t x1 x2 - x := by
    field_simp
  obtain ⟨e1, e2⟩ := newton_update t _ x x1 x2 hmul
  generalize (calcBezier t x1 x2 - x) / getSlope t x1 x2 = d at *
  generalize curvature t x1 x2 = k at *
  generalize maxCurvature x1 x2 = c at *
  generalize 1 - 3 * x2 + 3 * x1 = A at *
  have hd2 : d ^ 2 ≤ U ^ 2 := by
    rw [← sq_abs d]
    exact pow_le_pow_left₀ (abs_nonneg _) hd 2
  have hAd : |A * d| ≤ 2 / 3 * c * (1 / 50) := by
    rw [abs_mul]
    exact mul_le_mul ha (le_trans hd hU) (abs_nonneg _) (by positivity)
  refine ⟨hd, ?_, ?_⟩
  · rw [e1, abs_mul, abs_of_nonneg (sq_nonneg d)]
    have hk2 : |k - A * d| ≤ 6 / 5 * c := by
      calc |k - A * d| ≤ |k| + |A * d| := abs_sub _ _
        _ ≤ 11 / 10 * c + 2 / 3 * c * (1 / 50) := add_le_add hk hAd
        _ ≤ 6 / 5 * c := by linarith
    calc d ^ 2 * |k - A * d| ≤ U ^ 2 * (6 / 5 * c) :=
          mul_le_mul hd2 hk2 (abs_nonneg _) (sq_nonneg U)
      _ = 6 / 5 * c * U ^ 2 := by ring
  · rw [e2]
    have hk3 : |2 * k - 3 * A * d| ≤ 9 / 4 * c := by
      have h3 : |3 * A * d| ≤ 3 * (2 / 3 * c * (1 / 50)) := by
        have : 3 * A * d = 3 * (A * d) := by ring
        rw [this, abs_mul, abs_of_pos (by norm_num : (0 : ℚ) < 3)]
        linarith
      have h2 : |2 * k| ≤ 2 * (11 / 10 * c) := by
        rw [abs_mul, abs_of_pos (by norm_num : (0 : ℚ) < 2)]
        linarith
      calc |2 * k - 3 * A * d| ≤ |2 * k| + |3 * A * d| := abs_sub _ _
        _ ≤ 9 / 4 * c := by linarith
    have hprod : |d * (2 * k - 3 * A * d)| ≤ U * (9 / 4 * c) := by
      rw [abs_mul]
      exact mul_le_mul hd hk3 (abs_nonneg _) hU0
    have := (abs_le.mp hprod).2
    linarith

theorem newtonLoop_step (x x1 x2 : ℚ) (n : Nat) (g : ℚ) (h0 : getSlope g x1 x2 ≠ 0) :
    newtonLoop x x1 x2 (n + 1) g =
      newtonLoop x x1 x2 n (g - (calcBezier g x1 x2 - x) / getSlope g x1 x2) := by
  rw [newtonLoop.eq_2]
  simp only []
  rw [if_neg h0]

set_option maxHeartbeats 1000000 in
/-- Four Newton updates from a guess in `[0, 1]` of positive slope `s0`, where the quotient `v` of
residual and slope is at most `1/50` and `maxCurvature * v ≤ ρ * s0` with `ρ ≤ 4/25`: every
slope met is positive, the result is within `v * (1 + 17/8 * ρ)` of the guess and its residual
is at most `1e-8`. -/
theorem newton_four_steps (x x1 x2 g v ρ : ℚ) (h1 : 0 ≤ x1) (h1' : x1 ≤ 1) (h2 : 0 ≤ x2)
    (h2' : x2 ≤ 1) (hg0 : 0 ≤ g) (hg1 : g ≤ 1) (hs0 : 0 < getSlope g x1 x2)
    (hv0 : 0 ≤ v) (hv : v ≤ 1 / 50) (hρ0 : 0 ≤ ρ) (hρ : ρ ≤ 4 / 25)
    (hcv : maxCurvature x1 x2 * v ≤ ρ * getSlope g x1 x2)
    (hr : |calcBezier g x1 x2 - x| ≤ getSlope g x1 x2 * v) :
    |newtonLoop x x1 x2 4 g - g| ≤ v * (1 + 17 / 8 * ρ) ∧
      |calcBezier (newtonLoop x x1 x2 4 g) x1 x2 - x| ≤ 1 / 100000000 := by
  have hc := maxCurvature_nonneg x1 x2
  have hc6 := maxCurvature_le_six x1 x2 h1 h1' h2 h2'
  generalize hR : ρ * v = R
  have hR0 : 0 ≤ R := by rw [← hR]; exact mul_nonneg hρ0 hv0
  have hRv : R ≤ 4 / 25 * v := by rw [← hR]; exact mul_le_mul_of_nonneg_right hρ hv0
  have hR1 : R ≤ 1 / 50 * ρ := by rw [← hR]; nlinarith
  -- products with the slope and the curvature
  have a0 : ρ * getSlope g x1 x2 ≤ 4 / 25 * getSlope g x1 x2 :=
    mul_le_mul_of_nonneg_right hρ hs0.le
  have aR : 0 ≤ getSlope g x1 x2 * R := mul_nonneg hs0.le hR0
  have b1 : maxCurvature x1 x2 * R ≤ 4 / 25 * (ρ * getSlope g x1 x2) := by
    have e : maxCurvature x1 x2 * R = ρ * (maxCurvature x1 x2 * v) := by rw [← hR]; ring
    rw [e]
    calc ρ * (maxCurvature x1 x2 * v) ≤ ρ * (ρ * getSlope g x1 x2) :=
          mul_le_mul_of_nonneg_left hcv hρ0
      _ ≤ 4 / 25 * (ρ * getSlope g x1 x2) :=
          mul_le_mul_of_nonneg_right hρ (mul_nonneg hρ0 hs0.le)
  have b2 : maxCurvature x1 x2 * (R * R) ≤ 16 / 625 * (getSlope g x1 x2 * R) := by
    have e : maxCurvature x1 x2 * (R * R) = R * (maxCurvature x1 x2 * R) := by ring
    have e2 : (16 : ℚ) / 625 * (getSlope g x1 x2 * R) =
        4 / 25 * (4 / 25 * (getSlope g x1 x2 * R)) := by ring
    have e3 : R * (ρ * getSlope g x1 x2) = ρ * (getSlope g x1 x2 * R) := by ring
    rw [e, e2]
    calc R * (maxCurvature x1 x2 * R) ≤ R * (4 / 25 * (ρ * getSlope g x1 x2)) :=
          mul_le_mul_of_nonneg_left b1 hR0
      _ = 4 / 25 * (ρ * (getSlope g x1 x2 * R)) := by ring
      _ ≤ 4 / 25 * (4 / 25 * (getSlope g x1 x2 * R)) := by
          have := mul_le_mul_of_nonneg_right hρ aR
          linarith
  have b3 : maxCurvature x1 x2 * (v * v) ≤ getSlope g x1 x2 * R := by
    have e : maxCurvature x1 x2 * (v * v) = v * (maxCurvature x1 x2 * v) := by ring
    have e2 : getSlope g x1 x2 * R = v * (ρ * getSlope g x1 x2) := by rw [← hR]; ring
    rw [e, e2]
    exact mul_le_mul_of_nonneg_left hcv hv0
  -- first update
  obtain ⟨d0, r1, q1⟩ := newton_step_bounds x x1 x2 g v (by linarith) (by linarith) hs0 hv0 hv hr
  rw [newtonLoop_step x x1 x2 3 g (ne_of_gt hs0)]
  have e0 : |g - (calcBezier g x1 x2 - x) / getSlope g x1 x2 - g| ≤ v := by
    rw [sub_sub_cancel_left, abs_neg]; exact d0
  clear d0 hr
  generalize g - (calcBezier g x1 x2 - x) / getSlope g x1 x2 = t1 at *
  have e0' := abs_le.mp e0
  have q1' : 16 / 25 * getSlope g x1 x2 ≤ getSlope t1 x1 x2 := by linarith
  have p1 : 16 / 25 * getSlope g x1 x2 * R ≤ getSlope t1 x1 x2 * R :=
    mul_le_mul_of_nonneg_right q1' hR0
  have s1 : 0 < getSlope t1 x1 x2 := by linarith
  have r1' : |calcBezier t1 x1 x2 - x| ≤ 6 / 5 * (maxCurvature x1 x2 * (v * v)) := by
    calc |calcBezier t1 x1 x2 - x| ≤ 6 / 5 * maxCurvature x1 x2 * v ^ 2 := r1
      _ = 6 / 5 * (maxCurvature x1 x2 * (v * v)) := by ring
  -- second update
  obtain ⟨d1, r2, q2⟩ := newton_step_bounds x x1 x2 t1 (15 / 8 * R) (by linarith) (by linarith)
    s1 (by linarith) (by linarith) (by linarith)
  rw [newtonLoop_step x x1 x2 2 t1 (ne_of_gt s1)]
  have e1 : |t1 - (calcBezier t1 x1 x2 - x) / getSlope t1 x1 x2 - t1| ≤ 15 / 8 * R := by
    rw [sub_sub_cancel_left, abs_neg]; exact d1
  clear d1 r1 r1'
  generalize t1 - (calcBezier t1 x1 x2 - x) / getSlope t1 x1 x2 = t2 at *
  have e1' := abs_le.mp e1
  have q2' : 133 / 250 * getSlope g x1 x2 ≤ getSlope t2 x1 x2 := by linarith
  have p2 : 133 / 250 * getSlope g x1 x2 * R ≤ getSlope t2 x1 x2 * R :=
    mul_le_mul_of_nonneg_right q2' hR0
  have s2 : 0 < getSlope t2 x1 x2 := by linarith
  have r2' : |calcBezier t2 x1 x2 - x| ≤ 135 / 32 * (maxCurvature x1 x2 * (R * R)) := by
    calc |calcBezier t2 x1 x2 - x| ≤ 6 / 5 * maxCurvature x1 x2 * (15 / 8 * R) ^ 2 := r2
      _ = 135 / 32 * (maxCurvature x1 x2 * (R * R)) := by ring
  -- third update
  obtain ⟨d2, r3, q3⟩ := newton_step_bounds x x1 x2 t2 (21 / 100 * R) (by linarith) (by linarith)
    s2 (by linarith) (by linarith) (by linarith)
  rw [newtonLoop_step x x1 x2 1 t2 (ne_of_gt s2)]
  have e2 : |t2 - (calcBezier t2 x1 x2 - x) / getSlope t2 x1 x2 - t2| ≤ 21 / 100 * R := by
    rw [sub_sub_cancel_left, abs_neg]; exact d2
  clear d2 r2 r2'
  generalize t2 - (calcBezier t2 x1 x2 - x) / getSlope t2 x1 x2 = t3 at *
  have e2' := abs_le.mp e2
  have q3' : 1 / 2 * getSlope g x1 x2 ≤ getSlope t3 x1 x2 := by linarith
  have p3 : 1 / 2 * getSlope g x1 x2 * R ≤ getSlope t3 x1 x2 * R :=
    mul_le_mul_of_nonneg_right q3' hR0
  have s3 : 0 < getSlope t3 x1 x2 := by linarith
  have r3' : |calcBezier t3 x1 x2 - x| ≤ 1323 / 25000 * (maxCurvature x1 x2 * (R * R)) := by
    calc |calcBezier t3 x1 x2 - x| ≤ 6 / 5 * maxCurvature x1 x2 * (21 / 100 * R) ^ 2 := r3
      _ = 1323 / 25000 * (maxCurvature x1 x2 * (R * R)) := by ring
  -- fourth update
  obtain ⟨d3, r4, -⟩ := newton_step_bounds x x1 x2 t3 (1 / 100 * R) (by linarith) (by linarith)
    s3 (by linarith) (by linarith) (by linarith)
  rw [newtonLoop_step x x1 x2 0 t3 (ne_of_gt s3)]
  have e3 : |t3 - (calcBezier t3 x1 x2 - x) / getSlope t3 x1 x2 - t3| ≤ 1 / 100 * R := by
    rw [sub_sub_cancel_left, abs_neg]; exact d3
  clear d3 r3 r3'
  generalize t3 - (calcBezier t3 x1 x2 - x) / getSlope t3 x1 x2 = t4 at *
  have e3' := abs_le.mp e3
  rw [newtonLoop.eq_1]
  constructor
  · rw [abs_le]
    have : v * (1 + 17 / 8 * ρ) = v + 17 / 8 * R := by rw [← hR]; ring
    rw [this]
    constructor <;> linarith
  · have hRR : R * R ≤ 1 / 312 * (1 / 312) := by
      have hR2 : R ≤ 1 / 312 := by linarith
      exact mul_le_mul hR2 hR2 hR0 (by norm_num)
    have : maxCurvature x1 x2 * (R * R) ≤ 6 * (1 / 312 * (1 / 312)) :=
      mul_le_mul hc6 hRR (mul_nonneg hR0 hR0) (by norm_num)
    calc |calcBezier t4 x1 x2 - x| ≤ 6 / 5 * maxCurvature x1 x2 * (1 / 100 * R) ^ 2 := r4
      _ = 6 / 50000 * (maxCurvature x1 x2 * (R * R)) := by ring
      _ ≤ 1 / 100000000 := by linarith
end rive.CubicInterpolator

namespace rive.CubicInterpolator

/-- On `[0, 1]` the curvature is at most `maxCurvature` in absolute value. -/
theorem curvature_le (t x1 x2 : ℚ) (ht0 : 0 ≤ t) (ht1 : t ≤ 1) :
    |curvature t x1 x2| ≤ maxCurvature x1 x2 := by
  have hc0 : |3 * x2 - 6 * x1| ≤ maxCurvature x1 x2 := (le_maxCurvature x1 x2).1
  have hc1 : |3 - 6 * x2 + 3 * x1| ≤ maxCurvature x1 x2 := (le_maxCurvature x1 x2).2
  rw [abs_le] at hc0 hc1
  have e : curvature t x1 x2 = (3 * x2 - 6 * x1) * (1 - t) + (3 - 6 * x2 + 3 * x1) * t := by
    unfold curvature; ring
  rw [e, abs_le]
  constructor <;> nlinarith

/-- The residual of the guess interpolated between two sample points `a` and `a + h`, for the
value `x` interpolated between the two samples with the same weight `l`. -/
theorem guess_residual (a h l x1 x2 : ℚ) :
    calcBezier (a + l * h) x1 x2 -
        ((1 - l) * calcBezier a x1 x2 + l * calcBezier (a + h) x1 x2) =
      -(l * (1 - l) * h ^ 2 * curvature (a + h * (1 + l) / 3) x1 x2) := by
  unfold calcBezier curvature; ring

/-- The slope as a combination of its values at the four corners of the square of control
coordinates. -/
theorem getSlope_corners (t x1 x2 : ℚ) :
    getSlope t x1 x2 = 3 * ((1 - x1) * ((1 - x2) * t ^ 2 + x2 * (2 * t * (1 - t))) +
      x1 * ((1 - x2) * (1 - 2 * t) ^ 2 + x2 * (1 - t) ^ 2)) := by
  unfold getSlope; ring

theorem getSlope_nonneg (t x1 x2 : ℚ) (h1 : 0 ≤ x1) (h1' : x1 ≤ 1) (h2 : 0 ≤ x2) (h2' : x2 ≤ 1)
    (ht0 : 0 ≤ t) (ht1 : t ≤ 1) : 0 ≤ getSlope t x1 x2 := by
  rw [getSlope_corners]
  have u1 : 0 ≤ 1 - x1 := by linarith
  have u2 : 0 ≤ 1 - x2 := by linarith
  have u3 : 0 ≤ 1 - t := by linarith
  positivity

/-- On `[0, 1]` the slope vanishes only at `0`, `1/2` or `1`. -/
theorem getSlope_zero_cases (t x1 x2 : ℚ) (h1 : 0 ≤ x1) (h1' : x1 ≤ 1) (h2 : 0 ≤ x2)
    (h2' : x2 ≤ 1) (ht0 : 0 ≤ t) (ht1 : t ≤ 1) (hs : getSlope t x1 x2 = 0) :
    t = 0 ∨ t = 1 / 2 ∨ t = 1 := by
  by_contra hcon
  rw [not_or, not_or] at hcon
  obtain ⟨n0, n2, n1⟩ := hcon
  have t0 : 0 < t := lt_of_le_of_ne ht0 (Ne.symm n0)
  have t1 : 0 < 1 - t := by
    have : t < 1 := lt_of_le_of_ne ht1 n1
    linarith
  have t2 : 1 - 2 * t ≠ 0 := by
    intro h
    apply n2
    linarith
  have p00 : 0 < t ^ 2 := by positivity
  have p01 : 0 < 2 * t * (1 - t) := by positivity
  have p10 : 0 < (1 - 2 * t) ^ 2 := by positivity
  have p11 : 0 < (1 - t) ^ 2 := by positivity
  have := convex_pos x1 _ _ h1 h1' (convex_pos x2 _ _ h2 h2' p00 p01)
    (convex_pos x2 _ _ h2 h2' p10 p11)
  rw [getSlope_corners] at hs
  linarith

/-- Within `1/10` of a point of `[0, 1]` the slope is at most twice the slope there plus
`3/5`. -/
theorem getSlope_near (s g x1 x2 : ℚ) (h1 : 0 ≤ x1) (h1' : x1 ≤ 1) (h2 : 0 ≤ x2) (h2' : x2 ≤ 1)
    (hs0 : 0 ≤ s) (hs1 : s ≤ 1) (hg0 : 0 ≤ g) (hg1 : g ≤ 1) (hd : |s - g| ≤ 1 / 10) :
    getSlope s x1 x2 ≤ 2 * getSlope g x1 x2 + 3 / 5 := by
  rw [abs_le] at hd
  obtain ⟨d1, d2⟩ := hd
  have e : 2 * getSlope g x1 x2 + 3 / 5 - getSlope s x1 x2 =
      3 * ((1 - x1) * ((1 - x2) * (2 * g ^ 2 + 1 / 5 - s ^ 2) +
          x2 * (2 * (2 * g * (1 - g)) + 1 / 5 - 2 * s * (1 - s))) +
        x1 * ((1 - x2) * (2 * (1 - 2 * g) ^ 2 + 1 / 5 - (1 - 2 * s) ^ 2) +
          x2 * (2 * (1 - g) ^ 2 + 1 / 5 - (1 - s) ^ 2))) := by
    rw [getSlope_corners, getSlope_corners]; ring
  have u1 : 0 ≤ 1 - x1 := by linarith
  have u2 : 0 ≤ 1 - x2 := by linarith
  have p00 : 0 ≤ 2 * g ^ 2 + 1 / 5 - s ^ 2 := by nlinarith [sq_nonneg (s - 2 * g)]
  have p01 : 0 ≤ 2 * (2 * g * (1 - g)) + 1 / 5 - 2 * s * (1 - s) := by
    have k1 : |(s - g) * (1 - g - s)| ≤ 1 / 10 * 1 := by
      rw [abs_mul]
      exact mul_le_mul (abs_le.mpr ⟨d1, d2⟩) (abs_le.mpr ⟨by linarith, by linarith⟩)
        (abs_nonneg _) (by norm_num)
    have k2 := (abs_le.mp k1).2
    have k3 : 2 * s * (1 - s) = 2 * g * (1 - g) + 2 * ((s - g) * (1 - g - s)) := by ring
    have k4 : 0 ≤ g * (1 - g) := mul_nonneg hg0 (by linarith)
    linarith
  have p10 : 0 ≤ 2 * (1 - 2 * g) ^ 2 + 1 / 5 - (1 - 2 * s) ^ 2 := by
    nlinarith [sq_nonneg ((1 - 2 * s) - 2 * (1 - 2 * g))]
  have p11 : 0 ≤ 2 * (1 - g) ^ 2 + 1 / 5 - (1 - s) ^ 2 := by
    nlinarith [sq_nonneg ((1 - s) - 2 * (1 - g))]
  have : 0 ≤ 3 * ((1 - x1) * ((1 - x2) * (2 * g ^ 2 + 1 / 5 - s ^ 2) +
          x2 * (2 * (2 * g * (1 - g)) + 1 / 5 - 2 * s * (1 - s))) +
        x1 * ((1 - x2) * (2 * (1 - 2 * g) ^ 2 + 1 / 5 - (1 - 2 * s) ^ 2) +
          x2 * (2 * (1 - g) ^ 2 + 1 / 5 - (1 - s) ^ 2))) := by positivity
  linarith

/-- Half a bracket of width at most `1/5120` around a point of `[0, 1]` where the slope is at
most `1` changes the curve by at most `1e-4`. -/
theorem halfwidth_residual (t w x1 x2 : ℚ) (h1 : 0 ≤ x1) (h1' : x1 ≤ 1) (h2 : 0 ≤ x2)
    (h2' : x2 ≤ 1) (ht0 : 0 ≤ t) (ht1 : t ≤ 1) (hw0 : 0 ≤ w) (hw : w ≤ 1 / 10240)
    (hs : getSlope t x1 x2 ≤ 1) :
    calcBezier (t + w) x1 x2 - calcBezier t x1 x2 ≤ 1 / 10000 ∧
      calcBezier t x1 x2 - calcBezier (t - w) x1 x2 ≤ 1 / 10000 := by
  have hk := curvature_le t x1 x2 ht0 ht1
  have hc6 := maxCurvature_le_six x1 x2 h1 h1' h2 h2'
  have hk' : |3 * (1 - 3 * x2 + 3 * x1) * t + (3 * x2 - 6 * x1)| ≤ 6 := le_trans hk hc6
  rw [abs_le] at hk'
  have e1 : getSlope t x1 x2 * w ≤ 1 * w := mul_le_mul_of_nonneg_right hs hw0
  have hw2 : w ^ 2 ≤ 1 / 10240 * w := by nlinarith
  have hw2' : 0 ≤ w ^ 2 := sq_nonneg w
  have hw3 : w ^ 3 ≤ 1 / 10240 * w ^ 2 := by nlinarith
  have hw3' : 0 ≤ w ^ 3 := by positivity
  have c2 : (1 - 3 * x2 + 3 * x1) ≤ 4 := by linarith
  have c2' : -2 ≤ (1 - 3 * x2 + 3 * x1) := by linarith
  constructor
  · rw [calcBezier_add]
    have e2 : (3 * (1 - 3 * x2 + 3 * x1) * t + (3 * x2 - 6 * x1)) * w ^ 2 ≤ 6 * w ^ 2 :=
      mul_le_mul_of_nonneg_right hk'.2 hw2'
    have e3 : (1 - 3 * x2 + 3 * x1) * w ^ 3 ≤ 4 * w ^ 3 :=
      mul_le_mul_of_nonneg_right c2 hw3'
    linarith
  · have e := calcBezier_add t (-w) x1 x2
    rw [← sub_eq_add_neg] at e
    rw [e]
    have hneg : (-w) ^ 2 = w ^ 2 := by ring
    have hneg3 : (-w) ^ 3 = -w ^ 3 := by ring
    rw [hneg, hneg3]
    have e2 : -6 * w ^ 2 ≤ (3 * (1 - 3 * x2 + 3 * x1) * t + (3 * x2 - 6 * x1)) * w ^ 2 :=
      mul_le_mul_of_nonneg_right hk'.1 hw2'
    have e3 : (1 - 3 * x2 + 3 * x1) * w ^ 3 ≤ 4 * w ^ 3 :=
      mul_le_mul_of_nonneg_right c2 hw3'
    linarith

/-- The bisection loop from a bracket whose ends have curve values on both sides of `x`: the
result has a residual of at most `SubdivisionPrecision`, or it is the midpoint of a bracket with
the same property, inside the first and narrower by a factor `2 ^ (fuel - 1)`. -/
theorem subdivideLoop_final (x x1 x2 : ℚ) (fuel i : Nat) (lo hi : ℚ) (hf : 1 ≤ fuel)
    (hfi : fuel + i = SubdivisionMaxIterations) (hle : lo ≤ hi)
    (hlo : calcBezier lo x1 x2 ≤ x) (hhi : x ≤ calcBezier hi x1 x2) :
    |calcBezier (subdivideLoop x x1 x2 fuel i lo hi) x1 x2 - x| ≤ SubdivisionPrecision ∨
      ∃ lo' hi', lo ≤ lo' ∧ lo' ≤ hi' ∧ hi' ≤ hi ∧ hi' - lo' = (hi - lo) / 2 ^ (fuel - 1) ∧
        calcBezier lo' x1 x2 ≤ x ∧ x ≤ calcBezier hi' x1 x2 ∧
        subdivideLoop x x1 x2 fuel i lo hi = lo' + (hi' - lo') / 2 := by
  induction fuel generalizing i lo hi with
  | zero => omega
  | succ f ih =>
    unfold subdivideLoop
    simp only []
    by_cases hc : |calcBezier (lo + (hi - lo) / 2) x1 x2 - x| > SubdivisionPrecision ∧
        i + 1 < SubdivisionMaxIterations
    · rw [if_pos hc]
      have hf1 : 1 ≤ f := by have := hc.2; omega
      have e2 : (2 : ℚ) ^ (f + 1 - 1) = 2 * 2 ^ (f - 1) := by
        have : f + 1 - 1 = (f - 1) + 1 := by omega
        rw [this, pow_succ]; ring
      by_cases hm : calcBezier (lo + (hi - lo) / 2) x1 x2 - x > 0
      · rw [if_pos hm]
        rcases ih (i + 1) lo (lo + (hi - lo) / 2) hf1 (by omega) (by linarith) hlo
          (by linarith) with h | ⟨lo', hi', a1, a2, a3, a4, a5, a6, a7⟩
        · exact Or.inl h
        · refine Or.inr ⟨lo', hi', a1, a2, by linarith, ?_, a5, a6, a7⟩
          rw [a4, e2]
          field_simp
          ring
      · rw [if_neg hm]
        rcases ih (i + 1) (lo + (hi - lo) / 2) hi hf1 (by omega) (by linarith)
          (by linarith) hhi with h | ⟨lo', hi', a1, a2, a3, a4, a5, a6, a7⟩
        · exact Or.inl h
        · refine Or.inr ⟨lo', hi', by linarith, a2, a3, ?_, a5, a6, a7⟩
          rw [a4, e2]
          field_simp
          ring
    · rw [if_neg hc]
      by_cases hp : |calcBezier (lo + (hi - lo) / 2) x1 x2 - x| > SubdivisionPrecision
      · right
        have hi9 : ¬ (i + 1 < SubdivisionMaxIterations) := fun h => hc ⟨hp, h⟩
        have f0 : f = 0 := by omega
        refine ⟨lo, hi, le_refl _, hle, le_refl _, ?_, hlo, hhi, rfl⟩
        rw [f0]
        simp
      · left
        exact not_lt.mp hp

end rive.CubicInterpolator

/-! ## The interpolator: the initial guess and the three branches -/

namespace rive.CubicInterpolator

/-- The initial guess and the query as interpolations with the same weight `l` in `[0, 1]`:
with `a = k * step` the start of the selected interval, the guess is `a + l * step` and `x` is
`(1 - l) * calcBezier(a) + l * calcBezier(a + step)`. -/
theorem guess_weight (N : Nat) (hN : 2 ≤ N) (x1 x2 : ℚ) (h1 : 0 ≤ x1) (h1' : x1 ≤ 1)
    (h2 : 0 ≤ x2) (h2' : x2 ≤ 1) (m : Nat → ℚ) (x : ℚ) (hx0 : 0 ≤ x) (hx1 : x ≤ 1) :
    ∃ l : ℚ, 0 ≤ l ∧ l ≤ 1 ∧
      initialGuess N (built N x1 x2 m) x =
        (scanIndex N (built N x1 x2 m) x : ℚ) * SampleStepSize N + l * SampleStepSize N ∧
      x = (1 - l) *
            calcBezier ((scanIndex N (built N x1 x2 m) x : ℚ) * SampleStepSize N) x1 x2 +
          l * calcBezier ((scanIndex N (built N x1 x2 m) x : ℚ) * SampleStepSize N +
            SampleStepSize N) x1 x2 ∧
      0 ≤ (scanIndex N (built N x1 x2 m) x : ℚ) * SampleStepSize N ∧
      (scanIndex N (built N x1 x2 m) x : ℚ) * SampleStepSize N + SampleStepSize N ≤ 1 := by
  obtain ⟨b1, b2, b3⟩ := built_bracket N hN x1 x2 h1 h1' h2 h2' m x hx0 hx1
  obtain ⟨a1, a2, -, -⟩ := scan_spec N hN (built N x1 x2 m) x
  have hn0 := (node_mem N hN (scanIndex N (built N x1 x2 m) x) (by omega)).1
  have hn1 := (node_mem N hN (scanIndex N (built N x1 x2 m) x + 1) (by omega)).2
  have v0 := built_values N x1 x2 m (scanIndex N (built N x1 x2 m) x) (by omega)
  have v1 := built_values N x1 x2 m (scanIndex N (built N x1 x2 m) x + 1) (by omega)
  have ec : ((scanIndex N (built N x1 x2 m) x + 1 : Nat) : ℚ) * SampleStepSize N =
      (scanIndex N (built N x1 x2 m) x : ℚ) * SampleStepSize N + SampleStepSize N := by
    push_cast; ring
  rw [ec] at v1 hn1
  unfold initialGuess
  simp only []
  rw [a2]
  rw [← v0, ← v1]
  generalize (built N x1 x2 m).m_Values (scanIndex N (built N x1 x2 m) x) = p at *
  generalize (built N x1 x2 m).m_Values (scanIndex N (built N x1 x2 m) x + 1) = q at *
  have hd : 0 < q - p := by linarith
  refine ⟨(x - p) / (q - p), div_nonneg (by linarith) hd.le, ?_, rfl, ?_, hn0, hn1⟩
  · rw [div_le_one hd]; linarith
  · field_simp
    ring

end rive.CubicInterpolator

namespace rive.CubicInterpolator

/-- With 11 entries, the residual at the initial guess `k / 10 + l / 10` is at most
`l * (1 - l) / 100` times the largest curvature, and it is zero when `l` is `0` or `1`. -/
theorem guess_residual_bound (x1 x2 : ℚ) (h1 : 0 ≤ x1) (h1' : x1 ≤ 1) (h2 : 0 ≤ x2)
    (h2' : x2 ≤ 1) (m : Nat → ℚ) (x : ℚ) (hx0 : 0 ≤ x) (hx1 : x ≤ 1) :
    ∃ l : ℚ, 0 ≤ l ∧ l ≤ 1 ∧
      initialGuess 11 (built 11 x1 x2 m) x =
        (scanIndex 11 (built 11 x1 x2 m) x : ℚ) * (1 / 10) + l * (1 / 10) ∧
      |calcBezier (initialGuess 11 (built 11 x1 x2 m) x) x1 x2 - x| ≤
        l * (1 - l) * (1 / 100) * maxCurvature x1 x2 ∧
      0 ≤ initialGuess 11 (built 11 x1 x2 m) x ∧ initialGuess 11 (built 11 x1 x2 m) x ≤ 1 := by
  obtain ⟨l, l0, l1, hg, hx, a0, a1⟩ := guess_weight 11 (by decide) x1 x2 h1 h1' h2 h2' m x hx0 hx1
  rw [step_eleven] at hg hx a0 a1
  refine ⟨l, l0, l1, hg, ?_, ?_, ?_⟩
  · rw [hg]
    generalize (scanIndex 11 (built 11 x1 x2 m) x : ℚ) * (1 / 10) = a at *
    have e := guess_residual a (1 / 10) l x1 x2
    rw [← hx] at e
    rw [e, abs_neg]
    have hk := curvature_le (a + 1 / 10 * (1 + l) / 3) x1 x2 (by linarith) (by linarith)
    have hl : 0 ≤ l * (1 - l) * (1 / 10) ^ 2 :=
      mul_nonneg (mul_nonneg l0 (by linarith)) (by norm_num)
    rw [abs_mul, abs_of_nonneg hl]
    calc l * (1 - l) * (1 / 10) ^ 2 * |curvature (a + 1 / 10 * (1 + l) / 3) x1 x2| ≤
          l * (1 - l) * (1 / 10) ^ 2 * maxCurvature x1 x2 := mul_le_mul_of_nonneg_left hk hl
      _ = l * (1 - l) * (1 / 100) * maxCurvature x1 x2 := by ring
  · rw [hg]
    have := mul_nonneg l0 (by norm_num : (0 : ℚ) ≤ 1 / 10)
    linarith
  · rw [hg]
    have : l * (1 / 10) ≤ 1 * (1 / 10) := mul_le_mul_of_nonneg_right l1 (by norm_num)
    linarith

/-- With 11 entries, the Newton branch of `getT` from a guess where
`maxCurvature * |residual| ≤ 4/25 * slope ^ 2`: the four updates move the guess by at most
`27/20 * |residual| / slope` and leave a residual of at most `1e-8`. -/
theorem newton_from_guess (x1 x2 : ℚ) (h1 : 0 ≤ x1) (h1' : x1 ≤ 1) (h2 : 0 ≤ x2)
    (h2' : x2 ≤ 1) (m : Nat → ℚ) (x : ℚ) (hx0 : 0 ≤ x) (hx1 : x ≤ 1)
    (hs : 0 < getSlope (initialGuess 11 (built 11 x1 x2 m) x) x1 x2)
    (hb : maxCurvature x1 x2 * |calcBezier (initialGuess 11 (built 11 x1 x2 m) x) x1 x2 - x| ≤
      4 / 25 * getSlope (initialGuess 11 (built 11 x1 x2 m) x) x1 x2 ^ 2) :
    getSlope (initialGuess 11 (built 11 x1 x2 m) x) x1 x2 *
        |newtonLoop x x1 x2 4 (initialGuess 11 (built 11 x1 x2 m) x) -
          initialGuess 11 (built 11 x1 x2 m) x| ≤
        27 / 20 * |calcBezier (initialGuess 11 (built 11 x1 x2 m) x) x1 x2 - x| ∧
      |calcBezier (newtonLoop x x1 x2 4 (initialGuess 11 (built 11 x1 x2 m) x)) x1 x2 - x| ≤
        1 / 100000000 := by
  obtain ⟨l, l0, l1, -, hr, g0, g1⟩ := guess_residual_bound x1 x2 h1 h1' h2 h2' m x hx0 hx1
  generalize initialGuess 11 (built 11 x1 x2 m) x = g at *
  have hc := maxCurvature_nonneg x1 x2
  have hl4 : l * (1 - l) ≤ 1 / 4 := by nlinarith [sq_nonneg (l - 1 / 2)]
  have hll : 0 ≤ l * (1 - l) := mul_nonneg l0 (by linarith)
  have hr400 : |calcBezier g x1 x2 - x| ≤ 1 / 400 * maxCurvature x1 x2 := by
    have := mul_le_mul_of_nonneg_right hl4 hc
    linarith
  have hr0 := abs_nonneg (calcBezier g x1 x2 - x)
  generalize hrdef : |calcBezier g x1 x2 - x| = r at *
  generalize hsg : getSlope g x1 x2 = s at *
  have hrs : r ≤ s * (1 / 50) := by
    by_contra hcon
    rw [not_le] at hcon
    have hp : 0 ≤ s * (1 / 50) := by positivity
    have := mul_lt_mul'' hcon hcon hp hp
    have h3 : r * r ≤ r * (1 / 400 * maxCurvature x1 x2) := mul_le_mul_of_nonneg_left hr400 hr0
    nlinarith
  have hv : r / s ≤ 1 / 50 := by
    rw [div_le_iff₀ hs]; linarith
  have hv0 : 0 ≤ r / s := div_nonneg hr0 hs.le
  have hcv : maxCurvature x1 x2 * (r / s) ≤ 4 / 25 * s := by
    rw [← mul_div_assoc, div_le_iff₀ hs]
    nlinarith
  have hsv : s * (r / s) = r := by rw [mul_comm, div_mul_cancel₀ r hs.ne']
  have h := newton_four_steps x x1 x2 g (r / s) (4 / 25) h1 h1' h2 h2' g0 g1 (by rw [hsg]; exact hs)
    hv0 hv (by norm_num) (le_refl _) (by rw [hsg]; exact hcv)
    (by rw [hsg, hsv, hrdef])
  refine ⟨?_, h.2⟩
  have h' := mul_le_mul_of_nonneg_left h.1 hs.le
  have e : s * (r / s * (1 + 17 / 8 * (4 / 25))) = r * (1 + 17 / 8 * (4 / 25)) := by
    rw [← mul_assoc, hsv]
  rw [e] at h'
  linarith

end rive.CubicInterpolator

namespace rive.CubicInterpolator

/-- With 11 entries, where the slope at the initial guess is at least an eighth of the largest
curvature, four Newton updates stay in the selected interval. -/
theorem newton_steep_in_bracket (x1 x2 : ℚ) (h1 : 0 ≤ x1) (h1' : x1 ≤ 1) (h2 : 0 ≤ x2)
    (h2' : x2 ≤ 1) (m : Nat → ℚ) (x : ℚ) (hx0 : 0 ≤ x) (hx1 : x ≤ 1)
    (hs : 0 < getSlope (initialGuess 11 (built 11 x1 x2 m) x) x1 x2)
    (ha : maxCurvature x1 x2 ≤ 8 * getSlope (initialGuess 11 (built 11 x1 x2 m) x) x1 x2) :
    (scanIndex 11 (built 11 x1 x2 m) x : ℚ) * (1 / 10) ≤
        newtonLoop x x1 x2 4 (initialGuess 11 (built 11 x1 x2 m) x) ∧
      newtonLoop x x1 x2 4 (initialGuess 11 (built 11 x1 x2 m) x) ≤
        (scanIndex 11 (built 11 x1 x2 m) x : ℚ) * (1 / 10) + 1 / 10 := by
  obtain ⟨l, l0, l1, hg, hr, g0, g1⟩ := guess_residual_bound x1 x2 h1 h1' h2 h2' m x hx0 hx1
  generalize (scanIndex 11 (built 11 x1 x2 m) x : ℚ) * (1 / 10) = a at *
  generalize initialGuess 11 (built 11 x1 x2 m) x = g at *
  have hc := maxCurvature_nonneg x1 x2
  have hl4 : l * (1 - l) ≤ 1 / 4 := by
    have e : 1 / 4 - l * (1 - l) = (l - 1 / 2) ^ 2 := by ring
    have := sq_nonneg (l - 1 / 2)
    linarith
  have hll : 0 ≤ l * (1 - l) := mul_nonneg l0 (by linarith)
  have hv0 : 0 ≤ 2 / 25 * (l * (1 - l)) := by positivity
  have hv : 2 / 25 * (l * (1 - l)) ≤ 1 / 50 := by linarith
  have hcv : maxCurvature x1 x2 * (2 / 25 * (l * (1 - l))) ≤
      8 * (2 / 25 * (l * (1 - l))) * getSlope g x1 x2 := by
    have := mul_le_mul_of_nonneg_right ha hv0
    linarith
  have hrv : |calcBezier g x1 x2 - x| ≤ getSlope g x1 x2 * (2 / 25 * (l * (1 - l))) := by
    have := mul_le_mul_of_nonneg_left ha (by positivity : 0 ≤ l * (1 - l) * (1 / 100))
    linarith
  have h := (newton_four_steps x x1 x2 g (2 / 25 * (l * (1 - l))) (8 * (2 / 25 * (l * (1 - l))))
    h1 h1' h2 h2' g0 g1 hs hv0 hv (by positivity) (by linarith) hcv hrv).1
  have k1 : l * (1 - l) ^ 2 ≤ 4 / 27 := by
    have e : 4 / 27 - l * (1 - l) ^ 2 = (1 - 3 * l) ^ 2 * (4 - 3 * l) / 27 := by ring
    have : 0 ≤ (1 - 3 * l) ^ 2 * (4 - 3 * l) / 27 :=
      div_nonneg (mul_nonneg (sq_nonneg _) (by linarith)) (by norm_num)
    linarith
  have k2 : l ^ 2 * (1 - l) ≤ 4 / 27 := by
    have e : 4 / 27 - l ^ 2 * (1 - l) = (2 - 3 * l) ^ 2 * (1 + 3 * l) / 27 := by ring
    have : 0 ≤ (2 - 3 * l) ^ 2 * (1 + 3 * l) / 27 :=
      div_nonneg (mul_nonneg (sq_nonneg _) (by linarith)) (by norm_num)
    linarith
  have k1' := mul_le_mul_of_nonneg_left k1 l0
  have k2' := mul_le_mul_of_nonneg_left k2 (by linarith : (0 : ℚ) ≤ 1 - l)
  have m1 : l * (1 - l) ≤ l := by
    have e : l - l * (1 - l) = l ^ 2 := by ring
    have := sq_nonneg l
    linarith
  have m2 : l * (1 - l) ≤ 1 - l := by
    have e : (1 - l) - l * (1 - l) = (1 - l) ^ 2 := by ring
    have := sq_nonneg (1 - l)
    linarith
  have e : 2 / 25 * (l * (1 - l)) * (1 + 17 / 8 * (8 * (2 / 25 * (l * (1 - l))))) =
      2 / 25 * (l * (1 - l)) + 68 / 625 * (l * (l * (1 - l) ^ 2)) := by ring
  have e' : 2 / 25 * (l * (1 - l)) * (1 + 17 / 8 * (8 * (2 / 25 * (l * (1 - l))))) =
      2 / 25 * (l * (1 - l)) + 68 / 625 * ((1 - l) * (l ^ 2 * (1 - l))) := by ring
  have hlo : 2 / 25 * (l * (1 - l)) * (1 + 17 / 8 * (8 * (2 / 25 * (l * (1 - l))))) ≤
      l * (1 / 10) := by
    rw [e]; linarith
  have hhi : 2 / 25 * (l * (1 - l)) * (1 + 17 / 8 * (8 * (2 / 25 * (l * (1 - l))))) ≤
      (1 - l) * (1 / 10) := by
    rw [e']; linarith
  rw [abs_le] at h
  constructor <;> linarith

/-- With 11 entries, an initial guess of slope zero solves the equation exactly. -/
theorem zero_slope_guess_exact (x1 x2 : ℚ) (h1 : 0 ≤ x1) (h1' : x1 ≤ 1) (h2 : 0 ≤ x2)
    (h2' : x2 ≤ 1) (m : Nat → ℚ) (x : ℚ) (hx0 : 0 ≤ x) (hx1 : x ≤ 1)
    (hs : getSlope (initialGuess 11 (built 11 x1 x2 m) x) x1 x2 = 0) :
    calcBezier (initialGuess 11 (built 11 x1 x2 m) x) x1 x2 = x := by
  obtain ⟨l, l0, l1, hg, hr, g0, g1⟩ := guess_residual_bound x1 x2 h1 h1' h2 h2' m x hx0 hx1
  have hcases := getSlope_zero_cases _ x1 x2 h1 h1' h2 h2' g0 g1 hs
  have hint : ∀ n : Nat, (scanIndex 11 (built 11 x1 x2 m) x : ℚ) + l = (n : ℚ) →
      l = 0 ∨ l = 1 := by
    intro n hn
    by_cases hk : n ≤ scanIndex 11 (built 11 x1 x2 m) x
    · left
      have : (n : ℚ) ≤ (scanIndex 11 (built 11 x1 x2 m) x : ℚ) := by exact_mod_cast hk
      linarith
    · right
      have hk' : scanIndex 11 (built 11 x1 x2 m) x + 1 ≤ n := by omega
      have : ((scanIndex 11 (built 11 x1 x2 m) x + 1 : Nat) : ℚ) ≤ (n : ℚ) := by
        exact_mod_cast hk'
      push_cast at this
      linarith
  have hl : l = 0 ∨ l = 1 := by
    rw [hg] at hcases
    rcases hcases with h | h | h
    · exact hint 0 (by push_cast; linarith)
    · exact hint 5 (by push_cast; linarith)
    · exact hint 10 (by push_cast; linarith)
  have hz : l * (1 - l) * (1 / 100) * maxCurvature x1 x2 = 0 := by
    rcases hl with h | h <;> rw [h] <;> ring
  rw [hz] at hr
  have := abs_nonpos_iff.mp hr
  linarith

/-- With 11 entries, when the slope at the initial guess is below `NewtonMinSlope`, the result
of the bisection from the selected interval has a residual of at most `1e-4`. -/
theorem bisection_residual (x1 x2 : ℚ) (h1 : 0 ≤ x1) (h1' : x1 ≤ 1) (h2 : 0 ≤ x2)
    (h2' : x2 ≤ 1) (m : Nat → ℚ) (x : ℚ) (hx0 : 0 ≤ x) (hx1 : x ≤ 1)
    (hs : getSlope (initialGuess 11 (built 11 x1 x2 m) x) x1 x2 < NewtonMinSlope) :
    |calcBezier (subdivideLoop x x1 x2 SubdivisionMaxIterations 0
        (scanStart 11 (built 11 x1 x2 m) x)
        (scanStart 11 (built 11 x1 x2 m) x + SampleStepSize 11)) x1 x2 - x| ≤ 1 / 10000 := by
  obtain ⟨l, l0, l1, hg, hx, a0, a1⟩ := guess_weight 11 (by decide) x1 x2 h1 h1' h2 h2' m x hx0 hx1
  rw [(scan_spec 11 (by decide) (built 11 x1 x2 m) x).2.1]
  rw [step_eleven] at hg hx a0 a1 ⊢
  generalize (scanIndex 11 (built 11 x1 x2 m) x : ℚ) * (1 / 10) = a at *
  generalize initialGuess 11 (built 11 x1 x2 m) x = g at *
  have hmono := calcBezier_lt x1 x2 a (a + 1 / 10) h1 h1' h2 h2' a0 (by linarith) a1
  have hlo : calcBezier a x1 x2 ≤ x := by
    have := mul_nonneg l0 (by linarith : (0 : ℚ) ≤ calcBezier (a + 1 / 10) x1 x2 - calcBezier a x1 x2)
    linarith
  have hhi : x ≤ calcBezier (a + 1 / 10) x1 x2 := by
    have := mul_nonneg (by linarith : (0 : ℚ) ≤ 1 - l)
      (by linarith : (0 : ℚ) ≤ calcBezier (a + 1 / 10) x1 x2 - calcBezier a x1 x2)
    linarith
  have hl10 : l * (1 / 10) ≤ 1 * (1 / 10) := mul_le_mul_of_nonneg_right l1 (by norm_num)
  have hl0 : 0 ≤ l * (1 / 10) := mul_nonneg l0 (by norm_num)
  rcases subdivideLoop_final x x1 x2 SubdivisionMaxIterations 0 a (a + 1 / 10) (by decide) rfl
    (by linarith) hlo hhi with h | ⟨lo, hi, b1, b2, b3, b4, b5, b6, b7⟩
  · unfold SubdivisionPrecision at h
    linarith
  · rw [b7]
    have hw : (hi - lo) / 2 = 1 / 10240 := by
      rw [b4]
      norm_num [SubdivisionMaxIterations]
    rw [hw]
    have hlo' : lo = lo + 1 / 10240 - 1 / 10240 := by ring
    have hhi' : hi = lo + 1 / 10240 + 1 / 10240 := by linarith
    have hslope : getSlope (lo + 1 / 10240) x1 x2 ≤ 1 := by
      have := getSlope_near (lo + 1 / 10240) g x1 x2 h1 h1' h2 h2' (by linarith) (by linarith)
        (by linarith) (by linarith) (by rw [abs_le]; constructor <;> linarith)
      unfold NewtonMinSlope at hs
      linarith
    obtain ⟨r1, r2⟩ := halfwidth_residual (lo + 1 / 10240) (1 / 10240) x1 x2 h1 h1' h2 h2'
      (by linarith) (by linarith) (by norm_num) (le_refl _) hslope
    rw [← hhi'] at r1
    rw [← hlo'] at r2
    rw [abs_le]
    constructor <;> linarith

end rive.CubicInterpolator

/-! ## The interpolator: the round trip and the bracket -/

namespace rive.CubicInterpolator

/-- C1 (as stated, refuted): for `x1 = 1`, `x2 = 0` and `x = 0.5004` with the table of 11
entries, the scan selects interval 5, the guess is `0.51`, the slope there is `0.0012`, so the
Newton branch runs, and the value it returns misses `x` by more than `1e-4`
(by more than `3e-3`).  The same happens inside the square, at `x1 = 0.9999`, `x2 = 0.0001`.
In binary32 arithmetic the round trip also fails at `x = 1` for `x1 = 7063171 / 2^27`,
`x2 = 16771551 / 2^24`: in exact arithmetic the guess `1` solves the equation and the slope
there is `0.001013`, but the rounding error of the residual divided by this slope moves the
guess, `getT(1)` is `1.0209199` and `calcBezier` there is `0.99876`. -/
theorem roundtrip_fails_near_flat_point :
    scanIndex 11 (built 11 1 0 (fun _ => 0)) (1251 / 2500) = 5 ∧
      initialGuess 11 (built 11 1 0 (fun _ => 0)) (1251 / 2500) = 51 / 100 ∧
      getSlope (51 / 100) 1 0 = 3 / 2500 ∧
      ¬ |calcBezier (getT 11 (built 11 1 0 (fun _ => 0)) (1251 / 2500)) 1 0 - 1251 / 2500|
        ≤ 1 / 10000 ∧
      3 / 1000 <
        calcBezier (getT 11 (built 11 1 0 (fun _ => 0)) (1251 / 2500)) 1 0 - 1251 / 2500 ∧
      ¬ |calcBezier (getT 11 (built 11 (9999 / 10000) (1 / 10000) (fun _ => 0)) (1251 / 2500))
          (9999 / 10000) (1 / 10000) - 1251 / 2500| ≤ 1 / 10000 ∧
      initialGuess 11 (built 11 (7063171 / 134217728) (16771551 / 16777216) (fun _ => 0)) 1 = 1 ∧
      getSlope 1 (7063171 / 134217728) (16771551 / 16777216) = 16995 / 16777216 ∧
      Binary32.getT 11
          (Binary32.built 11 (7063171 / 134217728) (16771551 / 16777216) (fun _ => 0)) 1 =
        8564097 / 8388608 ∧
      Binary32.calcBezier (8564097 / 8388608) (7063171 / 134217728) (16771551 / 16777216) =
        1047277 / 1048576 ∧
      ¬ |Binary32.calcBezier (Binary32.getT 11
            (Binary32.built 11 (7063171 / 134217728) (16771551 / 16777216) (fun _ => 0)) 1)
          (7063171 / 134217728) (16771551 / 16777216) - 1| ≤ 1 / 10000 := by
  decide!

/-- C1 (amended): in exact arithmetic, for control coordinates in `[0, 1]`, the built table of
11 entries and `x` in `[0, 1]`, let `g` be the initial guess of `getT`.  The round trip holds,
`|calcBezier(getT(x), x1, x2) - x| ≤ 1e-4`, when the slope at `g` is at most `9/10` of
`NewtonMinSlope` (zero-slope and bisection branches), when the largest curvature is at most
8 times the slope at `g`, and when the slope at `g` is at least `1/10` and the largest curvature
times the residual `|calcBezier(g) - x|` is at most `4/25` of the squared slope (Newton branch
from a well-conditioned guess). -/
theorem roundtrip_from_conditioned_guess (x1 x2 : ℚ) (h1 : 0 ≤ x1) (h1' : x1 ≤ 1) (h2 : 0 ≤ x2)
    (h2' : x2 ≤ 1) (m : Nat → ℚ) (x : ℚ) (hx0 : 0 ≤ x) (hx1 : x ≤ 1)
    (hcond : getSlope (initialGuess 11 (built 11 x1 x2 m) x) x1 x2 ≤ 9 / 10 * NewtonMinSlope ∨
      maxCurvature x1 x2 ≤ 8 * getSlope (initialGuess 11 (built 11 x1 x2 m) x) x1 x2 ∨
      (1 / 10 ≤ getSlope (initialGuess 11 (built 11 x1 x2 m) x) x1 x2 ∧
        maxCurvature x1 x2 * |calcBezier (initialGuess 11 (built 11 x1 x2 m) x) x1 x2 - x| ≤
          4 / 25 * getSlope (initialGuess 11 (built 11 x1 x2 m) x) x1 x2 ^ 2)) :
    |calcBezier (getT 11 (built 11 x1 x2 m) x) x1 x2 - x| ≤ 1 / 10000 := by
  have hmin : (0 : ℚ) < NewtonMinSlope := by unfold NewtonMinSlope; norm_num
  have hc := maxCurvature_nonneg x1 x2
  unfold getT
  simp only [built_x1, built_x2]
  split_ifs with hn hz
  · have hb : maxCurvature x1 x2 *
        |calcBezier (initialGuess 11 (built 11 x1 x2 m) x) x1 x2 - x| ≤
        4 / 25 * getSlope (initialGuess 11 (built 11 x1 x2 m) x) x1 x2 ^ 2 := by
      rcases hcond with h | ha | ⟨-, h⟩
      · have : getSlope (initialGuess 11 (built 11 x1 x2 m) x) x1 x2 < NewtonMinSlope := by
          linarith
        exact absurd hn (not_le.mpr this)
      · obtain ⟨l, l0, l1, -, hr, -, -⟩ :=
          guess_residual_bound x1 x2 h1 h1' h2 h2' m x hx0 hx1
        generalize initialGuess 11 (built 11 x1 x2 m) x = g at *
        have hl4 : l * (1 - l) ≤ 1 / 4 := by
          have e : 1 / 4 - l * (1 - l) = (l - 1 / 2) ^ 2 := by ring
          have := sq_nonneg (l - 1 / 2)
          linarith
        have hr400 : |calcBezier g x1 x2 - x| ≤ 1 / 400 * maxCurvature x1 x2 := by
          have := mul_le_mul_of_nonneg_right hl4 hc
          linarith
        have hcc : maxCurvature x1 x2 * maxCurvature x1 x2 ≤
            8 * getSlope g x1 x2 * (8 * getSlope g x1 x2) :=
          mul_le_mul ha ha hc (le_trans hc ha)
        have := mul_le_mul_of_nonneg_left hr400 hc
        have e : 4 / 25 * getSlope g x1 x2 ^ 2 =
            1 / 400 * (8 * getSlope g x1 x2 * (8 * getSlope g x1 x2)) := by ring
        rw [e]
        linarith
      · exact h
    have := (newton_from_guess x1 x2 h1 h1' h2 h2' m x hx0 hx1 (lt_of_lt_of_le hmin hn) hb).2
    exact le_trans this (by norm_num)
  · rw [zero_slope_guess_exact x1 x2 h1 h1' h2 h2' m x hx0 hx1 hz, sub_self, abs_zero]
    norm_num
  · exact bisection_residual x1 x2 h1 h1' h2 h2' m x hx0 hx1 (not_le.mp hn)

/-- C1 (witness): the ease-in-out curve `x1 = 0.42`, `x2 = 0.58` with 11 entries at `x = 0.3`,
where the Newton branch runs and the largest curvature is at most 8 times the slope at the
guess. -/
theorem roundtrip_from_conditioned_guess_witness :
    |calcBezier (getT 11 (built 11 (42 / 100) (58 / 100) (fun _ => 0)) (3 / 10))
        (42 / 100) (58 / 100) - 3 / 10| ≤ 1 / 10000 :=
  roundtrip_from_conditioned_guess (42 / 100) (58 / 100) (by norm_num) (by norm_num)
    (by norm_num) (by norm_num) (fun _ => 0) (3 / 10) (by norm_num) (by norm_num)
    (Or.inr (Or.inl (by decide!)))

/-- C2 (as stated, refuted): for `x1 = 1`, `x2 = 0` and `x = 0.5004` with the table of 11
entries, the scan selects `k = 5` with `table[5] ≤ x ≤ table[6]`, the Newton branch is taken,
and the value returned is above `(k + 1) * step = 0.6`.  The same happens inside the square, at
`x1 = 0.9999`, `x2 = 0.0001`, `x = 0.50035`.  In binary32 arithmetic the Newton branch also
leaves the interval at `x = 1` for `x1 = 7063171 / 2^27`, `x2 = 16771551 / 2^24`: the scan
selects `k = 9` and `getT(1)` is `1.0209199`, whereas exact arithmetic gives `1`. -/
theorem newton_leaves_bracket :
    scanIndex 11 (built 11 1 0 (fun _ => 0)) (1251 / 2500) = 5 ∧
      (built 11 1 0 (fun _ => 0)).m_Values 5 ≤ 1251 / 2500 ∧
      1251 / 2500 ≤ (built 11 1 0 (fun _ => 0)).m_Values 6 ∧
      NewtonMinSlope ≤ getSlope (initialGuess 11 (built 11 1 0 (fun _ => 0)) (1251 / 2500)) 1 0 ∧
      ((5 : ℚ) + 1) * SampleStepSize 11 < getT 11 (built 11 1 0 (fun _ => 0)) (1251 / 2500) ∧
      scanIndex 11 (built 11 (9999 / 10000) (1 / 10000) (fun _ => 0)) (10007 / 20000) = 5 ∧
      ((5 : ℚ) + 1) * SampleStepSize 11 <
        getT 11 (built 11 (9999 / 10000) (1 / 10000) (fun _ => 0)) (10007 / 20000) ∧
      Binary32.scanIndex 11
          (Binary32.built 11 (7063171 / 134217728) (16771551 / 16777216) (fun _ => 0)) 1 = 9 ∧
      ((9 : ℚ) + 1) * SampleStepSize 11 + 1 / 50 < Binary32.getT 11
          (Binary32.built 11 (7063171 / 134217728) (16771551 / 16777216) (fun _ => 0)) 1 ∧
      getT 11 (built 11 (7063171 / 134217728) (16771551 / 16777216) (fun _ => 0)) 1 = 1 := by
  decide!

/-- C2 (amended): in exact arithmetic, for control coordinates in `[0, 1]`, the built table of
11 entries and `x` in `[0, 1]`, the scan selects `k` with `table[k] ≤ x ≤ table[k + 1]`, and
the value returned by `getT` lies in `[k * step, (k + 1) * step]` when the slope at the initial
guess `g` is at most `9/10` of `NewtonMinSlope` (zero-slope and bisection branches, there for
every table size `N ≥ 2`), when the largest curvature is at most 8 times the slope at `g`, and
when the slope at `g` is at least `1/10`, the largest curvature times the residual
`r = |calcBezier(g) - x|` is at most `4/25` of the squared slope and `27/20 * r` is at most the
slope times the distance from `g` to either end of the interval.  In binary32 arithmetic the
bounds hold only up to rounding, and `k` is the index selected by the binary32 scan: for
`x1 = x2 = 1` and `x = 1` the scan selects `k = 9`, the accumulated `intervalStart` is
`0.900000095`, and `getT` returns `intervalStart + step = 1.00000012`, above
`(k + 1) * step = 1`; for `x1 = 0.01`, `x2 = 0` the entry `table[10]` is `0.99999994`, below
`x = 1`; for `x1 = 1 - 2^-24`, `x2 = 2^-24` and `x = 0.5 - 2^-25` the entry `table[5]` is
rounded below `x`, the binary32 scan selects `k = 5` where the exact scan selects `k = 4`, and
`getT` returns `0.503125`, in `[5 * step, 6 * step]`. -/
theorem getT_in_bracket (x1 x2 : ℚ) (h1 : 0 ≤ x1) (h1' : x1 ≤ 1) (h2 : 0 ≤ x2)
    (h2' : x2 ≤ 1) (m : Nat → ℚ) (x : ℚ) (hx0 : 0 ≤ x) (hx1 : x ≤ 1) :
    (built 11 x1 x2 m).m_Values (scanIndex 11 (built 11 x1 x2 m) x) ≤ x ∧
      x ≤ (built 11 x1 x2 m).m_Values (scanIndex 11 (built 11 x1 x2 m) x + 1) ∧
      (getSlope (initialGuess 11 (built 11 x1 x2 m) x) x1 x2 ≤ 9 / 10 * NewtonMinSlope ∨
        maxCurvature x1 x2 ≤ 8 * getSlope (initialGuess 11 (built 11 x1 x2 m) x) x1 x2 ∨
        (1 / 10 ≤ getSlope (initialGuess 11 (built 11 x1 x2 m) x) x1 x2 ∧
          maxCurvature x1 x2 * |calcBezier (initialGuess 11 (built 11 x1 x2 m) x) x1 x2 - x| ≤
            4 / 25 * getSlope (initialGuess 11 (built 11 x1 x2 m) x) x1 x2 ^ 2 ∧
          27 / 20 * |calcBezier (initialGuess 11 (built 11 x1 x2 m) x) x1 x2 - x| ≤
            getSlope (initialGuess 11 (built 11 x1 x2 m) x) x1 x2 *
              (initialGuess 11 (built 11 x1 x2 m) x -
                (scanIndex 11 (built 11 x1 x2 m) x : ℚ) * SampleStepSize 11) ∧
          27 / 20 * |calcBezier (initialGuess 11 (built 11 x1 x2 m) x) x1 x2 - x| ≤
            getSlope (initialGuess 11 (built 11 x1 x2 m) x) x1 x2 *
              (((scanIndex 11 (built 11 x1 x2 m) x : ℚ) + 1) * SampleStepSize 11 -
                initialGuess 11 (built 11 x1 x2 m) x)) →
        (scanIndex 11 (built 11 x1 x2 m) x : ℚ) * SampleStepSize 11 ≤
            getT 11 (built 11 x1 x2 m) x ∧
          getT 11 (built 11 x1 x2 m) x ≤
            ((scanIndex 11 (built 11 x1 x2 m) x : ℚ) + 1) * SampleStepSize 11) ∧
      (∀ (N : Nat), 2 ≤ N →
        getSlope (initialGuess N (built N x1 x2 m) x) x1 x2 ≤ 9 / 10 * NewtonMinSlope →
        (scanIndex N (built N x1 x2 m) x : ℚ) * SampleStepSize N ≤ getT N (built N x1 x2 m) x ∧
          getT N (built N x1 x2 m) x ≤
            ((scanIndex N (built N x1 x2 m) x : ℚ) + 1) * SampleStepSize N) ∧
      (Binary32.scanIndex 11 (Binary32.built 11 1 1 (fun _ => 0)) 1 = 9 ∧
        Binary32.scanStart 11 (Binary32.built 11 1 1 (fun _ => 0)) 1 = 1887437 / 2097152 ∧
        Binary32.getT 11 (Binary32.built 11 1 1 (fun _ => 0)) 1 =
          Binary32.add (Binary32.scanStart 11 (Binary32.built 11 1 1 (fun _ => 0)) 1)
            (Binary32.SampleStepSize 11) ∧
        Binary32.getT 11 (Binary32.built 11 1 1 (fun _ => 0)) 1 = 8388609 / 8388608 ∧
        ((9 : ℚ) + 1) * SampleStepSize 11 <
          Binary32.getT 11 (Binary32.built 11 1 1 (fun _ => 0)) 1 ∧
        (Binary32.built 11 (Binary32.roundNearest (1 / 100)) 0 (fun _ => 0)).m_Values 10 =
          16777215 / 16777216 ∧
        scanIndex 11 (built 11 (16777215 / 16777216) (1 / 16777216) (fun _ => 0))
          (16777215 / 33554432) = 4 ∧
        Binary32.scanIndex 11
          (Binary32.built 11 (16777215 / 16777216) (1 / 16777216) (fun _ => 0))
          (16777215 / 33554432) = 5 ∧
        Binary32.getT 11 (Binary32.built 11 (16777215 / 16777216) (1 / 16777216) (fun _ => 0))
          (16777215 / 33554432) = 8441037 / 16777216 ∧
        (5 : ℚ) * SampleStepSize 11 ≤ 8441037 / 16777216 ∧
        (8441037 : ℚ) / 16777216 ≤ (5 + 1) * SampleStepSize 11) := by
  have hN : 2 ≤ 11 := by decide
  have hmin : (0 : ℚ) < NewtonMinSlope := by unfold NewtonMinSlope; norm_num
  obtain ⟨b1, b2, _⟩ := built_bracket 11 hN x1 x2 h1 h1' h2 h2' m x hx0 hx1
  refine ⟨b1, b2, ?_, ?_, ?_⟩
  · intro hcond
    unfold getT
    simp only [built_x1, built_x2]
    split_ifs with hn hz
    · have hs := lt_of_lt_of_le hmin hn
      have e4 : NewtonIterations = 4 := rfl
      rw [e4]
      rcases hcond with h | h | ⟨-, hb, hlo, hhi⟩
      · have : getSlope (initialGuess 11 (built 11 x1 x2 m) x) x1 x2 < NewtonMinSlope := by
          linarith
        exact absurd hn (not_le.mpr this)
      · have := newton_steep_in_bracket x1 x2 h1 h1' h2 h2' m x hx0 hx1 hs h
        rw [step_eleven]
        constructor <;> linarith [this.1, this.2]
      · have hd := (newton_from_guess x1 x2 h1 h1' h2 h2' m x hx0 hx1 hs hb).1
        have d1 := le_of_mul_le_mul_left (le_trans hd hlo) hs
        have d2 := le_of_mul_le_mul_left (le_trans hd hhi) hs
        have := abs_le.mp d1
        have := abs_le.mp d2
        constructor <;> linarith
    · exact initialGuess_mem 11 hN x1 x2 h1 h1' h2 h2' m x hx0 hx1
    · have hs := step_pos 11 hN
      rw [(scan_spec 11 hN (built 11 x1 x2 m) x).2.1]
      have hmem := subdivideLoop_mem x x1 x2 SubdivisionMaxIterations 0
        ((scanIndex 11 (built 11 x1 x2 m) x : ℚ) * SampleStepSize 11)
        ((scanIndex 11 (built 11 x1 x2 m) x : ℚ) * SampleStepSize 11 + SampleStepSize 11)
        (by linarith)
      constructor
      · exact hmem.1
      · have := hmem.2
        linarith
  · intro N hN' hslope
    exact (getT_in_bracket_without_newton N hN' x1 x2 h1 h1' h2 h2' m x hx0 hx1).2.2
      (by linarith)
  · decide!

/-- C2 (witness): the ease-in-out curve `x1 = 0.42`, `x2 = 0.58` with 11 entries at `x = 0.3`,
where the largest curvature is at most 8 times the slope at the guess. -/
theorem getT_in_bracket_witness :
    (scanIndex 11 (built 11 (42 / 100) (58 / 100) (fun _ => 0)) (3 / 10) : ℚ) *
        SampleStepSize 11 ≤ getT 11 (built 11 (42 / 100) (58 / 100) (fun _ => 0)) (3 / 10) ∧
      getT 11 (built 11 (42 / 100) (58 / 100) (fun _ => 0)) (3 / 10) ≤
        ((scanIndex 11 (built 11 (42 / 100) (58 / 100) (fun _ => 0)) (3 / 10) : ℚ) + 1) *
          SampleStepSize 11 :=
  (getT_in_bracket (42 / 100) (58 / 100) (by norm_num) (by norm_num)
    (by norm_num) (by norm_num) (fun _ => 0) (3 / 10) (by norm_num) (by norm_num)).2.2.1
    (Or.inr (Or.inl (by decide!)))

end rive.CubicInterpolator

/-! ## The interpolator: the two polynomials -/

namespace rive.CubicInterpolator

theorem calcBezier_cast (t a1 a2 : ℚ) :
    ((calcBezier t a1 a2 : ℚ) : ℝ) = calcBezierIn (t : ℝ) (a1 : ℝ) (a2 : ℝ) := by
  unfold calcBezier calcBezierIn; push_cast; ring

theorem getSlope_cast (t a1 a2 : ℚ) :
    ((getSlope t a1 a2 : ℚ) : ℝ) = getSlopeIn (t : ℝ) (a1 : ℝ) (a2 : ℝ) := by
  unfold getSlope getSlopeIn; push_cast; ring

/-- C16: `calcBezier` is the cubic Bézier coordinate with end values `0` and `1`: its Horner
form equals the Bernstein form `3 (1-t)^2 t a1 + 3 (1-t) t^2 a2 + t^3`, over the rationals of
the model and over the reals; its value is `0` at `t = 0` and `1` at `t = 1`. -/
theorem calcBezier_is_bernstein :
    (∀ t a1 a2 : ℚ, calcBezier t a1 a2 =
        3 * (1 - t) ^ 2 * t * a1 + 3 * (1 - t) * t ^ 2 * a2 + t ^ 3) ∧
      (∀ t a1 a2 : ℝ, calcBezierIn t a1 a2 =
        3 * (1 - t) ^ 2 * t * a1 + 3 * (1 - t) * t ^ 2 * a2 + t ^ 3) ∧
      (∀ t a1 a2 : ℚ, ((calcBezier t a1 a2 : ℚ) : ℝ) = calcBezierIn (t : ℝ) (a1 : ℝ) (a2 : ℝ)) ∧
      (∀ a1 a2 : ℚ, calcBezier 0 a1 a2 = 0 ∧ calcBezier 1 a1 a2 = 1) ∧
      (∀ a1 a2 : ℝ, calcBezierIn 0 a1 a2 = 0 ∧ calcBezierIn 1 a1 a2 = 1) := by
  refine ⟨?_, ?_, calcBezier_cast, ?_, ?_⟩
  · intro t a1 a2; unfold calcBezier; ring
  · intro t a1 a2; unfold calcBezierIn; ring
  · intro a1 a2; exact ⟨calcBezier_zero a1 a2, calcBezier_one a1 a2⟩
  · intro a1 a2; unfold calcBezierIn; constructor <;> ring

theorem hasDerivAt_calcBezierIn (t a1 a2 : ℝ) :
    HasDerivAt (fun s : ℝ => calcBezierIn s a1 a2) (getSlopeIn t a1 a2) t := by
  have h1 : HasDerivAt (fun s : ℝ => s) 1 t := hasDerivAt_id t
  have h2 := ((((h1.const_mul (1 - 3 * a2 + 3 * a1)).add_const (3 * a2 - 6 * a1)).mul h1).add_const
    (3 * a1)).mul h1
  have e : (fun s : ℝ => calcBezierIn s a1 a2) =
      fun s : ℝ => (((1 - 3 * a2 + 3 * a1) * s + (3 * a2 - 6 * a1)) * s + 3 * a1) * s := by
    funext s; rfl
  rw [e]
  convert h2 using 1
  unfold getSlopeIn; ring

end rive.CubicInterpolator

/-! ## The interpolator: the records of the refinement loops -/

namespace rive.CubicInterpolator

theorem newtonTrace_length (x x1 x2 : ℚ) (n : Nat) (g : ℚ) :
    (newtonTrace x x1 x2 n g).length ≤ n := by
  induction n generalizing g with
  | zero => simp [newtonTrace]
  | succ n ih =>
    unfold newtonTrace
    simp only []
    split_ifs with h0
    · simp
    · have := ih (g - (calcBezier g x1 x2 - x) / getSlope g x1 x2)
      simp only [List.length_cons]
      omega

/-- The value of the Newton loop is the guess set by its last update, or the initial guess when
it makes no update. -/
theorem newtonLoop_eq_last (x x1 x2 : ℚ) (n : Nat) (g : ℚ) :
    newtonLoop x x1 x2 n g = ((newtonTrace x x1 x2 n g).getLast?.map Prod.snd).getD g := by
  induction n generalizing g with
  | zero => simp [newtonTrace, newtonLoop]
  | succ n ih =>
    unfold newtonTrace newtonLoop
    simp only []
    split_ifs with h0
    · simp
    · rw [ih, List.getLast?_cons]
      cases (newtonTrace x x1 x2 n (g - (calcBezier g x1 x2 - x) / getSlope g x1 x2)).getLast? <;>
        simp

/-- Every update recorded by the Newton loop divides by the slope at the guess it updates, and
that slope is not zero. -/
theorem newtonTrace_divisor (x x1 x2 : ℚ) (n : Nat) (g : ℚ) :
    ∀ e ∈ newtonTrace x x1 x2 n g, ∃ prev : ℚ, e.1 = getSlope prev x1 x2 ∧ e.1 ≠ 0 ∧
      e.2 = prev - (calcBezier prev x1 x2 - x) / e.1 := by
  induction n generalizing g with
  | zero => simp [newtonTrace]
  | succ n ih =>
    unfold newtonTrace
    simp only []
    split_ifs with h0
    · simp
    · intro e he
      rcases List.mem_cons.mp he with h | h
      · exact ⟨g, by rw [h], by rw [h]; exact h0, by rw [h]⟩
      · exact ih _ e h

theorem subdivideStep_currentT (x x1 x2 lo hi : ℚ) :
    (subdivideStep x x1 x2 lo hi).currentT = lo + (hi - lo) / 2 := by
  unfold subdivideStep
  simp only []
  split_ifs <;> rfl

theorem subdivideLoop_succ (x x1 x2 : ℚ) (fuel i : Nat) (lo hi : ℚ) :
    subdivideLoop x x1 x2 (fuel + 1) i lo hi =
      if |calcBezier (subdivideStep x x1 x2 lo hi).currentT x1 x2 - x| > SubdivisionPrecision ∧
          i + 1 < SubdivisionMaxIterations then
        subdivideLoop x x1 x2 fuel (i + 1) (subdivideStep x x1 x2 lo hi).intervalStart
          (subdivideStep x x1 x2 lo hi).aB
      else (subdivideStep x x1 x2 lo hi).currentT := by
  rw [subdivideStep_currentT, subdivideLoop.eq_2]
  unfold subdivideStep
  simp only []
  split_ifs <;> rfl

theorem subdivideTrace_succ (x x1 x2 : ℚ) (fuel i : Nat) (lo hi : ℚ) :
    subdivideTrace x x1 x2 (fuel + 1) i lo hi =
      if |calcBezier (subdivideStep x x1 x2 lo hi).currentT x1 x2 - x| > SubdivisionPrecision ∧
          i + 1 < SubdivisionMaxIterations then
        subdivideStep x x1 x2 lo hi :: subdivideTrace x x1 x2 fuel (i + 1)
          (subdivideStep x x1 x2 lo hi).intervalStart (subdivideStep x x1 x2 lo hi).aB
      else [subdivideStep x x1 x2 lo hi] := by
  rfl

/-- The bisection loop runs its body at least once and at most as often as the iteration
counter allows. -/
theorem subdivideTrace_length (x x1 x2 : ℚ) (fuel i : Nat) (lo hi : ℚ) (hf : 1 ≤ fuel)
    (hfi : fuel + i = SubdivisionMaxIterations) :
    1 ≤ (subdivideTrace x x1 x2 fuel i lo hi).length ∧
      (subdivideTrace x x1 x2 fuel i lo hi).length ≤ fuel := by
  induction fuel generalizing i lo hi with
  | zero => omega
  | succ f ih =>
    rw [subdivideTrace_succ]
    split_ifs with hc
    · obtain ⟨a, b⟩ := ih (i + 1) (subdivideStep x x1 x2 lo hi).intervalStart
        (subdivideStep x x1 x2 lo hi).aB (by have := hc.2; omega) (by omega)
      simp only [List.length_cons]
      omega
    · simp

/-- The value of the bisection loop is the midpoint of its last iteration. -/
theorem subdivideTrace_last (x x1 x2 : ℚ) (fuel i : Nat) (lo hi : ℚ) (hf : 1 ≤ fuel)
    (hfi : fuel + i = SubdivisionMaxIterations) (e : SubdivisionStep)
    (he : (subdivideTrace x x1 x2 fuel i lo hi)[(subdivideTrace x x1 x2 fuel i lo hi).length - 1]? =
      some e) :
    e.currentT = subdivideLoop x x1 x2 fuel i lo hi := by
  induction fuel generalizing i lo hi with
  | zero => omega
  | succ f ih =>
    rw [subdivideLoop_succ]
    rw [subdivideTrace_succ] at he
    by_cases hc : |calcBezier (subdivideStep x x1 x2 lo hi).currentT x1 x2 - x| >
        SubdivisionPrecision ∧ i + 1 < SubdivisionMaxIterations
    · rw [if_pos hc] at he ⊢
      have hl := subdivideTrace_length x x1 x2 f (i + 1) (subdivideStep x x1 x2 lo hi).intervalStart
        (subdivideStep x x1 x2 lo hi).aB (by have := hc.2; omega) (by omega)
      simp only [List.length_cons] at he
      have e1 : (subdivideTrace x x1 x2 f (i + 1) (subdivideStep x x1 x2 lo hi).intervalStart
          (subdivideStep x x1 x2 lo hi).aB).length + 1 - 1 =
          ((subdivideTrace x x1 x2 f (i + 1) (subdivideStep x x1 x2 lo hi).intervalStart
            (subdivideStep x x1 x2 lo hi).aB).length - 1) + 1 := by omega
      rw [e1, List.getElem?_cons_succ] at he
      exact ih (i + 1) _ _ (by have := hc.2; omega) (by omega) he
    · rw [if_neg hc] at he ⊢
      simp at he
      rw [he]

/-- Every iteration of the bisection loop but the last has a residual above the precision. -/
theorem subdivideTrace_inner (x x1 x2 : ℚ) (fuel i : Nat) (lo hi : ℚ) (n : Nat)
    (e : SubdivisionStep) (he : (subdivideTrace x x1 x2 fuel i lo hi)[n]? = some e)
    (hn : n + 1 < (subdivideTrace x x1 x2 fuel i lo hi).length) :
    SubdivisionPrecision < |calcBezier e.currentT x1 x2 - x| := by
  induction fuel generalizing i lo hi n with
  | zero =>
    have : (subdivideTrace x x1 x2 0 i lo hi).length = 1 := rfl
    omega
  | succ f ih =>
    rw [subdivideTrace_succ] at he hn
    by_cases hc : |calcBezier (subdivideStep x x1 x2 lo hi).currentT x1 x2 - x| >
        SubdivisionPrecision ∧ i + 1 < SubdivisionMaxIterations
    · rw [if_pos hc] at he hn
      cases n with
      | zero =>
        simp at he
        rw [← he]
        exact hc.1
      | succ n =>
        rw [List.getElem?_cons_succ] at he
        simp only [List.length_cons] at hn
        exact ih (i + 1) _ _ n he (by omega)
    · rw [if_neg hc] at hn
      simp at hn

/-- When the bisection loop stops before the iteration counter is used up, the residual at its
last midpoint is within the precision. -/
theorem subdivideTrace_early (x x1 x2 : ℚ) (fuel i : Nat) (lo hi : ℚ) (hf : 1 ≤ fuel)
    (hfi : fuel + i = SubdivisionMaxIterations) (e : SubdivisionStep)
    (he : (subdivideTrace x x1 x2 fuel i lo hi)[(subdivideTrace x x1 x2 fuel i lo hi).length - 1]? =
      some e)
    (hlt : (subdivideTrace x x1 x2 fuel i lo hi).length < fuel) :
    |calcBezier e.currentT x1 x2 - x| ≤ SubdivisionPrecision := by
  induction fuel generalizing i lo hi with
  | zero => omega
  | succ f ih =>
    rw [subdivideTrace_succ] at he hlt
    by_cases hc : |calcBezier (subdivideStep x x1 x2 lo hi).currentT x1 x2 - x| >
        SubdivisionPrecision ∧ i + 1 < SubdivisionMaxIterations
    · rw [if_pos hc] at he hlt
      have hl := subdivideTrace_length x x1 x2 f (i + 1) (subdivideStep x x1 x2 lo hi).intervalStart
        (subdivideStep x x1 x2 lo hi).aB (by have := hc.2; omega) (by omega)
      simp only [List.length_cons] at he hlt
      have e1 : (subdivideTrace x x1 x2 f (i + 1) (subdivideStep x x1 x2 lo hi).intervalStart
          (subdivideStep x x1 x2 lo hi).aB).length + 1 - 1 =
          ((subdivideTrace x x1 x2 f (i + 1) (subdivideStep x x1 x2 lo hi).intervalStart
            (subdivideStep x x1 x2 lo hi).aB).length - 1) + 1 := by omega
      rw [e1, List.getElem?_cons_succ] at he
      exact ih (i + 1) _ _ (by have := hc.2; omega) (by omega) he (by omega)
    · rw [if_neg hc] at he hlt
      simp at he hlt
      rw [← he]
      by_contra hp
      exact hc ⟨not_le.mp hp, by omega⟩

end rive.CubicInterpolator

namespace rive.CubicInterpolator

/-- One execution of the body of the bisection loop halves the bracket and keeps `x` between
the values of the curve at its ends; the midpoint becomes one of the ends. -/
theorem subdivideStep_bracket (x x1 x2 lo hi : ℚ) (hle : lo ≤ hi)
    (hlo : calcBezier lo x1 x2 ≤ x) (hhi : x ≤ calcBezier hi x1 x2) :
    lo ≤ (subdivideStep x x1 x2 lo hi).intervalStart ∧
      (subdivideStep x x1 x2 lo hi).intervalStart ≤ (subdivideStep x x1 x2 lo hi).aB ∧
      (subdivideStep x x1 x2 lo hi).aB ≤ hi ∧
      (subdivideStep x x1 x2 lo hi).aB - (subdivideStep x x1 x2 lo hi).intervalStart =
        (hi - lo) / 2 ∧
      calcBezier (subdivideStep x x1 x2 lo hi).intervalStart x1 x2 ≤ x ∧
      x ≤ calcBezier (subdivideStep x x1 x2 lo hi).aB x1 x2 ∧
      ((subdivideStep x x1 x2 lo hi).currentT = (subdivideStep x x1 x2 lo hi).intervalStart ∨
        (subdivideStep x x1 x2 lo hi).currentT = (subdivideStep x x1 x2 lo hi).aB) := by
  unfold subdivideStep
  simp only []
  split_ifs with hp
  · refine ⟨le_refl _, by linarith, by linarith, by ring, hlo, by linarith, Or.inr rfl⟩
  · refine ⟨by linarith, by linarith, le_refl _, by ring, by linarith, hhi, Or.inl rfl⟩

/-- After `n + 1` iterations of the bisection loop the bracket lies in the initial one, its
width is the initial width divided by `2 ^ (n + 1)`, and `x` lies between the values of the
curve at its ends. -/
theorem subdivideTrace_bracket (x x1 x2 : ℚ) (fuel i : Nat) (lo hi : ℚ) (hle : lo ≤ hi)
    (hlo : calcBezier lo x1 x2 ≤ x) (hhi : x ≤ calcBezier hi x1 x2) (n : Nat)
    (e : SubdivisionStep) (he : (subdivideTrace x x1 x2 fuel i lo hi)[n]? = some e) :
    lo ≤ e.intervalStart ∧ e.intervalStart ≤ e.aB ∧ e.aB ≤ hi ∧
      e.aB - e.intervalStart = (hi - lo) / 2 ^ (n + 1) ∧
      calcBezier e.intervalStart x1 x2 ≤ x ∧ x ≤ calcBezier e.aB x1 x2 ∧
      (e.currentT = e.intervalStart ∨ e.currentT = e.aB) := by
  induction fuel generalizing i lo hi n with
  | zero =>
    have hT : subdivideTrace x x1 x2 0 i lo hi = [subdivideStep x x1 x2 lo hi] := rfl
    rw [hT] at he
    cases n with
    | zero =>
      simp at he
      rw [← he, zero_add, pow_one]
      exact subdivideStep_bracket x x1 x2 lo hi hle hlo hhi
    | succ n => simp at he
  | succ f ih =>
    rw [subdivideTrace_succ] at he
    split_ifs at he with hc
    · cases n with
      | zero =>
        simp at he
        rw [← he, zero_add, pow_one]
        exact subdivideStep_bracket x x1 x2 lo hi hle hlo hhi
      | succ n =>
        rw [List.getElem?_cons_succ] at he
        obtain ⟨s1, s2, s3, s4, s5, s6, _⟩ := subdivideStep_bracket x x1 x2 lo hi hle hlo hhi
        obtain ⟨a1, a2, a3, a4, a5, a6, a7⟩ := ih (i + 1) _ _ s2 s5 s6 n he
        refine ⟨by linarith, a2, by linarith, ?_, a5, a6, a7⟩
        rw [a4, s4, div_div]
        congr 1
        ring
    · cases n with
      | zero =>
        simp at he
        rw [← he, zero_add, pow_one]
        exact subdivideStep_bracket x x1 x2 lo hi hle hlo hhi
      | succ n => simp at he

/-- More fuel than the iteration counter allows does not change the bisection loop. -/
theorem subdivideLoop_fuel (x x1 x2 : ℚ) (fuel i : Nat) (lo hi : ℚ) (hf : 1 ≤ fuel)
    (hfi : fuel + i = SubdivisionMaxIterations) (extra : Nat) :
    subdivideLoop x x1 x2 (fuel + extra) i lo hi = subdivideLoop x x1 x2 fuel i lo hi := by
  induction fuel generalizing i lo hi with
  | zero => omega
  | succ f ih =>
    have e : f + 1 + extra = (f + extra) + 1 := by omega
    rw [e, subdivideLoop_succ, subdivideLoop_succ]
    split_ifs with hc
    · exact ih (i + 1) _ _ (by have := hc.2; omega) (by omega)
    · rfl

/-- More fuel than the length of the table does not change the scan loop. -/
theorem scanLoop_fuel (N : Nat) (m : Nat → ℚ) (x : ℚ) (last fuel cs : Nat) (start : ℚ)
    (h1 : cs ≤ last) (h2 : last - cs ≤ fuel) (extra : Nat) :
    scanLoop N m x last (fuel + extra) cs start = scanLoop N m x last fuel cs start := by
  induction fuel generalizing cs start with
  | zero =>
    have e : cs = last := by omega
    cases extra with
    | zero => rfl
    | succ k =>
      have e2 : 0 + (k + 1) = k + 1 := by omega
      rw [e2]
      unfold scanLoop
      rw [if_neg (fun h => h.1 e)]
  | succ f ih =>
    have e : f + 1 + extra = (f + extra) + 1 := by omega
    rw [e]
    unfold scanLoop
    split_ifs with hc
    · exact ih (cs + 1) _ (by have := hc.1; omega) (by omega)
    · rfl

end rive.CubicInterpolator

/-! ## The interpolator: scenarios and the scan, continued -/

namespace rive.CubicInterpolator

/-- C11: for the ease-in-out curve `x1 = 0.42`, `x2 = 0.58` with 11 entries, `getT(0) = 0`,
`getT(1) = 1` and `0.45 < getT(0.5) < 0.55` (in fact `getT(0.5) = 0.5`). -/
theorem ease_in_out_scenario :
    getT 11 (built 11 (42 / 100) (58 / 100) (fun _ => 0)) 0 = 0 ∧
      getT 11 (built 11 (42 / 100) (58 / 100) (fun _ => 0)) 1 = 1 ∧
      45 / 100 < getT 11 (built 11 (42 / 100) (58 / 100) (fun _ => 0)) (1 / 2) ∧
      getT 11 (built 11 (42 / 100) (58 / 100) (fun _ => 0)) (1 / 2) < 55 / 100 ∧
      getT 11 (built 11 (42 / 100) (58 / 100) (fun _ => 0)) (1 / 2) = 1 / 2 := by
  decide!

/-- C14: for control coordinates in `[0, 1]` and `N ≥ 2`, the built table is strictly
increasing, `table[i] < table[i + 1]` for `i < N - 1`, with `table[0] = 0` and
`table[N - 1] = 1`; for every `x` the index `k` selected by the scan has `k + 1 ≤ N - 1` and the
divisor `table[k + 1] - table[k]` of the interpolation is strictly positive. -/
theorem built_table_increasing (N : Nat) (hN : 2 ≤ N) (x1 x2 : ℚ) (h1 : 0 ≤ x1) (h1' : x1 ≤ 1)
    (h2 : 0 ≤ x2) (h2' : x2 ≤ 1) (m : Nat → ℚ) :
    (∀ i, i < N - 1 → (built N x1 x2 m).m_Values i < (built N x1 x2 m).m_Values (i + 1)) ∧
      (built N x1 x2 m).m_Values 0 = 0 ∧
      (built N x1 x2 m).m_Values (N - 1) = 1 ∧
      ∀ x : ℚ, scanIndex N (built N x1 x2 m) x + 1 ≤ N - 1 ∧
        0 < (built N x1 x2 m).m_Values (scanIndex N (built N x1 x2 m) x + 1) -
          (built N x1 x2 m).m_Values (scanIndex N (built N x1 x2 m) x) := by
  have hlt := built_lt N hN x1 x2 h1 h1' h2 h2' m
  refine ⟨fun i hi => hlt i (i + 1) (Nat.lt_succ_self _) (by omega), built_first N hN x1 x2 m,
    built_last N hN x1 x2 m, ?_⟩
  intro x
  have hk := (scan_spec N hN (built N x1 x2 m) x).1
  refine ⟨by omega, ?_⟩
  have := hlt (scanIndex N (built N x1 x2 m) x) (scanIndex N (built N x1 x2 m) x + 1)
    (Nat.lt_succ_self _) (by omega)
  linarith

/-- C14 (witness): the table of `(1/4, 3/4)` with 11 entries, between entries 3 and 4. -/
theorem built_table_increasing_witness :
    (built 11 (1 / 4) (3 / 4) (fun _ => 0)).m_Values 3 <
        (built 11 (1 / 4) (3 / 4) (fun _ => 0)).m_Values (3 + 1) ∧
      (built 11 (1 / 4) (3 / 4) (fun _ => 0)).m_Values (11 - 1) = 1 :=
  ⟨(built_table_increasing 11 (by decide) (1 / 4) (3 / 4) (by norm_num) (by norm_num)
      (by norm_num) (by norm_num) (fun _ => 0)).1 3 (by decide),
    (built_table_increasing 11 (by decide) (1 / 4) (3 / 4) (by norm_num) (by norm_num)
      (by norm_num) (by norm_num) (fun _ => 0)).2.2.1⟩

/-- C19: for a table of `N ≥ 2` entries and every `x`, the scan of `getT` ends with an index
`k ≤ N - 2` and `intervalStart = k * step`; `k` is the least index with `table[k + 1] > x`, or
`N - 2` when no index up to `N - 2` has one; and when `table[0] ≤ x ≤ table[N - 1]`,
`table[k] ≤ x ≤ table[k + 1]`. -/
theorem scan_postcondition (N : Nat) (hN : 2 ≤ N) (c : CubicInterpolator) (x : ℚ) :
    scanIndex N c x ≤ N - 2 ∧
      scanStart N c x = (scanIndex N c x : ℚ) * SampleStepSize N ∧
      (∀ j, j < scanIndex N c x → ¬ x < c.m_Values (j + 1)) ∧
      (x < c.m_Values (scanIndex N c x + 1) ∨
        (scanIndex N c x = N - 2 ∧ ∀ j, j ≤ N - 2 → ¬ x < c.m_Values (j + 1))) ∧
      (c.m_Values 0 ≤ x → x ≤ c.m_Values (N - 1) →
        c.m_Values (scanIndex N c x) ≤ x ∧ x ≤ c.m_Values (scanIndex N c x + 1)) := by
  obtain ⟨a1, a2, a3, a4⟩ := scan_spec N hN c x
  have hbelow : ∀ j, j < scanIndex N c x → ¬ x < c.m_Values (j + 1) :=
    fun j hj => not_lt.mpr (a3 (j + 1) (by omega) (by omega))
  refine ⟨a1, a2, hbelow, ?_, ?_⟩
  · by_cases hx : x < c.m_Values (scanIndex N c x + 1)
    · exact Or.inl hx
    · right
      have hk : scanIndex N c x = N - 2 := by
        by_contra hne
        exact hx (a4 hne)
      refine ⟨hk, ?_⟩
      intro j hj
      rcases Nat.lt_or_ge j (scanIndex N c x) with h | h
      · exact hbelow j h
      · have e : j = scanIndex N c x := by omega
        rw [e]; exact hx
  · intro h0 hl
    constructor
    · by_cases hk : scanIndex N c x = 0
      · rw [hk]; exact h0
      · exact a3 _ (by omega) (le_refl _)
    · by_cases hk : scanIndex N c x = N - 2
      · have e : scanIndex N c x + 1 = N - 1 := by omega
        rw [e]; exact hl
      · exact (a4 hk).le

/-- C19 (witness): the table of `(1/4, 3/4)` with 11 entries and `x = 0.3`. -/
theorem scan_postcondition_witness :
    (built 11 (1 / 4) (3 / 4) (fun _ => 0)).m_Values
        (scanIndex 11 (built 11 (1 / 4) (3 / 4) (fun _ => 0)) (3 / 10)) ≤ 3 / 10 ∧
      3 / 10 ≤ (built 11 (1 / 4) (3 / 4) (fun _ => 0)).m_Values
        (scanIndex 11 (built 11 (1 / 4) (3 / 4) (fun _ => 0)) (3 / 10) + 1) :=
  (scan_postcondition 11 (by decide) (built 11 (1 / 4) (3 / 4) (fun _ => 0)) (3 / 10)).2.2.2.2
    (by decide!) (by decide!)

end rive.CubicInterpolator

namespace rive.CubicInterpolator

/-- C13 (as stated, refuted): for the strictly increasing table of `(1/3, 2/3)` with 11 entries
(`table[i] = i / 10`) and `x = 0.25`, the largest `k` with `table[k] ≤ x` is `2`; `getT` uses
the interval start `0.2 = k * step` and the guess `0.25`, where the spec's wording gives the
interval start `0.1 = (k - 1) * step` and the guess `0.15`. -/
theorem spec_interval_start_off_by_one :
    (∀ i, i < 10 → (built 11 (1 / 3) (2 / 3) (fun _ => 0)).m_Values i <
        (built 11 (1 / 3) (2 / 3) (fun _ => 0)).m_Values (i + 1)) ∧
      (built 11 (1 / 3) (2 / 3) (fun _ => 0)).m_Values 1 ≤ 1 / 4 ∧
      1 / 4 < (built 11 (1 / 3) (2 / 3) (fun _ => 0)).m_Values (11 - 1) ∧
      specScanIndex 11 (built 11 (1 / 3) (2 / 3) (fun _ => 0)).m_Values (1 / 4) = 2 ∧
      scanStart 11 (built 11 (1 / 3) (2 / 3) (fun _ => 0)) (1 / 4) = 2 / 10 ∧
      specIntervalStart 11 2 = 1 / 10 ∧
      initialGuess 11 (built 11 (1 / 3) (2 / 3) (fun _ => 0)) (1 / 4) = 1 / 4 ∧
      specGuess 11 (built 11 (1 / 3) (2 / 3) (fun _ => 0)).m_Values (1 / 4) 2 = 3 / 20 := by
  decide!

/-- C13 (amended): for a table of `N ≥ 3` entries that is strictly increasing and `x` with
`table[1] ≤ x < table[N - 1]`, let `k` be the largest index with `1 ≤ k < N - 1` and
`table[k] ≤ x`; then `x < table[k + 1]`, the scan of `getT` selects `k`, the interval start is
`k * step` and the initial guess is
`k * step + step * (x - table[k]) / (table[k + 1] - table[k])`. -/
theorem initial_guess_from_scan (N : Nat) (hN : 3 ≤ N) (c : CubicInterpolator) (x : ℚ)
    (hinc : ∀ i j, i < j → j ≤ N - 1 → c.m_Values i < c.m_Values j)
    (h1 : c.m_Values 1 ≤ x) (h2 : x < c.m_Values (N - 1)) :
    (1 ≤ specScanIndex N c.m_Values x ∧ specScanIndex N c.m_Values x < N - 1 ∧
        c.m_Values (specScanIndex N c.m_Values x) ≤ x ∧
        ∀ j, 1 ≤ j → j < N - 1 → c.m_Values j ≤ x → j ≤ specScanIndex N c.m_Values x) ∧
      x < c.m_Values (specScanIndex N c.m_Values x + 1) ∧
      scanIndex N c x = specScanIndex N c.m_Values x ∧
      scanStart N c x = (specScanIndex N c.m_Values x : ℚ) * SampleStepSize N ∧
      initialGuess N c x = (specScanIndex N c.m_Values x : ℚ) * SampleStepSize N +
        SampleStepSize N * ((x - c.m_Values (specScanIndex N c.m_Values x)) /
          (c.m_Values (specScanIndex N c.m_Values x + 1) -
            c.m_Values (specScanIndex N c.m_Values x))) := by
  have hP : (1 ≤ specScanIndex N c.m_Values x ∧ c.m_Values (specScanIndex N c.m_Values x) ≤ x) :=
    Nat.findGreatest_spec (P := fun k => 1 ≤ k ∧ c.m_Values k ≤ x) (by omega : 1 ≤ N - 2)
      ⟨le_refl _, h1⟩
  have hle : specScanIndex N c.m_Values x ≤ N - 2 := Nat.findGreatest_le _
  have hmax : ∀ j, 1 ≤ j → j < N - 1 → c.m_Values j ≤ x → j ≤ specScanIndex N c.m_Values x :=
    fun j hj hj' hjx => Nat.le_findGreatest (P := fun k => 1 ≤ k ∧ c.m_Values k ≤ x)
      (by omega) ⟨hj, hjx⟩
  obtain ⟨a1, a2, a3, a4⟩ := scan_spec N (by omega) c x
  generalize hk : specScanIndex N c.m_Values x = k at *
  have hup : x < c.m_Values (k + 1) := by
    by_cases hk2 : k + 1 < N - 1
    · by_contra hcon
      have := hmax (k + 1) (by omega) hk2 (not_lt.mp hcon)
      omega
    · have e : k + 1 = N - 1 := by omega
      rw [e]; exact h2
  have hidx : scanIndex N c x = k := by
    apply le_antisymm
    · by_cases h0 : scanIndex N c x = 0
      · omega
      · exact hmax _ (by omega) (by omega) (a3 _ (by omega) (le_refl _))
    · by_contra hcon
      have hlt : scanIndex N c x < k := by omega
      have hx := a4 (by omega)
      have hmono : c.m_Values (scanIndex N c x + 1) ≤ c.m_Values k := by
        rcases Nat.lt_or_ge (scanIndex N c x + 1) k with h | h
        · exact (hinc _ _ h (by omega)).le
        · have e : scanIndex N c x + 1 = k := by omega
          rw [e]
      linarith [hP.2]
  refine ⟨⟨hP.1, by omega, hP.2, hmax⟩, hup, hidx, ?_, ?_⟩
  · rw [a2, hidx]
  · unfold initialGuess
    simp only []
    rw [a2, hidx]
    ring

/-- C13 (witness): the table of `(1/3, 2/3)` with 11 entries and `x = 0.25`. -/
theorem initial_guess_from_scan_witness :
    scanStart 11 (built 11 (1 / 3) (2 / 3) (fun _ => 0)) (1 / 4) =
      (specScanIndex 11 (built 11 (1 / 3) (2 / 3) (fun _ => 0)).m_Values (1 / 4) : ℚ) *
        SampleStepSize 11 :=
  (initial_guess_from_scan 11 (by decide) (built 11 (1 / 3) (2 / 3) (fun _ => 0)) (1 / 4)
    (fun i j hij hj => built_lt 11 (by decide) (1 / 3) (2 / 3) (by norm_num) (by norm_num)
      (by norm_num) (by norm_num) (fun _ => 0) i j hij hj)
    (by decide!) (by decide!)).2.2.2.1

end rive.CubicInterpolator

/-! ## The interpolator: iteration bounds, slopes and the bisection bracket -/

namespace rive.CubicInterpolator

/-- C15: `getT` is the Newton loop, the unrefined guess or the bisection loop, according to the
slope at the guess.  The Newton loop makes at most `NewtonIterations = 4` updates and returns
the guess set by the last one.  The bisection loop makes at least one and at most
`SubdivisionMaxIterations = 10` halvings and returns the last midpoint; every midpoint before
the last has a residual above `1e-7`, and when fewer than 10 halvings are made the residual at
the last midpoint is at most `1e-7`.  Neither result depends on fuel beyond these bounds, and
for `N ≥ 2` the scan makes at most `N - 2` steps. -/
theorem iteration_bounds (x x1 x2 g lo hi : ℚ) :
    (newtonTrace x x1 x2 NewtonIterations g).length ≤ 4 ∧
      newtonLoop x x1 x2 NewtonIterations g =
        ((newtonTrace x x1 x2 NewtonIterations g).getLast?.map Prod.snd).getD g ∧
      1 ≤ (subdivideTrace x x1 x2 SubdivisionMaxIterations 0 lo hi).length ∧
      (subdivideTrace x x1 x2 SubdivisionMaxIterations 0 lo hi).length ≤ 10 ∧
      (∀ e, (subdivideTrace x x1 x2 SubdivisionMaxIterations 0 lo hi)[
            (subdivideTrace x x1 x2 SubdivisionMaxIterations 0 lo hi).length - 1]? = some e →
          e.currentT = subdivideLoop x x1 x2 SubdivisionMaxIterations 0 lo hi ∧
            ((subdivideTrace x x1 x2 SubdivisionMaxIterations 0 lo hi).length < 10 →
              |calcBezier e.currentT x1 x2 - x| ≤ 1 / 10000000)) ∧
      (∀ n e, (subdivideTrace x x1 x2 SubdivisionMaxIterations 0 lo hi)[n]? = some e →
          n + 1 < (subdivideTrace x x1 x2 SubdivisionMaxIterations 0 lo hi).length →
            1 / 10000000 < |calcBezier e.currentT x1 x2 - x|) ∧
      (∀ extra, subdivideLoop x x1 x2 (SubdivisionMaxIterations + extra) 0 lo hi =
          subdivideLoop x x1 x2 SubdivisionMaxIterations 0 lo hi) ∧
      (∀ (N : Nat) (c : CubicInterpolator),
          getT N c x =
            if NewtonMinSlope ≤ getSlope (initialGuess N c x) c.x1 c.x2 then
              newtonLoop x c.x1 c.x2 NewtonIterations (initialGuess N c x)
            else if getSlope (initialGuess N c x) c.x1 c.x2 = 0 then initialGuess N c x
            else subdivideLoop x c.x1 c.x2 SubdivisionMaxIterations 0 (scanStart N c x)
              (scanStart N c x + SampleStepSize N)) ∧
      (∀ (N : Nat) (c : CubicInterpolator), 2 ≤ N →
          scanIndex N c x ≤ N - 2 ∧
            ∀ extra, scanLoop N c.m_Values x (N - 1) (N + extra) 1 0 =
              scanLoop N c.m_Values x (N - 1) N 1 0) := by
  have hprec : SubdivisionPrecision = 1 / 10000000 := rfl
  have hl := subdivideTrace_length x x1 x2 SubdivisionMaxIterations 0 lo hi (by decide) rfl
  refine ⟨newtonTrace_length x x1 x2 NewtonIterations g,
    newtonLoop_eq_last x x1 x2 NewtonIterations g, hl.1, hl.2, ?_, ?_, ?_, ?_, ?_⟩
  · intro e he
    refine ⟨subdivideTrace_last x x1 x2 SubdivisionMaxIterations 0 lo hi (by decide) rfl e he, ?_⟩
    intro hlt
    rw [← hprec]
    exact subdivideTrace_early x x1 x2 SubdivisionMaxIterations 0 lo hi (by decide) rfl e he hlt
  · intro n e he hn
    rw [← hprec]
    exact subdivideTrace_inner x x1 x2 SubdivisionMaxIterations 0 lo hi n e he hn
  · intro extra
    exact subdivideLoop_fuel x x1 x2 SubdivisionMaxIterations 0 lo hi (by decide) rfl extra
  · intro N c
    rfl
  · intro N c hN
    exact ⟨(scan_spec N hN c x).1,
      fun extra => scanLoop_fuel N c.m_Values x (N - 1) N 1 0 (by omega) (by omega) extra⟩

/-- C15 (witness): the bisection for `x1 = 1`, `x2 = 0`, `x = 0.5001` from the bracket
`[0.5, 0.6]`: the first midpoint `0.55` is not the last, and its residual is above `1e-7`. -/
theorem iteration_bounds_witness :
    (1 : ℚ) / 10000000 < |calcBezier (subdivideStep (5001 / 10000) 1 0 (1 / 2) (6 / 10)).currentT
      1 0 - 5001 / 10000| :=
  (iteration_bounds (5001 / 10000) 1 0 (1 / 2) (1 / 2) (6 / 10)).2.2.2.2.2.1 0
    (subdivideStep (5001 / 10000) 1 0 (1 / 2) (6 / 10)) (by decide!) (by decide!)

/-- C17: over the reals `getSlope` is the derivative of `calcBezier` with respect to `t`, and
the rational functions of the model are their restrictions: the value of `getSlope` at
rational arguments is the derivative of the real curve there.  The Newton loop of `getT` is the
iteration of the Newton-Raphson step for `calcBezier(t) = x`: with no iteration left it returns
its guess, at a guess `g` of slope zero it returns `g`, and otherwise it continues from
`g - (calcBezier(g) - x) / getSlope(g)`, the zero of the tangent
`s ↦ (calcBezier(g) - x) + getSlope(g) * (s - g)` of the residual at `g`; so the loop with `n`
iterations is the `n`-fold iterate of the map that makes this step where the slope is not zero.
When the slope at its initial guess reaches `NewtonMinSlope`, `getT` returns the result of
`NewtonIterations = 4` such steps from the initial guess. -/
theorem getSlope_is_derivative :
    (∀ t a1 a2 : ℝ, HasDerivAt (fun s : ℝ => calcBezierIn s a1 a2) (getSlopeIn t a1 a2) t) ∧
      (∀ t a1 a2 : ℚ, ((getSlope t a1 a2 : ℚ) : ℝ) =
        deriv (fun s : ℝ => calcBezierIn s (a1 : ℝ) (a2 : ℝ)) (t : ℝ)) ∧
      (∀ t a1 a2 : ℚ, ((calcBezier t a1 a2 : ℚ) : ℝ) = calcBezierIn (t : ℝ) (a1 : ℝ) (a2 : ℝ)) ∧
      (∀ t h a1 a2 : ℚ, calcBezier (t + h) a1 a2 - calcBezier t a1 a2 =
        h * (getSlope t a1 a2 +
          h * ((3 * (1 - 3 * a2 + 3 * a1) * t + (3 * a2 - 6 * a1)) +
            (1 - 3 * a2 + 3 * a1) * h))) ∧
      (∀ (x x1 x2 g : ℚ) (n : Nat), getSlope g x1 x2 ≠ 0 →
        newtonLoop x x1 x2 (n + 1) g =
          newtonLoop x x1 x2 n (g - (calcBezier g x1 x2 - x) / getSlope g x1 x2)) ∧
      (∀ x x1 x2 g : ℚ, newtonLoop x x1 x2 0 g = g) ∧
      (∀ (x x1 x2 g : ℚ) (n : Nat), getSlope g x1 x2 = 0 → newtonLoop x x1 x2 (n + 1) g = g) ∧
      (∀ x x1 x2 g : ℚ, getSlope g x1 x2 ≠ 0 →
        newtonLoop x x1 x2 1 g = g - (calcBezier g x1 x2 - x) / getSlope g x1 x2 ∧
          (calcBezier g x1 x2 - x) + getSlope g x1 x2 * (newtonLoop x x1 x2 1 g - g) = 0) ∧
      (∀ (x x1 x2 g : ℚ) (n : Nat), newtonLoop x x1 x2 n g =
        (fun t => if getSlope t x1 x2 = 0 then t
          else t - (calcBezier t x1 x2 - x) / getSlope t x1 x2)^[n] g) ∧
      (∀ (N : Nat) (c : CubicInterpolator) (x : ℚ),
        NewtonMinSlope ≤ getSlope (initialGuess N c x) c.x1 c.x2 →
          getT N c x = newtonLoop x c.x1 c.x2 4 (initialGuess N c x) ∧
            getT N c x = newtonLoop x c.x1 c.x2 3 (initialGuess N c x -
              (calcBezier (initialGuess N c x) c.x1 c.x2 - x) /
                getSlope (initialGuess N c x) c.x1 c.x2)) := by
  have hstep : ∀ (x x1 x2 g : ℚ) (n : Nat), getSlope g x1 x2 ≠ 0 →
      newtonLoop x x1 x2 (n + 1) g =
        newtonLoop x x1 x2 n (g - (calcBezier g x1 x2 - x) / getSlope g x1 x2) := by
    intro x x1 x2 g n h0
    rw [newtonLoop.eq_2]
    simp only []
    rw [if_neg h0]
  have hzero : ∀ (x x1 x2 g : ℚ) (n : Nat), getSlope g x1 x2 = 0 →
      newtonLoop x x1 x2 (n + 1) g = g := by
    intro x x1 x2 g n h0
    rw [newtonLoop.eq_2]
    simp only []
    rw [if_pos h0]
  refine ⟨hasDerivAt_calcBezierIn, ?_, calcBezier_cast, ?_, hstep, fun _ _ _ _ => rfl, hzero,
    ?_, ?_, ?_⟩
  · intro t a1 a2
    rw [getSlope_cast, (hasDerivAt_calcBezierIn (t : ℝ) (a1 : ℝ) (a2 : ℝ)).deriv]
  · intro t h a1 a2
    rw [calcBezier_add]; ring
  · intro x x1 x2 g h0
    have e : newtonLoop x x1 x2 1 g = g - (calcBezier g x1 x2 - x) / getSlope g x1 x2 := by
      rw [hstep x x1 x2 g 0 h0]
      rfl
    refine ⟨e, ?_⟩
    rw [e]
    field_simp
    ring
  · intro x x1 x2 g n
    induction n generalizing g with
    | zero => rfl
    | succ n ih =>
      rw [Function.iterate_succ_apply]
      by_cases h0 : getSlope g x1 x2 = 0
      · have hf : (fun t => if getSlope t x1 x2 = 0 then t
            else t - (calcBezier t x1 x2 - x) / getSlope t x1 x2) g = g := if_pos h0
        rw [hzero x x1 x2 g n h0, if_pos h0]
        exact (@Function.iterate_fixed ℚ (fun t => if getSlope t x1 x2 = 0 then t
          else t - (calcBezier t x1 x2 - x) / getSlope t x1 x2) g hf n).symm
      · rw [hstep x x1 x2 g n h0, ih, if_neg h0]
  · intro N c x h
    have e : getT N c x = newtonLoop x c.x1 c.x2 4 (initialGuess N c x) := by
      unfold getT
      simp only []
      rw [if_pos h]
      rfl
    refine ⟨e, ?_⟩
    have hmin : (0 : ℚ) < NewtonMinSlope := by unfold NewtonMinSlope; norm_num
    rw [e, hstep x c.x1 c.x2 (initialGuess N c x) 3 (ne_of_gt (lt_of_lt_of_le hmin h))]

/-- C17 (witness): for `x1 = 1/4`, `x2 = 3/4` with 11 entries and `x = 0.3`, the slope at the
initial guess reaches `NewtonMinSlope`, and `getT` is four Newton-Raphson steps from it. -/
theorem getSlope_is_derivative_witness :
    getT 11 (built 11 (1 / 4) (3 / 4) (fun _ => 0)) (3 / 10) =
      newtonLoop (3 / 10) (built 11 (1 / 4) (3 / 4) (fun _ => 0)).x1
        (built 11 (1 / 4) (3 / 4) (fun _ => 0)).x2 4
        (initialGuess 11 (built 11 (1 / 4) (3 / 4) (fun _ => 0)) (3 / 10)) :=
  (getSlope_is_derivative.2.2.2.2.2.2.2.2.2 11 (built 11 (1 / 4) (3 / 4) (fun _ => 0)) (3 / 10)
    (by decide!)).1

/-- C18: when the slope at the initial guess is `0`, `getT` returns the initial guess; when it
is at least `NewtonMinSlope`, `getT` is the Newton loop, every update of which divides by the
slope at the guess it updates, a slope that is not zero, and the loop returns its current guess
without any division as soon as the slope there is `0`; when the slope is not zero and below
`NewtonMinSlope` (every negative slope included), `getT` is the bisection loop. -/
theorem zero_slope_not_divided (N : Nat) (c : CubicInterpolator) (x : ℚ) :
    (getSlope (initialGuess N c x) c.x1 c.x2 = 0 → getT N c x = initialGuess N c x) ∧
      (NewtonMinSlope ≤ getSlope (initialGuess N c x) c.x1 c.x2 →
        getT N c x = newtonLoop x c.x1 c.x2 NewtonIterations (initialGuess N c x)) ∧
      (∀ (n : Nat) (g : ℚ), ∀ e ∈ newtonTrace x c.x1 c.x2 n g,
        ∃ prev : ℚ, e.1 = getSlope prev c.x1 c.x2 ∧ e.1 ≠ 0 ∧
          e.2 = prev - (calcBezier prev c.x1 c.x2 - x) / e.1) ∧
      (∀ (n : Nat) (g : ℚ), getSlope g c.x1 c.x2 = 0 →
        newtonLoop x c.x1 c.x2 (n + 1) g = g ∧ newtonTrace x c.x1 c.x2 (n + 1) g = []) ∧
      (getSlope (initialGuess N c x) c.x1 c.x2 ≠ 0 →
        getSlope (initialGuess N c x) c.x1 c.x2 < NewtonMinSlope →
        getT N c x = subdivideLoop x c.x1 c.x2 SubdivisionMaxIterations 0 (scanStart N c x)
          (scanStart N c x + SampleStepSize N)) ∧
      (getSlope (initialGuess N c x) c.x1 c.x2 < 0 →
        getT N c x = subdivideLoop x c.x1 c.x2 SubdivisionMaxIterations 0 (scanStart N c x)
          (scanStart N c x + SampleStepSize N)) := by
  have hmin : (0 : ℚ) < NewtonMinSlope := by unfold NewtonMinSlope; norm_num
  have hbis : getSlope (initialGuess N c x) c.x1 c.x2 ≠ 0 →
      getSlope (initialGuess N c x) c.x1 c.x2 < NewtonMinSlope →
      getT N c x = subdivideLoop x c.x1 c.x2 SubdivisionMaxIterations 0 (scanStart N c x)
        (scanStart N c x + SampleStepSize N) := by
    intro h0 hlt
    unfold getT
    simp only []
    rw [if_neg (not_le.mpr hlt), if_neg h0]
  refine ⟨?_, ?_, fun n g => newtonTrace_divisor x c.x1 c.x2 n g, ?_, hbis, ?_⟩
  · intro h0
    unfold getT
    simp only []
    rw [if_neg (by rw [h0]; exact not_le.mpr hmin), if_pos h0]
  · intro h
    unfold getT
    simp only []
    rw [if_pos h]
  · intro n g h0
    constructor
    · rw [newtonLoop.eq_2]
      simp only []
      rw [if_pos h0]
    · rw [newtonTrace.eq_2]
      simp only []
      rw [if_pos h0]
  · intro hneg
    exact hbis (ne_of_lt hneg) (lt_trans hneg hmin)

/-- C18 (witness): `x1 = 1`, `x2 = 0`, `x = 0.5` with 11 entries: the guess is `0.5`, where the
slope is `0`, and `getT` returns it. -/
theorem zero_slope_not_divided_witness :
    getT 11 (built 11 1 0 (fun _ => 0)) (1 / 2) =
      initialGuess 11 (built 11 1 0 (fun _ => 0)) (1 / 2) :=
  (zero_slope_not_divided 11 (built 11 1 0 (fun _ => 0)) (1 / 2)).1 (by decide!)

end rive.CubicInterpolator

namespace rive.CubicInterpolator

/-- A bracket whose ends have curve values on both sides of `x` contains a real solution of
`calcBezier(t) = x` (intermediate value theorem). -/
theorem real_root_between (x1 x2 x lo hi : ℚ) (hle : lo ≤ hi)
    (hlo : calcBezier lo x1 x2 ≤ x) (hhi : x ≤ calcBezier hi x1 x2) :
    ∃ tstar : ℝ, (lo : ℝ) ≤ tstar ∧ tstar ≤ (hi : ℝ) ∧
      calcBezierIn tstar (x1 : ℝ) (x2 : ℝ) = (x : ℝ) := by
  have hc : Continuous (fun s : ℝ => calcBezierIn s (x1 : ℝ) (x2 : ℝ)) := by
    unfold calcBezierIn
    continuity
  have hle' : (lo : ℝ) ≤ (hi : ℝ) := by exact_mod_cast hle
  have hmem : (x : ℝ) ∈ Set.Icc (calcBezierIn (lo : ℝ) (x1 : ℝ) (x2 : ℝ))
      (calcBezierIn (hi : ℝ) (x1 : ℝ) (x2 : ℝ)) := by
    rw [← calcBezier_cast, ← calcBezier_cast]
    exact ⟨by exact_mod_cast hlo, by exact_mod_cast hhi⟩
  obtain ⟨t, ht, hft⟩ := intermediate_value_Icc hle' hc.continuousOn hmem
  exact ⟨t, ht.1, ht.2, hft⟩

/-- C20: when `getT` takes the bisection branch from the bracket `[lo0, hi0]` with
`lo0 = intervalStart = k * step`, `hi0 = lo0 + step = (k + 1) * step` and
`calcBezier(lo0) ≤ x ≤ calcBezier(hi0)`, then after iteration `n + 1` the bracket lies in
`[lo0, hi0]`, has width `step / 2 ^ (n + 1)` and has `x` between the curve values at its ends;
`getT` returns the midpoint of the last iteration, which lies in `[lo0, hi0]`, and either its
residual is at most `1e-7` or it is within `step / 2 ^ 10` of a real `t*` in `[lo0, hi0]` with
`calcBezier(t*) = x`. -/
theorem bisection_keeps_root_bracketed (N : Nat) (hN : 2 ≤ N) (c : CubicInterpolator) (x : ℚ)
    (hs0 : getSlope (initialGuess N c x) c.x1 c.x2 ≠ 0)
    (hs : getSlope (initialGuess N c x) c.x1 c.x2 < NewtonMinSlope)
    (hlo : calcBezier (scanStart N c x) c.x1 c.x2 ≤ x)
    (hhi : x ≤ calcBezier (scanStart N c x + SampleStepSize N) c.x1 c.x2) :
    scanStart N c x = (scanIndex N c x : ℚ) * SampleStepSize N ∧
      scanStart N c x + SampleStepSize N = ((scanIndex N c x : ℚ) + 1) * SampleStepSize N ∧
      (∀ n e, (subdivideTrace x c.x1 c.x2 SubdivisionMaxIterations 0 (scanStart N c x)
            (scanStart N c x + SampleStepSize N))[n]? = some e →
          scanStart N c x ≤ e.intervalStart ∧ e.intervalStart ≤ e.aB ∧
            e.aB ≤ scanStart N c x + SampleStepSize N ∧
            e.aB - e.intervalStart = SampleStepSize N / 2 ^ (n + 1) ∧
            calcBezier e.intervalStart c.x1 c.x2 ≤ x ∧ x ≤ calcBezier e.aB c.x1 c.x2) ∧
      (∀ e, (subdivideTrace x c.x1 c.x2 SubdivisionMaxIterations 0 (scanStart N c x)
            (scanStart N c x + SampleStepSize N))[
              (subdivideTrace x c.x1 c.x2 SubdivisionMaxIterations 0 (scanStart N c x)
                (scanStart N c x + SampleStepSize N)).length - 1]? = some e →
          e.currentT = getT N c x) ∧
      scanStart N c x ≤ getT N c x ∧ getT N c x ≤ scanStart N c x + SampleStepSize N ∧
      (|calcBezier (getT N c x) c.x1 c.x2 - x| ≤ 1 / 10000000 ∨
        ∃ tstar : ℝ, (scanStart N c x : ℝ) ≤ tstar ∧
          tstar ≤ ((scanStart N c x + SampleStepSize N : ℚ) : ℝ) ∧
          calcBezierIn tstar (c.x1 : ℝ) (c.x2 : ℝ) = (x : ℝ) ∧
          |((getT N c x : ℚ) : ℝ) - tstar| ≤ ((SampleStepSize N / 2 ^ 10 : ℚ) : ℝ)) := by
  have hstep := step_pos N hN
  have hle : scanStart N c x ≤ scanStart N c x + SampleStepSize N := by linarith
  have hget : getT N c x = subdivideLoop x c.x1 c.x2 SubdivisionMaxIterations 0 (scanStart N c x)
      (scanStart N c x + SampleStepSize N) := by
    unfold getT
    simp only []
    rw [if_neg (not_le.mpr hs), if_neg hs0]
  have hw : scanStart N c x + SampleStepSize N - scanStart N c x = SampleStepSize N := by ring
  have hbr := subdivideTrace_bracket x c.x1 c.x2 SubdivisionMaxIterations 0 (scanStart N c x)
    (scanStart N c x + SampleStepSize N) hle hlo hhi
  have hlen := subdivideTrace_length x c.x1 c.x2 SubdivisionMaxIterations 0 (scanStart N c x)
    (scanStart N c x + SampleStepSize N) (by decide) rfl
  have hlast := subdivideTrace_last x c.x1 c.x2 SubdivisionMaxIterations 0 (scanStart N c x)
    (scanStart N c x + SampleStepSize N) (by decide) rfl
  have hmem := subdivideLoop_mem x c.x1 c.x2 SubdivisionMaxIterations 0 (scanStart N c x)
    (scanStart N c x + SampleStepSize N) hle
  have hk := (scan_spec N hN c x).2.1
  refine ⟨hk, by rw [hk]; ring, ?_, ?_, ?_, ?_, ?_⟩
  · intro n e he
    obtain ⟨a1, a2, a3, a4, a5, a6, _⟩ := hbr n e he
    rw [hw] at a4
    exact ⟨a1, a2, a3, a4, a5, a6⟩
  · intro e he
    rw [hget]
    exact hlast e he
  · rw [hget]; exact hmem.1
  · rw [hget]; exact hmem.2
  · generalize hT : subdivideTrace x c.x1 c.x2 SubdivisionMaxIterations 0 (scanStart N c x)
      (scanStart N c x + SampleStepSize N) = T at hbr hlen hlast
    have hidx : T.length - 1 < T.length := by omega
    have he : T[T.length - 1]? = some (T.get ⟨T.length - 1, hidx⟩) :=
      List.getElem?_eq_getElem hidx
    generalize T.get ⟨T.length - 1, hidx⟩ = e at he
    have het := hlast e he
    rw [← hget] at het
    by_cases hshort : T.length < SubdivisionMaxIterations
    · left
      have := subdivideTrace_early x c.x1 c.x2 SubdivisionMaxIterations 0 (scanStart N c x)
        (scanStart N c x + SampleStepSize N) (by decide) rfl e (by rw [hT]; exact he)
        (by rw [hT]; exact hshort)
      rw [het] at this
      exact this
    · right
      have hfull : T.length - 1 = 9 := by
        have : SubdivisionMaxIterations = 10 := rfl
        omega
      rw [hfull] at he
      obtain ⟨a1, a2, a3, a4, a5, a6, a7⟩ := hbr 9 e he
      rw [hw] at a4
      obtain ⟨t, t1, t2, t3⟩ := real_root_between c.x1 c.x2 x e.intervalStart e.aB a2 a5 a6
      have c1 : ((scanStart N c x : ℚ) : ℝ) ≤ (e.intervalStart : ℝ) := by exact_mod_cast a1
      have c3 : (e.aB : ℝ) ≤ ((scanStart N c x + SampleStepSize N : ℚ) : ℝ) := by
        exact_mod_cast a3
      have c4 : (e.aB : ℝ) - (e.intervalStart : ℝ) = ((SampleStepSize N / 2 ^ 10 : ℚ) : ℝ) := by
        rw [← a4]; push_cast; ring
      refine ⟨t, by linarith, by linarith, t3, ?_⟩
      rw [← het, abs_le]
      rcases a7 with a7 | a7
      · rw [a7]; constructor <;> linarith
      · rw [a7]; constructor <;> linarith

/-- C20 (witness): `x1 = 1`, `x2 = 0`, `x = 0.5001` with 11 entries, where `getT` bisects the
bracket `[0.5, 0.6]`. -/
theorem bisection_keeps_root_bracketed_witness :
    scanStart 11 (built 11 1 0 (fun _ => 0)) (5001 / 10000) ≤
        getT 11 (built 11 1 0 (fun _ => 0)) (5001 / 10000) ∧
      getT 11 (built 11 1 0 (fun _ => 0)) (5001 / 10000) ≤
        scanStart 11 (built 11 1 0 (fun _ => 0)) (5001 / 10000) + SampleStepSize 11 :=
  ⟨(bisection_keeps_root_bracketed 11 (by decide) (built 11 1 0 (fun _ => 0)) (5001 / 10000)
      (by decide!) (by decide!) (by decide!) (by decide!)).2.2.2.2.1,
    (bisection_keeps_root_bracketed 11 (by decide) (built 11 1 0 (fun _ => 0)) (5001 / 10000)
      (by decide!) (by decide!) (by decide!) (by decide!)).2.2.2.2.2.1⟩

end rive.CubicInterpolator
